import Mathlib

/-!
# Verification development for `api/code/api.go`

Shallow embedding of the PSK store handlers (`reportPSKAuthFailure`,
`reportPSKAuthSuccess`, `setPSK`, `doReloadPSKFiles`, `loadPSKFiles`), of the zone store
handlers (`addZoneMember`, `delZoneMember`, `updateDevice`) and of the verdict-map
synchronization (`getNFTVerdictMap`, `getMapVerdict`, `flushVmaps`, `populateVmapEntries`,
`refreshClientZones`, `dhcpUpdate`, `updateLocalMappings`).

Conventions of the embedding:

* a Go `string` is a Lean `String`; `len(s)` is `String.utf8ByteSize` (Go counts bytes);
* a Go `map[string]PSKEntry` is an association list read with `PSKMap.get`, written with
  `PSKMap.put` and `PSKMap.del`; the order of the list carries no meaning;
* a file on disk is the value last written to it: `getPSKJson` returns the persisted map,
  `savePSKs` replaces it; a handler is a function from the persisted value before the
  request to the persisted value after it;
* `unicode.ToLower`, the case table of the Go library, is the parameter `lowerRune`;
* the processes that the code starts live in a `World`: a command is an argument list, its
  run gives an exit status and a next state, and the code that runs commands passes the
  state along; `nftWorld` is a model of the packet-filter tool, `fixedWorld` a world with
  given map contents and given failing commands, and `loggedWorld w` is `w` keeping the
  record of the commands submitted to it, on which the statements about Flush and
  Repopulate are made;
* a panic or `log.Fatal` is the result `none`.
-/

namespace Super

/-! ## Strings -/

/-- Go `unicode.IsSpace`: the code points with the Unicode White_Space property. -/
def isSpace (c : Char) : Bool :=
  let n := c.toNat
  (0x09 ≤ n && n ≤ 0x0D) || n == 0x20 || n == 0x85 || n == 0xA0 || n == 0x1680
    || (0x2000 ≤ n && n ≤ 0x200A) || n == 0x2028 || n == 0x2029 || n == 0x202F
    || n == 0x205F || n == 0x3000

/-- Go `strings.TrimSpace` on the code points of a string. -/
def trimSpaceChars (l : List Char) : List Char :=
  ((l.dropWhile isSpace).reverse.dropWhile isSpace).reverse

/-- Go `strings.TrimSpace`. -/
def TrimSpace (s : String) : String := ⟨trimSpaceChars s.data⟩

/-- Go `strings.ToLower`, which maps `unicode.ToLower` over the code points. -/
def ToLower (lowerRune : Char → Char) (s : String) : String := ⟨s.data.map lowerRune⟩

/-- Go `strings.Split(s, sep)` for a separator of one code point, on code points. -/
def splitChars (sep : Char) : List Char → List (List Char)
  | [] => [[]]
  | c :: cs =>
    if c = sep then [] :: splitChars sep cs
    else
      match splitChars sep cs with
      | [] => [[c]]
      | p :: ps => (c :: p) :: ps

/-- Go `strings.Split(s, sep)` for a separator of one code point. -/
def Split (s : String) (sep : Char) : List String :=
  (splitChars sep s.data).map String.mk

/-- Source `trimLower`. -/
def trimLower (lowerRune : Char → Char) (a : String) : String :=
  TrimSpace (ToLower lowerRune a)

/-- Source `equalMAC`. -/
def equalMAC (lowerRune : Char → Char) (a b : String) : Bool :=
  trimLower lowerRune a == trimLower lowerRune b

/-! ## PSK store -/

/-- Source `PSKEntry` (the field `Type` is spelled `Typ`, `Type` being reserved). -/
structure PSKEntry where
  Typ : String
  Mac : String
  Psk : String
  Comment : String
  deriving DecidableEq, Repr

/-- Go `map[string]PSKEntry`. -/
abbrev PSKMap := List (String × PSKEntry)

/-- Map read `m[k]` with its `exists` flag. -/
def PSKMap.get (m : PSKMap) (k : String) : Option PSKEntry :=
  match m with
  | [] => none
  | (k', v) :: rest => if k' = k then some v else PSKMap.get rest k

/-- Go `delete(m, k)`. -/
def PSKMap.del (m : PSKMap) (k : String) : PSKMap :=
  m.filter (fun kv => decide (kv.1 ≠ k))

/-- Map write `m[k] = v`. -/
def PSKMap.put (m : PSKMap) (k : String) (v : PSKEntry) : PSKMap :=
  (k, v) :: PSKMap.del m k

/-- Source `PSKAuthFailure`, the body of `PUT /reportPSKAuthFailure`. -/
structure PSKAuthFailure where
  Typ : String
  MAC : String
  Reason : String
  Status : String
  deriving DecidableEq, Repr

/-- Source `PSKAuthSuccess`, the body of `PUT /reportPSKAuthSuccess`. -/
structure PSKAuthSuccess where
  Iface : String
  Event : String
  MAC : String
  Status : String
  deriving DecidableEq, Repr

/-- What a PSK handler leaves behind: the persisted map (`psks.json`) and the HTTP status. -/
structure PSKOutcome where
  persisted : PSKMap
  code : Nat
  deriving DecidableEq, Repr

/-- Source `reportPSKAuthFailure`. The handler writes the re-keyed map with `savePSKs` and
only afterwards runs `delete(psks, "pending")` on its in-memory copy, which is then dropped. -/
def reportPSKAuthFailure (file : PSKMap) (pskf : PSKAuthFailure) : PSKOutcome :=
  if pskf.MAC = "" ∨ (pskf.Typ ≠ "sae" ∧ pskf.Typ ≠ "wpa")
      ∨ (pskf.Reason ≠ "noentry" ∧ pskf.Reason ≠ "mismatch") then
    ⟨file, 400⟩
  else
    let psks := file
    match psks.get "pending" with
    | some pendingPSK =>
      if pskf.Reason = "noentry" then
        let auth_type := if pskf.Typ = "wpa" then "wpa2" else pskf.Typ
        let psk : PSKEntry :=
          { Psk := pendingPSK.Psk, Typ := auth_type, Mac := pskf.MAC,
            Comment := pendingPSK.Comment }
        let psks := file
        let psks := psks.put psk.Mac psk
        let saved := psks
        let _dropped := psks.del "pending"
        ⟨saved, 200⟩
      else ⟨file, 200⟩
    | none => ⟨file, 200⟩

/-- The loop `for k := range psks { if k == pska.MAC { foundPSK = true; break } }`. -/
def foundPSK (psks : PSKMap) (mac : String) : Bool :=
  psks.any (fun kv => decide (kv.1 = mac))

/-- Source `reportPSKAuthSuccess`. -/
def reportPSKAuthSuccess (file : PSKMap) (pska : PSKAuthSuccess) : PSKOutcome :=
  if pska.Iface = "" ∨ pska.Event ≠ "AP-STA-CONNECTED" ∨ pska.MAC = "" then
    ⟨file, 400⟩
  else
    let psks := file
    match psks.get "pending" with
    | some pendingPsk =>
      if foundPSK psks pska.MAC then ⟨file, 200⟩
      else
        let pendingPsk := { pendingPsk with Mac := pska.MAC }
        let psks := psks.put pska.MAC pendingPsk
        let psks := psks.del "pending"
        ⟨psks, 200⟩
    | none => ⟨file, 200⟩

/-- Source `setPSK` for the `PUT` method. `generated` is the value `genSecurePassword()`
draws when it is called. `len(psk.Psk)` counts bytes. -/
def setPSK (file : PSKMap) (psk : PSKEntry) (generated : String) : PSKOutcome :=
  let psks := file
  if psk.Typ ≠ "sae" ∧ psk.Typ ≠ "wpa2" then ⟨file, 400⟩
  else if psk.Psk.utf8ByteSize > 0 ∧ psk.Psk.utf8ByteSize < 8 then ⟨file, 400⟩
  else
    let psk := if psk.Psk = "" then { psk with Psk := generated } else psk
    let psks := if psk.Mac = "" then psks.put "pending" psk else psks.put psk.Mac psk
    ⟨psks, 200⟩

/-- `SetCredential(mac, type, psk, comment)`: the `PUT /setPSK` request with that body. -/
def SetCredential (file : PSKMap) (mac typ psk comment generated : String) : PSKOutcome :=
  setPSK file ⟨typ, mac, psk, comment⟩ generated

/-- `OnAuthFailure(type, mac, reason)`: the `PUT /reportPSKAuthFailure` request. -/
def OnAuthFailure (file : PSKMap) (typ mac reason : String) : PSKOutcome :=
  reportPSKAuthFailure file ⟨typ, mac, reason, ""⟩

/-- `OnAuthSuccess(iface, event, mac)`: the `PUT /reportPSKAuthSuccess` request. -/
def OnAuthSuccess (file : PSKMap) (iface event mac : String) : PSKOutcome :=
  reportPSKAuthSuccess file ⟨iface, event, mac, ""⟩

/-! ## Credential files -/

/-- The two files written for the authentication daemon: `sae_passwords` and `wpa2pskfile`. -/
structure PSKFiles where
  sae : String
  wpa2 : String
  deriving DecidableEq, Repr

/-- Body of the loop `for keyval, entry := range psks` of `doReloadPSKFiles`. -/
def reloadStep (acc : PSKFiles) (kv : String × PSKEntry) : PSKFiles :=
  let keyval := kv.1
  let entry := kv.2
  if keyval = "pending" then
    if entry.Typ = "sae" then
      { acc with sae := entry.Psk ++ "|mac=ff:ff:ff:ff:ff:ff" ++ "\n" ++ acc.sae }
    else if entry.Typ = "wpa2" then
      { acc with wpa2 := "00:00:00:00:00:00 " ++ entry.Psk ++ "\n" ++ acc.wpa2 }
    else acc
  else
    if entry.Typ = "sae" then
      { acc with sae := acc.sae ++ (entry.Psk ++ "|mac=" ++ entry.Mac ++ "\n") }
    else if entry.Typ = "wpa2" then
      { acc with wpa2 := acc.wpa2 ++ (entry.Mac ++ " " ++ entry.Psk ++ "\n") }
    else acc

/-- Source `doReloadPSKFiles`: the content written to the two files. `visit` is the
sequence of `(key, entry)` pairs that `range psks` yields, in the order it yields them. -/
def doReloadPSKFiles (visit : List (String × PSKEntry)) : PSKFiles :=
  visit.foldl reloadStep ⟨"", ""⟩

/-- First loop of `loadPSKFiles`, over the lines of `sae_passwords`. `none` is the
index-out-of-range panic of `parts[1]`. -/
def loadSaeLines (pskEntries : PSKMap) : List String → Option PSKMap
  | [] => some pskEntries
  | entry :: rest =>
    let entry := TrimSpace entry
    if entry = "" then loadSaeLines pskEntries rest
    else
      let parts := Split entry '|'
      match parts[0]?, parts[1]? with
      | some psk, some mac =>
        match (Split mac '=')[1]? with
        | some mac => loadSaeLines (pskEntries.put mac ⟨"sae", mac, psk, ""⟩) rest
        | none => none
      | _, _ => none

/-- Second loop of `loadPSKFiles`, over the lines of `wpa2pskfile`. -/
def loadWpa2Lines (pskEntries : PSKMap) : List String → Option PSKMap
  | [] => some pskEntries
  | entry :: rest =>
    let entry := TrimSpace entry
    if entry = "" then loadWpa2Lines pskEntries rest
    else
      let parts := Split entry ' '
      match parts[0]?, parts[1]? with
      | some mac, some psk => loadWpa2Lines (pskEntries.put mac ⟨"wpa2", mac, psk, ""⟩) rest
      | _, _ => none

/-- Source `loadPSKFiles`, reading the two files from `files`. -/
def loadPSKFiles (files : PSKFiles) : Option PSKMap :=
  match loadSaeLines [] (Split files.sae '\n') with
  | some pskEntries => loadWpa2Lines pskEntries (Split files.wpa2 '\n')
  | none => none

/-- The `(type, mac, psk)` triple of an entry. -/
def PSKEntry.triple (e : PSKEntry) : String × String × String := (e.Typ, e.Mac, e.Psk)

/-- The placeholder MAC under which `doReloadPSKFiles` writes the pending entry. -/
def placeholderMac (typ : String) : String :=
  if typ = "sae" then "ff:ff:ff:ff:ff:ff" else "00:00:00:00:00:00"

/-- The entry as `doReloadPSKFiles` writes it: a MAC-keyed entry as it is, the entry under
`pending` with the placeholder MAC of its type. -/
def writtenEntry (kv : String × PSKEntry) : PSKEntry :=
  if kv.1 = "pending" then { kv.2 with Mac := placeholderMac kv.2.Typ } else kv.2

/-- The line `<psk>|mac=<mac>` of the SAE file carries the entry: the PSK has no `|` and no
line end and does not start with white space, the MAC has no `|`, no `=` and no line end and
does not end with white space. -/
def saeCarries (e : PSKEntry) : Bool :=
  e.Psk.data.all (fun c => c != '|' && c != '\n')
    && e.Psk.data.head?.all (fun c => !isSpace c)
    && e.Mac.data.all (fun c => c != '|' && c != '=' && c != '\n')
    && e.Mac.data.getLast?.all (fun c => !isSpace c)

/-- The line `<mac> <psk>` of the WPA2 file carries the entry: MAC and PSK are not empty and
have no space and no line end, the MAC does not start and the PSK does not end with white
space. -/
def wpa2Carries (e : PSKEntry) : Bool :=
  !e.Mac.data.isEmpty && e.Mac.data.all (fun c => c != ' ' && c != '\n')
    && e.Mac.data.head?.all (fun c => !isSpace c)
    && !e.Psk.data.isEmpty && e.Psk.data.all (fun c => c != ' ' && c != '\n')
    && e.Psk.data.getLast?.all (fun c => !isSpace c)

/-- The line of the file of its type carries the entry. -/
def lineCarries (e : PSKEntry) : Bool :=
  if e.Typ = "sae" then saeCarries e else wpa2Carries e

/-- The line `<psk>|mac=<mac>` of the SAE file, with its line end. -/
def saeLine (e : PSKEntry) : String := e.Psk ++ "|mac=" ++ e.Mac ++ "\n"

/-- The line `<mac> <psk>` of the WPA2 file, with its line end. -/
def wpa2Line (e : PSKEntry) : String := e.Mac ++ " " ++ e.Psk ++ "\n"

/-- The MAC-keyed entries of type `typ`, in the order of the list. -/
def keyedOfType (typ : String) (m : PSKMap) : List PSKEntry :=
  (m.filter (fun kv => decide (kv.1 ≠ "pending") && decide (kv.2.Typ = typ))).map Prod.snd

/-- The pending entry of type `typ`, if there is one, under its placeholder MAC. -/
def pendingOfType (typ : String) (m : PSKMap) : List PSKEntry :=
  match m.get "pending" with
  | some p => if p.Typ = typ then [{ p with Mac := placeholderMac typ }] else []
  | none => []

/-- What `loadPSKFiles` stores for the lines of the entries `es` in the file of type `typ`. -/
def putAll (typ : String) (m : PSKMap) (es : List PSKEntry) : PSKMap :=
  es.foldl (fun acc e => acc.put e.Mac ⟨typ, e.Mac, e.Psk, ""⟩) m

/-! ## Zone store -/

/-- Source `Client`. -/
structure Client where
  Mac : String
  Comment : String
  deriving DecidableEq, Repr

/-- Source `ClientZone`. -/
structure ClientZone where
  Name : String
  Clients : List Client
  deriving DecidableEq, Repr

/-- What a zone handler leaves behind: the persisted list (`zones.json`) and the HTTP
status. -/
structure ZoneOutcome where
  persisted : List ClientZone
  code : Nat
  deriving DecidableEq, Repr

/-- Inner loop of `addZoneMember` over `zone.Clients`, and the append that follows it when
no entry matched. -/
def addClient (lowerRune : Char → Char) (client : Client) : List Client → List Client
  | [] => [client]
  | entry :: rest =>
    if equalMAC lowerRune entry.Mac client.Mac then
      if entry.Comment ≠ client.Comment then { entry with Comment := client.Comment } :: rest
      else entry :: rest
    else entry :: addClient lowerRune client rest

/-- Outer loop of `addZoneMember` over `zones`, and the append of a new zone that follows
it when no zone has the name. -/
def addZoneLoop (lowerRune : Char → Char) (name : String) (client : Client) :
    List ClientZone → List ClientZone
  | [] => [⟨name, [client]⟩]
  | zone :: rest =>
    if zone.Name = name then
      { zone with Clients := addClient lowerRune client zone.Clients } :: rest
    else zone :: addZoneLoop lowerRune name client rest

/-- Source `addZoneMember`: the zone list on disk after `PUT /zone/{name}` with body
`client`. -/
def addZoneMember (lowerRune : Char → Char) (zones : List ClientZone) (name : String)
    (client : Client) : ZoneOutcome :=
  ⟨addZoneLoop lowerRune (trimLower lowerRune name) client zones, 200⟩

/-- Inner loop of `delZoneMember`: `zone.Clients` without its first entry that matches
`mac`, or `none` when no entry matches. -/
def removeClient (lowerRune : Char → Char) (mac : String) : List Client → Option (List Client)
  | [] => none
  | entry :: rest =>
    if equalMAC lowerRune entry.Mac mac then some rest
    else (removeClient lowerRune mac rest).map (fun cs => entry :: cs)

/-- Outer loop of `delZoneMember`; `none` when the loop ends without a removal. -/
def delZoneLoop (lowerRune : Char → Char) (name : String) (client : Client) :
    List ClientZone → Option (List ClientZone)
  | [] => none
  | zone :: rest =>
    if zone.Name = name then
      match removeClient lowerRune client.Mac zone.Clients with
      | some clients =>
        if clients.length > 0 then some ({ zone with Clients := clients } :: rest)
        else some rest
      | none => (delZoneLoop lowerRune name client rest).map (fun zs => zone :: zs)
    else (delZoneLoop lowerRune name client rest).map (fun zs => zone :: zs)

/-- Source `delZoneMember`: `DELETE /zone/{name}` with body `client`. -/
def delZoneMember (lowerRune : Char → Char) (zones : List ClientZone) (name : String)
    (client : Client) : ZoneOutcome :=
  match delZoneLoop lowerRune (trimLower lowerRune name) client zones with
  | some zs => ⟨zs, 200⟩
  | none => ⟨zones, 404⟩

/-- Source `updateDevice`: every entry whose MAC matches gets the comment of the body. -/
def updateDevice (lowerRune : Char → Char) (zones : List ClientZone) (client : Client) :
    ZoneOutcome :=
  ⟨zones.map (fun zone =>
      { zone with
        Clients := zone.Clients.map (fun entry =>
          if equalMAC lowerRune entry.Mac client.Mac then
            if entry.Comment ≠ client.Comment then { entry with Comment := client.Comment }
            else entry
          else entry) }), 200⟩

/-- `AddMember(zoneName, client)`. -/
def AddMember (lowerRune : Char → Char) (zones : List ClientZone) (zone : String)
    (client : Client) : List ClientZone :=
  (addZoneMember lowerRune zones zone client).persisted

/-- `RemoveMember(zoneName, mac)`; the handler reads only the `Mac` of the body. -/
def RemoveMember (lowerRune : Char → Char) (zones : List ClientZone) (zone mac : String) :
    List ClientZone :=
  (delZoneMember lowerRune zones zone ⟨mac, ""⟩).persisted

/-- `UpdateComment(mac, comment)`. -/
def UpdateComment (lowerRune : Char → Char) (zones : List ClientZone) (mac comment : String) :
    List ClientZone :=
  (updateDevice lowerRune zones ⟨mac, comment⟩).persisted

/-- The zone-list invariant: no zone with an empty client list, no name twice. -/
def ZonesWellFormed (zones : List ClientZone) : Prop :=
  (∀ z ∈ zones, z.Clients ≠ []) ∧ (zones.map ClientZone.Name).Nodup

/-! ## Verdict maps: reading -/

/-- Go `strings.Contains` on code points: some tail of the list starts with `sub`. -/
def containsChars (sub : List Char) : List Char → Bool
  | [] => sub.isEmpty
  | c :: cs => sub.isPrefixOf (c :: cs) || containsChars sub cs

/-- Go `strings.Contains(s, substr)`. -/
def Contains (s substr : String) : Bool := containsChars substr.data s.data

/-- A value as `json.Unmarshal` stores it in an `interface{}`; a number keeps its text, the
code never looks at one. `null` also stands for the `nil` interface. -/
inductive JSON where
  | null : JSON
  | bool : Bool → JSON
  | num : String → JSON
  | str : String → JSON
  | arr : List JSON → JSON
  | obj : List (String × JSON) → JSON

/-- Type assertion `x.([]interface{})`; `none` when `ok` is false. -/
def JSON.asArr : JSON → Option (List JSON)
  | .arr a => some a
  | _ => none

/-- Type assertion `x.(map[string]interface{})`; `none` when `ok` is false. -/
def JSON.asObj : JSON → Option (List (String × JSON))
  | .obj o => some o
  | _ => none

/-- Type assertion `x.(string)`; `none` when `ok` is false. -/
def JSON.asStr : JSON → Option String
  | .str s => some s
  | _ => none

/-- Map read `m[key]` on a decoded object: the last member with that name, `nil` when there
is none. A `nil` map is the empty member list. -/
def fieldOf (m : List (String × JSON)) (key : String) : JSON :=
  match m.reverse.find? (fun kv => decide (kv.1 = key)) with
  | some kv => kv.2
  | none => JSON.null

/-- Source `verdictEntry`. -/
structure verdictEntry where
  ipv4 : String
  ifname : String
  mac : String
  deriving DecidableEq, Repr

/-- Body of the loop `for _, d := range data5` of `getNFTVerdictMap`. The outer `none` is
an index-out-of-range panic (`e[0]`, `g[0]`, `g[1]`); `some none` is an element that adds no
entry; `some (some v)` is the appended entry. -/
def verdictElem (map_name : String) (d : JSON) : Option (Option verdictEntry) :=
  let e := d.asArr.getD []
  match e with
  | [] => none
  | e0 :: _ =>
    let f := e0.asObj.getD []
    match (fieldOf f "concat").asArr with
    | none => some none
    | some g =>
      match g with
      | [] => none
      | [_] => none
      | g0 :: g1 :: rest =>
        let first := g0.asStr.getD ""
        let second := g1.asStr.getD ""
        match rest with
        | g2 :: _ =>
          match g2.asStr with
          | some third => some (some ⟨first, second, third⟩)
          | none => some none
        | [] =>
          match g1.asStr with
          | some _ =>
            if map_name = "dhcp_access" then some (some ⟨"", first, second⟩)
            else some (some ⟨first, second, ""⟩)
          | none => some none

/-- The loop `for _, d := range data5` of `getNFTVerdictMap`, appending to `existing`. -/
def verdictElems (map_name : String) : List JSON → List verdictEntry → Option (List verdictEntry)
  | [], existing => some existing
  | d :: ds, existing =>
    match verdictElem map_name d with
    | none => none
    | some none => verdictElems map_name ds existing
    | some (some v) => verdictElems map_name ds (existing ++ [v])

/-- Source `getNFTVerdictMap`. `out` is what `nft -j list map inet filter map_name` gave:
`none` when the command failed, else its output as decoded by `json.Unmarshal` (`null` for
output that does not decode to an object). The result `none` is the end of the process:
`log.Fatal("invalid json")` or an index-out-of-range panic. -/
def getNFTVerdictMap (map_name : String) (out : Option JSON) : Option (List verdictEntry) :=
  match out with
  | none => some []
  | some stdout =>
    let data := stdout.asObj.getD []
    match (fieldOf data "nftables").asArr with
    | none => none
    | some data2 =>
      match data2 with
      | _ :: d1 :: _ =>
        let data3 := d1.asObj.getD []
        let data4 := (fieldOf data3 "map").asObj.getD []
        let data5 := (fieldOf data4 "elem").asArr.getD []
        verdictElems map_name data5 []
      | _ => none

/-- Source `getMapVerdict`. -/
def getMapVerdict (name : String) : String :=
  if Contains name "_dst_access" then "continue" else "accept"

/-- An element `[key, verdict]` of the tool's output whose key is the concatenation
`{"concat": literals}`. -/
def concatElem (literals : List JSON) (verdict : JSON) : JSON :=
  JSON.arr [JSON.obj [("concat", JSON.arr literals)], verdict]

/-- The output envelope `{"nftables": [meta, {"map": {..., "elem": elems}}]}`, `fields`
being the other members of the map object. -/
def nftOutput (metainfo : JSON) (fields : List (String × JSON)) (elems : List JSON) : JSON :=
  JSON.obj [("nftables", JSON.arr [metainfo, JSON.obj [("map", JSON.obj (fields ++ [("elem", JSON.arr elems)]))]])]

/-! ## Local DNS mappings -/

/-- The loop of `updateLocalMappings` over the lines of the file, appending to `new_data`. -/
def mappingsLoop (IP entryName : String) : List String → String → String
  | [], new_data => new_data
  | line :: rest, new_data =>
    match Split line ' ' with
    | ip :: hostname :: _ =>
      if ip = IP ∨ entryName = hostname then mappingsLoop IP entryName rest new_data
      else mappingsLoop IP entryName rest (new_data ++ (ip ++ " " ++ hostname ++ "\n"))
    | _ => mappingsLoop IP entryName rest new_data

/-- Source `updateLocalMappings`: the content of `local_mappings` after the call. `file` is
its content before, `none` when it cannot be read; the function then returns without
writing. -/
def updateLocalMappings (file : Option String) (IP Name : String) : Option String :=
  match file with
  | none => none
  | some data =>
    let entryName := Name ++ ".lan"
    let new_data := mappingsLoop IP entryName (Split data '\n') ""
    some (new_data ++ (IP ++ " " ++ entryName ++ "\n"))

/-- One line `<ip> <hostname>` of the mapping file, with its line end. -/
def mappingLine (l : String × String) : String := l.1 ++ " " ++ l.2 ++ "\n"

/-- A token of the mapping file: without a space and without a line end. -/
def mappingToken (s : String) : Bool := s.data.all (fun c => c != ' ' && c != '\n')

/-- What the loop of `updateLocalMappings` reads from one line: its first two pieces, when it
has at least two. -/
def mappingOfLine (line : String) : Option (String × String) :=
  match Split line ' ' with
  | ip :: hostname :: _ => some (ip, hostname)
  | _ => none

/-- The `(ip, hostname)` pairs of a mapping file as `updateLocalMappings` reads it. -/
def readMappings (data : String) : List (String × String) :=
  (Split data '\n').filterMap mappingOfLine

/-- The entry that a key of two or three string literals stands for in the map `map_name`. -/
def entryOfKey (map_name : String) (key : List String) : verdictEntry :=
  match key with
  | [l0, l1, l2] => ⟨l0, l1, l2⟩
  | [l0, l1] => if map_name = "dhcp_access" then ⟨"", l0, l1⟩ else ⟨l0, l1, ""⟩
  | _ => ⟨"", "", ""⟩

/-! ## Verdict maps: flush and repopulate -/

/-- The world outside the process, in a state of type `σ`. `run s argv` is
`exec.Command(argv...).Run()` in state `s`: whether it ended without error, and the state it
leaves. `listMap s name` is the decoded output of `nft -j list map inet filter name` in
state `s`, `none` when that command fails. -/
structure World (σ : Type) where
  run : σ → List String → Bool × σ
  listMap : σ → String → Option JSON

/-- Source `builtin_maps`. -/
def builtin_maps : List String := ["internet_access", "dns_access", "lan_access"]

/-- Source `default_zones`. -/
def default_zones : List String := ["isolated", "lan", "wan", "dns"]

/-- Source `getVerdictMapNames`, on the zone list that `getZonesJson` returns. -/
def getVerdictMapNames (zones : List ClientZone) : List String :=
  builtin_maps ++ zones.flatMap (fun z =>
    if default_zones.any (fun y => decide (y = z.Name)) then []
    else [z.Name ++ "_mac_src_access", z.Name ++ "_dst_access"])

/-- The condition of `flushVmaps` under which an entry is deleted. -/
def flushMatch (lowerRune : Char → Char) (IP MAC Ifname : String) (matchInterface : Bool)
    (entry : verdictEntry) : Bool :=
  decide (entry.ipv4 = IP) || (matchInterface && decide (entry.ifname = Ifname))
    || (equalMAC lowerRune entry.mac MAC && decide (MAC ≠ ""))

/-- The delete command of `flushVmaps` for an entry: three key fields when the entry has a
MAC, two when it has none. -/
def deleteArgv (name verdict : String) (entry : verdictEntry) : List String :=
  if entry.mac ≠ "" then
    ["nft", "delete", "element", "inet", "filter", name, "\x7b", entry.ipv4, ".", entry.ifname,
      ".", entry.mac, ":", verdict, "\x7d"]
  else
    ["nft", "delete", "element", "inet", "filter", name, "\x7b", entry.ipv4, ".", entry.ifname,
      ":", verdict, "\x7d"]

/-- What the inner loop of `flushVmaps` did in one map: the state it leaves, the entries
whose delete command it ran, each with whether the command ended without error, and whether
it left the function through `return`. -/
structure EntriesFlush (σ : Type) where
  state : σ
  deletes : List (verdictEntry × Bool)
  returned : Bool

/-- Inner loop `for _, entry := range entries` of `flushVmaps`. A failed delete of an entry
with a MAC is printed; a failed delete of an entry without one is printed and followed by
`return`. -/
def flushEntries {σ : Type} (w : World σ) (lowerRune : Char → Char) (IP MAC Ifname : String)
    (matchInterface : Bool) (name verdict : String) :
    List verdictEntry → σ → EntriesFlush σ
  | [], s => ⟨s, [], false⟩
  | entry :: rest, s =>
    if flushMatch lowerRune IP MAC Ifname matchInterface entry then
      let r := w.run s (deleteArgv name verdict entry)
      if entry.mac ≠ "" then
        let t := flushEntries w lowerRune IP MAC Ifname matchInterface name verdict rest r.2
        ⟨t.state, (entry, r.1) :: t.deletes, t.returned⟩
      else if r.1 then
        let t := flushEntries w lowerRune IP MAC Ifname matchInterface name verdict rest r.2
        ⟨t.state, (entry, true) :: t.deletes, t.returned⟩
      else ⟨r.2, [(entry, false)], true⟩
    else flushEntries w lowerRune IP MAC Ifname matchInterface name verdict rest s

/-- What `flushVmaps` did in one map: its name, the entries read from it, and the entries
whose delete command ran, each with whether the command ended without error. -/
structure MapFlush where
  name : String
  entries : List verdictEntry
  deletes : List (verdictEntry × Bool)
  deriving DecidableEq, Repr

/-- What `flushVmaps` did: the state it leaves and its record for each map it visited. -/
structure FlushResult (σ : Type) where
  state : σ
  maps : List MapFlush

/-- Source `flushVmaps`. `none` is the end of the process inside `getNFTVerdictMap`. -/
def flushVmaps {σ : Type} (w : World σ) (lowerRune : Char → Char) (s : σ)
    (IP MAC Ifname : String) (vmap_names : List String) (matchInterface : Bool) :
    Option (FlushResult σ) :=
  match vmap_names with
  | [] => some ⟨s, []⟩
  | name :: rest =>
    match getNFTVerdictMap name (w.listMap s name) with
    | none => none
    | some entries =>
      let verdict := getMapVerdict name
      let t := flushEntries w lowerRune IP MAC Ifname matchInterface name verdict entries s
      if t.returned then some ⟨t.state, [⟨name, entries, t.deletes⟩]⟩
      else
        match flushVmaps w lowerRune t.state IP MAC Ifname rest matchInterface with
        | none => none
        | some r => some ⟨r.state, ⟨name, entries, t.deletes⟩ :: r.maps⟩

/-- The state left by a sequence of commands and the commands that ran. -/
structure Ran (σ : Type) where
  state : σ
  log : List (List String)

/-- A run of commands in which each failure is followed by `return`: the commands are run
in order up to and including the first that fails. The flag tells that none failed. -/
def runUntilFail {σ : Type} (w : World σ) : List (List String) → σ → Ran σ × Bool
  | [], s => (⟨s, []⟩, true)
  | argv :: rest, s =>
    let r := w.run s argv
    if r.1 then
      let t := runUntilFail w rest r.2
      (⟨t.1.state, argv :: t.1.log⟩, t.2)
    else (⟨r.2, [argv]⟩, false)

/-- Source `addVerdict`. -/
def addVerdict {σ : Type} (w : World σ) (s : σ) (IP MAC Iface Table : String) : Ran σ :=
  (runUntilFail w
    [["nft", "add", "element", "inet", "filter", Table, "\x7b", IP, ".", Iface, ".", MAC, ":",
      "accept", "\x7d"]] s).1

/-- Source `addDNSVerdict`. -/
def addDNSVerdict {σ : Type} (w : World σ) (s : σ) (IP MAC Iface : String) : Ran σ :=
  addVerdict w s IP MAC Iface "dns_access"

/-- Source `addLANVerdict`. -/
def addLANVerdict {σ : Type} (w : World σ) (s : σ) (IP MAC Iface : String) : Ran σ :=
  addVerdict w s IP MAC Iface "lan_access"

/-- Source `addInternetVerdict`. -/
def addInternetVerdict {σ : Type} (w : World σ) (s : σ) (IP MAC Iface : String) : Ran σ :=
  addVerdict w s IP MAC Iface "internet_access"

/-- Source `addCustomVerdict`: the probe for `<zone>_dst_access`; when it fails, the two
`add map` commands and the `insert rule`; then the two `add element` commands. Every failure
after the probe is followed by `return`. -/
def addCustomVerdict {σ : Type} (w : World σ) (s : σ) (ZoneName IP MAC Iface : String) :
    Ran σ :=
  let probe := w.run s ["nft", "list", "map", "inet", "filter", ZoneName ++ "_dst_access"]
  let create : List (List String) :=
    if probe.1 then []
    else
      [["nft", "add", "map", "inet", "filter", ZoneName ++ "_mac_src_access", "\x7b", "type",
          "ipv4_addr", ".", "ifname", ".", "ether_addr", ":", "verdict", ";", "\x7d"],
       ["nft", "add", "map", "inet", "filter", ZoneName ++ "_dst_access", "\x7b", "type",
          "ipv4_addr", ".", "ifname", ":", "verdict", ";", "\x7d"],
       ["nft", "insert", "rule", "inet", "filter", "FORWARD", "ip", "daddr", ".", "oifname",
          "vmap", "@" ++ ZoneName ++ "_dst_access", "ip", "saddr", ".", "iifname", ".", "ether",
          "saddr", "vmap", "@" ++ ZoneName ++ "_mac_src_access"]]
  let t := (runUntilFail w
    (create ++
      [["nft", "add", "element", "inet", "filter", ZoneName ++ "_dst_access", "\x7b", IP, ".",
          Iface, ":", "continue", "\x7d"],
       ["nft", "add", "element", "inet", "filter", ZoneName ++ "_mac_src_access", "\x7b", IP, ".",
          Iface, ".", MAC, ":", "accept", "\x7d"]]) probe.2).1
  ⟨t.state, ["nft", "list", "map", "inet", "filter", ZoneName ++ "_dst_access"] :: t.log⟩

/-- The `switch zone.Name` of `populateVmapEntries`. -/
def addZoneVerdict {σ : Type} (w : World σ) (s : σ) (zoneName IP MAC Iface : String) : Ran σ :=
  if zoneName = "dns" then addDNSVerdict w s IP MAC Iface
  else if zoneName = "lan" then addLANVerdict w s IP MAC Iface
  else if zoneName = "wan" then addInternetVerdict w s IP MAC Iface
  else addCustomVerdict w s zoneName IP MAC Iface

/-- Inner loop `for _, entry := range zone.Clients` of `populateVmapEntries`. -/
def populateClients {σ : Type} (w : World σ) (lowerRune : Char → Char)
    (zoneName IP MAC Iface : String) : List Client → σ → Ran σ
  | [], s => ⟨s, []⟩
  | entry :: rest, s =>
    if equalMAC lowerRune entry.Mac MAC then
      let r := addZoneVerdict w s zoneName IP MAC Iface
      let t := populateClients w lowerRune zoneName IP MAC Iface rest r.state
      ⟨t.state, r.log ++ t.log⟩
    else populateClients w lowerRune zoneName IP MAC Iface rest s

/-- Source `populateVmapEntries`, on the zone list that `getZonesJson` returns. -/
def populateVmapEntries {σ : Type} (w : World σ) (lowerRune : Char → Char)
    (IP MAC Iface : String) : List ClientZone → σ → Ran σ
  | [], s => ⟨s, []⟩
  | zone :: rest, s =>
    if zone.Name = "isolated" then populateVmapEntries w lowerRune IP MAC Iface rest s
    else
      let r := populateClients w lowerRune zone.Name IP MAC Iface zone.Clients s
      let t := populateVmapEntries w lowerRune IP MAC Iface rest r.state
      ⟨t.state, r.log ++ t.log⟩

/-- The `add element` commands among the commands submitted to a world. -/
def addElementsOf (log : List (List String × Bool)) : List (List String × Bool) :=
  log.filter (fun c => decide (c.1.take 3 = ["nft", "add", "element"]))

/-- The `add element` commands that put a device into the maps of one zone: none for
`isolated`, one `accept` element in the builtin map for `dns`, `lan` and `wan`, and for any
other zone one `continue` element in `<zone>_dst_access` and one `accept` element in
`<zone>_mac_src_access`. -/
def zoneElements (zoneName IP MAC Iface : String) : List (List String) :=
  if zoneName = "isolated" then []
  else if zoneName = "dns" then
    [["nft", "add", "element", "inet", "filter", "dns_access", "\x7b", IP, ".", Iface, ".", MAC,
      ":", "accept", "\x7d"]]
  else if zoneName = "lan" then
    [["nft", "add", "element", "inet", "filter", "lan_access", "\x7b", IP, ".", Iface, ".", MAC,
      ":", "accept", "\x7d"]]
  else if zoneName = "wan" then
    [["nft", "add", "element", "inet", "filter", "internet_access", "\x7b", IP, ".", Iface, ".",
      MAC, ":", "accept", "\x7d"]]
  else
    [["nft", "add", "element", "inet", "filter", zoneName ++ "_dst_access", "\x7b", IP, ".", Iface,
        ":", "continue", "\x7d"],
     ["nft", "add", "element", "inet", "filter", zoneName ++ "_mac_src_access", "\x7b", IP, ".",
        Iface, ".", MAC, ":", "accept", "\x7d"]]

/-- Source `shouldFlushByInterface`; `vlansif` is the value of the environment variable
`VLANSIF`. -/
def shouldFlushByInterface (vlansif Iface : String) : Bool :=
  decide (vlansif.utf8ByteSize > 0) && Contains Iface vlansif

/-! ## Re-sync of a device -/

/-- Source `ArpEntry`. -/
structure ArpEntry where
  IP : String
  HWType : String
  Flags : String
  Mac : String
  Mask : String
  Device : String
  deriving DecidableEq, Repr

/-- Source `removeWhiteSpace`. -/
def removeWhiteSpace (tab : List String) : List String :=
  tab.filter (fun element => decide (element ≠ ""))

/-- The loop of `GetArpEntries` over the lines after the header line; `none` is the
index-out-of-range panic on a line with fewer than six fields. -/
def arpLines : List String → Option (List ArpEntry)
  | [] => some []
  | data :: rest =>
    if data = "" then arpLines rest
    else
      match removeWhiteSpace (Split data ' ') with
      | a :: b :: c :: d :: e :: f :: _ =>
        match arpLines rest with
        | some entries => some (⟨a, b, c, d, e, f⟩ :: entries)
        | none => none
      | _ => none

/-- Source `GetArpEntries`. `procNetArp` is the content of `/proc/net/arp`, `none` when it
cannot be read. The outer `none` is a panic, the inner `none` the returned error. -/
def GetArpEntries (procNetArp : Option String) : Option (Option (List ArpEntry)) :=
  match procNetArp with
  | none => some none
  | some fileDatas =>
    match arpLines ((Split fileDatas '\n').drop 1) with
    | some entries => some (some entries)
    | none => none

/-- Source `GetArpEntryFromMAC`. The outer `none` is a panic, the inner `none` the returned
error. -/
def GetArpEntryFromMAC (procNetArp : Option String) (mac : String) :
    Option (Option ArpEntry) :=
  match GetArpEntries procNetArp with
  | none => none
  | some none => some none
  | some (some entries) => some (entries.find? (fun entry => decide (entry.Mac = mac)))

/-- What a re-sync did: the state it leaves, the record of its flush, and the commands that
its repopulation ran. -/
structure Resync (σ : Type) where
  state : σ
  flushed : List MapFlush
  added : List (List String)

/-- Source `refreshClientZones`, with the zone list on disk at the time of the call. `none`
is the end of the process in a panic or `log.Fatal`. -/
def refreshClientZones {σ : Type} (w : World σ) (lowerRune : Char → Char) (vlansif : String)
    (procNetArp : Option String) (zones : List ClientZone) (s : σ) (MAC : String) :
    Option (Resync σ) :=
  match GetArpEntryFromMAC procNetArp MAC with
  | none => none
  | some none => some ⟨s, [], []⟩
  | some (some arp_entry) =>
    let ipv4 := arp_entry.IP
    match getNFTVerdictMap "dhcp_access" (w.listMap s "dhcp_access") with
    | none => none
    | some entries =>
      let ifname := entries.foldl
        (fun ifname entry => if equalMAC lowerRune entry.mac MAC then entry.ifname else ifname) ""
      if ifname = "" then some ⟨s, [], []⟩
      else
        match flushVmaps w lowerRune s ipv4 MAC ifname (getVerdictMapNames zones)
            (shouldFlushByInterface vlansif ifname) with
        | none => none
        | some f =>
          let p := populateVmapEntries w lowerRune ipv4 MAC ifname zones f.state
          some ⟨p.state, f.maps, p.log⟩

/-- Source `DHCPUpdate`, the body of `PUT /dhcpUpdate`. -/
structure DHCPUpdate where
  IP : String
  MAC : String
  Name : String
  Iface : String
  Router : String
  deriving DecidableEq, Repr

/-- Source `dhcpUpdate`: flush, `updateAddr`, `updateArp`, repopulate; the rewrite of the
mapping file is `updateLocalMappings`. -/
def dhcpUpdate {σ : Type} (w : World σ) (lowerRune : Char → Char) (vlansif : String)
    (zones : List ClientZone) (s : σ) (dhcp : DHCPUpdate) : Option (Resync σ) :=
  match flushVmaps w lowerRune s dhcp.IP dhcp.MAC dhcp.Iface (getVerdictMapNames zones)
      (shouldFlushByInterface vlansif dhcp.Iface) with
  | none => none
  | some f =>
    let a := w.run f.state ["ip", "addr", "add", dhcp.Router ++ "/30", "dev", dhcp.Iface]
    let b := w.run a.2 ["arp", "-i", dhcp.Iface, "-s", dhcp.IP, dhcp.MAC]
    let p := populateVmapEntries w lowerRune dhcp.IP dhcp.MAC dhcp.Iface zones b.2
    some ⟨p.state, f.maps, p.log⟩

/-- The call `refreshClientZones(client.Mac)` that `delZoneMember` makes after `saveZones`,
on the zone list it saved; nothing happens on the not-found path. -/
def delZoneMemberRefresh {σ : Type} (w : World σ) (lowerRune : Char → Char) (vlansif : String)
    (procNetArp : Option String) (zones : List ClientZone) (s : σ) (name : String)
    (client : Client) : Option (Resync σ) :=
  if (delZoneMember lowerRune zones name client).code = 200 then
    refreshClientZones w lowerRune vlansif procNetArp
      (delZoneMember lowerRune zones name client).persisted s client.Mac
  else some ⟨s, [], []⟩

/-! ## The packet-filter tool -/

/-- An element of a verdict map: its key fields and its verdict. -/
structure NftElem where
  key : List String
  verdict : String
  deriving DecidableEq, Repr

/-- The verdict maps of the table `inet filter`: name and elements of each. -/
abbrev NftState := List (String × List NftElem)

/-- The elements of the map `name`, `none` when the map does not exist. -/
def NftState.elems (s : NftState) (name : String) : Option (List NftElem) :=
  match s.find? (fun m => decide (m.1 = name)) with
  | some m => some m.2
  | none => none

/-- The state with the elements of the map `name` replaced. -/
def NftState.setElems (s : NftState) (name : String) (es : List NftElem) : NftState :=
  s.map (fun m => if m.1 = name then (name, es) else m)

/-- The key fields of `{ a . b . c : verdict }` or `{ a . b : verdict }`, given the words
after `{`. -/
def keyFields : List String → List String
  | a :: "." :: b :: "." :: c :: _ => [a, b, c]
  | a :: "." :: b :: _ => [a, b]
  | _ => []

/-- The verdict of `{ a . b . c : verdict }` or `{ a . b : verdict }`, given the words after
`{`. -/
def verdictWord : List String → String
  | _ :: "." :: _ :: "." :: _ :: ":" :: v :: _ => v
  | _ :: "." :: _ :: ":" :: v :: _ => v
  | _ => ""

/-- Modelled from the spec: the external packet-filter tool, "an atomic, imperative
element-add/element-delete/map-list interface". `add element` needs the map and adds the key
unless the map has it; `delete element` removes the key and fails when the map or the key
is absent; `list map` fails when the map is absent; `add map` creates the map unless it
exists; any other command (`insert rule`, `ip addr add`, `arp -s`) succeeds and leaves the
maps as they are. -/
def nftRun (s : NftState) (argv : List String) : Bool × NftState :=
  match argv with
  | "nft" :: "add" :: "element" :: "inet" :: "filter" :: t :: "\x7b" :: body =>
    match s.elems t with
    | none => (false, s)
    | some es =>
      if es.any (fun e => decide (e.key = keyFields body)) then (true, s)
      else (true, s.setElems t (es ++ [⟨keyFields body, verdictWord body⟩]))
  | "nft" :: "delete" :: "element" :: "inet" :: "filter" :: t :: "\x7b" :: body =>
    match s.elems t with
    | none => (false, s)
    | some es =>
      if es.any (fun e => decide (e.key = keyFields body)) then
        (true, s.setElems t (es.filter (fun e => decide (e.key ≠ keyFields body))))
      else (false, s)
  | "nft" :: "list" :: "map" :: "inet" :: "filter" :: t :: _ => ((s.elems t).isSome, s)
  | "nft" :: "add" :: "map" :: "inet" :: "filter" :: t :: _ =>
    if (s.elems t).isSome then (true, s) else (true, s ++ [(t, [])])
  | _ => (true, s)

/-- Modelled from the spec: the output of `nft -j list map inet filter name`, "an envelope
containing a sequence of objects, the second of which describes the map and contains an
element list; each element is a 2-tuple of (key, verdict)", the key a concatenation of its
fields. -/
def nftListMap (s : NftState) (name : String) : Option JSON :=
  match s.elems name with
  | none => none
  | some es =>
    some (nftOutput (JSON.obj [("metainfo", JSON.obj [])])
      [("family", JSON.str "inet"), ("name", JSON.str name), ("table", JSON.str "filter")]
      (es.map (fun e => concatElem (e.key.map JSON.str) (JSON.obj [(e.verdict, JSON.null)]))))

/-- The packet-filter tool as a world. -/
def nftWorld : World NftState := ⟨nftRun, nftListMap⟩

/-- A world in which the maps keep the given content and exactly the commands of the list
`failing` fail. -/
def fixedWorld (contents : NftState) (failing : List (List String)) : World Unit :=
  ⟨fun _ argv => (!failing.contains argv, ()), fun _ name => nftListMap contents name⟩

/-- The world `w` with a record, kept by the world itself, of every command submitted to it,
in order, each with whether it ended without error. -/
def loggedWorld {σ : Type} (w : World σ) : World (σ × List (List String × Bool)) :=
  ⟨fun s argv => ((w.run s.1 argv).1, ((w.run s.1 argv).2, s.2 ++ [(argv, (w.run s.1 argv).1)])),
   fun s name => w.listMap s.1 name⟩

/-- The state that the commands of a record leave when they are submitted in order to `w`
from `s`, provided each ended as recorded; `none` when one did not. -/
def replay {σ : Type} (w : World σ) : σ → List (List String × Bool) → Option σ
  | s, [] => some s
  | s, c :: rest =>
    if (w.run s c.1).1 = c.2 then replay w (w.run s c.1).2 rest else none

/-- The elements that put a device into the maps of one zone, each with its map: none for
`isolated`, one `accept` element `(ip, iface, mac)` in the builtin map for `dns`, `lan` and
`wan`, and for any other zone one `continue` element `(ip, iface)` in `<zone>_dst_access` and
one `accept` element `(ip, iface, mac)` in `<zone>_mac_src_access`. -/
def zoneMapElems (zoneName IP MAC Iface : String) : List (String × NftElem) :=
  if zoneName = "isolated" then []
  else if zoneName = "dns" then [("dns_access", ⟨[IP, Iface, MAC], "accept"⟩)]
  else if zoneName = "lan" then [("lan_access", ⟨[IP, Iface, MAC], "accept"⟩)]
  else if zoneName = "wan" then [("internet_access", ⟨[IP, Iface, MAC], "accept"⟩)]
  else
    [(zoneName ++ "_dst_access", ⟨[IP, Iface], "continue"⟩),
     (zoneName ++ "_mac_src_access", ⟨[IP, Iface, MAC], "accept"⟩)]

/-- The zone list with every stored MAC in its canonical form. -/
def canonicalMacs (lowerRune : Char → Char) (zones : List ClientZone) : List ClientZone :=
  zones.map (fun z =>
    { z with Clients := z.Clients.map (fun c => { c with Mac := trimLower lowerRune c.Mac }) })

/-! ## Map lemmas -/

theorem PSKMap.get_del_self (m : PSKMap) (k : String) : (m.del k).get k = none := by
  induction m with
  | nil => rfl
  | cons kv rest ih =>
    obtain ⟨k', v⟩ := kv
    by_cases h : k' = k
    · simpa [PSKMap.del, h] using ih
    · simp only [PSKMap.del, List.filter_cons, ne_eq, h, not_false_eq_true, decide_True,
        if_true, PSKMap.get, if_false]
      simpa [PSKMap.del] using ih

theorem PSKMap.get_del_other (m : PSKMap) (k j : String) (h : j ≠ k) :
    (m.del k).get j = m.get j := by
  induction m with
  | nil => rfl
  | cons kv rest ih =>
    obtain ⟨k', v⟩ := kv
    by_cases hk : k' = k
    · subst hk
      have hj : ¬ k' = j := fun e => h e.symm
      simpa [PSKMap.del, PSKMap.get, hj] using ih
    · simp only [PSKMap.del, List.filter_cons, ne_eq, hk, not_false_eq_true, decide_True,
        if_true, PSKMap.get]
      by_cases hj : k' = j
      · simp [hj]
      · simpa [hj, PSKMap.del] using ih

theorem PSKMap.get_put_self (m : PSKMap) (k : String) (v : PSKEntry) :
    (m.put k v).get k = some v := by
  simp [PSKMap.put, PSKMap.get]

theorem PSKMap.get_put_other (m : PSKMap) (k j : String) (v : PSKEntry) (h : j ≠ k) :
    (m.put k v).get j = m.get j := by
  have hk : ¬ k = j := fun e => h e.symm
  simp only [PSKMap.put, PSKMap.get, hk, if_false]
  exact PSKMap.get_del_other m k j h

theorem foundPSK_iff (m : PSKMap) (k : String) : foundPSK m k = true ↔ (m.get k).isSome := by
  induction m with
  | nil => simp [foundPSK, PSKMap.get]
  | cons kv rest ih =>
    obtain ⟨k', v⟩ := kv
    by_cases h : k' = k
    · simp [foundPSK, PSKMap.get, h]
    · simpa [foundPSK, PSKMap.get, h] using ih

theorem utf8ByteSize_pos_iff (s : String) : 0 < s.utf8ByteSize ↔ s ≠ "" := by
  obtain ⟨l⟩ := s
  cases l with
  | nil => simp [String.utf8ByteSize, String.utf8ByteSize.go]
  | cons c cs =>
    have hc : 0 < c.utf8Size := Char.utf8Size_pos c
    have hne : (String.mk (c :: cs)) ≠ "" := by
      intro h
      have := congrArg String.data h
      simp at this
    simp only [String.utf8ByteSize, String.utf8ByteSize.go, ne_eq, hne, not_false_eq_true,
      iff_true]
    omega

/-! ## Pending credential: claims by the authentication daemon -/

/-- For every store with a pending entry, `reportPSKAuthFailure` with reason `noentry`
persists a map that still has that pending entry (when the reporting MAC is not the word
`pending` itself). -/
theorem reportPSKAuthFailure_keeps_pending (file : PSKMap) (typ m : String) (p : PSKEntry)
    (hp : file.get "pending" = some p) (hm : m ≠ "") (hm2 : m ≠ "pending")
    (ht : typ = "sae" ∨ typ = "wpa") :
    (OnAuthFailure file typ m "noentry").persisted.get "pending" = some p := by
  have hv : ¬ (m = "" ∨ (typ ≠ "sae" ∧ typ ≠ "wpa")
      ∨ ("noentry" ≠ "noentry" ∧ "noentry" ≠ "mismatch")) := by
    rintro (h | h | h)
    · exact hm h
    · rcases ht with ht | ht
      · exact h.1 ht
      · exact h.2 ht
    · exact h.1 rfl
  simp only [OnAuthFailure, reportPSKAuthFailure, hv, if_false, hp, if_true]
  rw [PSKMap.get_put_other _ _ _ _ (Ne.symm hm2), hp]

/-- C1 (code defect). On the store that holds only a pending WPA2 credential,
`OnAuthFailure("wpa", "AA:BB:CC:DD:EE:01", "noentry")` persists a map in which key
`AA:BB:CC:DD:EE:01` holds the pending Psk and Comment with type `wpa2`, but in which the
key `pending` still exists: `delete(psks, "pending")` runs after `savePSKs(psks)`. -/
theorem C1_auth_failure_leaves_pending :
    (OnAuthFailure [("pending", ⟨"wpa2", "", "Zm9vYmFyYmF6cXV4MTIzNA", "guest"⟩)]
        "wpa" "AA:BB:CC:DD:EE:01" "noentry").persisted.get "AA:BB:CC:DD:EE:01"
      = some ⟨"wpa2", "AA:BB:CC:DD:EE:01", "Zm9vYmFyYmF6cXV4MTIzNA", "guest"⟩
    ∧ (OnAuthFailure [("pending", ⟨"wpa2", "", "Zm9vYmFyYmF6cXV4MTIzNA", "guest"⟩)]
        "wpa" "AA:BB:CC:DD:EE:01" "noentry").persisted.get "pending"
      = some ⟨"wpa2", "", "Zm9vYmFyYmF6cXV4MTIzNA", "guest"⟩ := by
  decide

/-- C2 (code defect). After `OnAuthFailure("wpa", m1, "noentry")` has claimed the pending
credential for `m1 = AA:BB:CC:DD:EE:01`, a following `OnAuthFailure` and a following
`OnAuthSuccess` for `m2 = AA:BB:CC:DD:EE:02` each still find the `pending` entry, change
the persisted map, and bind the same Psk to `m2` as well. -/
theorem C2_second_claim_after_auth_failure :
    (OnAuthFailure
        (OnAuthFailure [("pending", ⟨"wpa2", "", "Zm9vYmFyYmF6cXV4MTIzNA", "guest"⟩)]
          "wpa" "AA:BB:CC:DD:EE:01" "noentry").persisted
        "wpa" "AA:BB:CC:DD:EE:02" "noentry").persisted
      = [("AA:BB:CC:DD:EE:02", ⟨"wpa2", "AA:BB:CC:DD:EE:02", "Zm9vYmFyYmF6cXV4MTIzNA", "guest"⟩),
         ("AA:BB:CC:DD:EE:01", ⟨"wpa2", "AA:BB:CC:DD:EE:01", "Zm9vYmFyYmF6cXV4MTIzNA", "guest"⟩),
         ("pending", ⟨"wpa2", "", "Zm9vYmFyYmF6cXV4MTIzNA", "guest"⟩)]
    ∧ (OnAuthSuccess
        (OnAuthFailure [("pending", ⟨"wpa2", "", "Zm9vYmFyYmF6cXV4MTIzNA", "guest"⟩)]
          "wpa" "AA:BB:CC:DD:EE:01" "noentry").persisted
        "wlan0" "AP-STA-CONNECTED" "AA:BB:CC:DD:EE:02").persisted
      = [("AA:BB:CC:DD:EE:02", ⟨"wpa2", "AA:BB:CC:DD:EE:02", "Zm9vYmFyYmF6cXV4MTIzNA", "guest"⟩),
         ("AA:BB:CC:DD:EE:01", ⟨"wpa2", "AA:BB:CC:DD:EE:01", "Zm9vYmFyYmF6cXV4MTIzNA", "guest"⟩)]
    ∧ (OnAuthFailure [("pending", ⟨"wpa2", "", "Zm9vYmFyYmF6cXV4MTIzNA", "guest"⟩)]
          "wpa" "AA:BB:CC:DD:EE:01" "noentry").persisted
      = [("AA:BB:CC:DD:EE:01", ⟨"wpa2", "AA:BB:CC:DD:EE:01", "Zm9vYmFyYmF6cXV4MTIzNA", "guest"⟩),
         ("pending", ⟨"wpa2", "", "Zm9vYmFyYmF6cXV4MTIzNA", "guest"⟩)] := by
  decide

/-- C3. For every persisted PSK store and every non-empty `iface` and MAC `m`,
`OnAuthSuccess(iface, "AP-STA-CONNECTED", m)`: if a `pending` entry `p` exists and `m` is not
a key, the resulting store maps `m` to `p` with its `Mac` set to `m`, has no `pending` key and
agrees with the old store on every other key; if `m` is already a key, or there is no
`pending` entry, the store is unchanged. -/
theorem C3_auth_success_claims_pending (file : PSKMap) (iface m : String)
    (hi : iface ≠ "") (hm : m ≠ "") :
    (∀ p, file.get "pending" = some p → file.get m = none →
        (OnAuthSuccess file iface "AP-STA-CONNECTED" m).persisted.get m
            = some { p with Mac := m }
        ∧ (OnAuthSuccess file iface "AP-STA-CONNECTED" m).persisted.get "pending" = none
        ∧ ∀ k, k ≠ m → k ≠ "pending" →
            (OnAuthSuccess file iface "AP-STA-CONNECTED" m).persisted.get k = file.get k)
    ∧ (((file.get m).isSome ∨ file.get "pending" = none) →
        (OnAuthSuccess file iface "AP-STA-CONNECTED" m).persisted = file) := by
  have hv : ¬ (iface = "" ∨ "AP-STA-CONNECTED" ≠ "AP-STA-CONNECTED" ∨ m = "") := by
    rintro (h | h | h)
    · exact hi h
    · exact h rfl
    · exact hm h
  constructor
  · intro p hp hnone
    have hnf : foundPSK file m = false := by
      cases hf : foundPSK file m with
      | false => rfl
      | true => rw [(foundPSK_iff file m).1 hf |> Option.isSome_iff_exists.1 |>.choose_spec] at hnone
                cases hnone
    have hmp : m ≠ "pending" := by
      intro h
      rw [h, hp] at hnone
      cases hnone
    simp only [OnAuthSuccess, reportPSKAuthSuccess, hv, if_false, hp, hnf, Bool.false_eq_true]
    refine ⟨?_, ?_, ?_⟩
    · rw [PSKMap.get_del_other _ _ _ hmp, PSKMap.get_put_self]
    · exact PSKMap.get_del_self _ _
    · intro k hk hkp
      rw [PSKMap.get_del_other _ _ _ hkp, PSKMap.get_put_other _ _ _ _ hk]
  · intro h
    simp only [OnAuthSuccess, reportPSKAuthSuccess, hv, if_false]
    cases hp : file.get "pending" with
    | none => rfl
    | some p =>
      rcases h with h | h
      · have hf : foundPSK file m = true := (foundPSK_iff file m).2 h
        simp [hf]
      · rw [hp] at h
        cases h

/-- C3, at a concrete store: a pending SAE credential and one keyed entry, claimed by
`aa:bb:cc:dd:ee:02`. -/
theorem C3_auth_success_claims_pending_witness :
    ("wlan0" ≠ "" ∧ "aa:bb:cc:dd:ee:02" ≠ "")
    ∧ (OnAuthSuccess
        [("pending", ⟨"sae", "", "correcthorse", "tablet"⟩),
         ("aa:bb:cc:dd:ee:01", ⟨"wpa2", "aa:bb:cc:dd:ee:01", "batterystaple", ""⟩)]
        "wlan0" "AP-STA-CONNECTED" "aa:bb:cc:dd:ee:02").persisted.get "aa:bb:cc:dd:ee:02"
      = some ⟨"sae", "aa:bb:cc:dd:ee:02", "correcthorse", "tablet"⟩ :=
  ⟨by decide,
   ((C3_auth_success_claims_pending
      [("pending", ⟨"sae", "", "correcthorse", "tablet"⟩),
       ("aa:bb:cc:dd:ee:01", ⟨"wpa2", "aa:bb:cc:dd:ee:01", "batterystaple", ""⟩)]
      "wlan0" "aa:bb:cc:dd:ee:02" (by decide) (by decide)).1
      ⟨"sae", "", "correcthorse", "tablet"⟩ (by decide) (by decide)).1⟩

/-! ## `SetCredential` -/

/-- C4, refuted as stated: `SetCredential("AA:BB:CC:DD:EE:01", "sae", "password1", "")` is
accepted, the canonical form of the MAC is `aa:bb:cc:dd:ee:01`, and the resulting store has
no entry under that canonical key: the credential sits under the MAC as it was sent. -/
theorem C4_counterexample_key_not_canonical :
    (SetCredential [] "AA:BB:CC:DD:EE:01" "sae" "password1" "" "Zm9vYmFyYmF6cXV4MTIzNA").code
      = 200
    ∧ trimLower Char.toLower "AA:BB:CC:DD:EE:01" = "aa:bb:cc:dd:ee:01"
    ∧ (SetCredential [] "AA:BB:CC:DD:EE:01" "sae" "password1" ""
        "Zm9vYmFyYmF6cXV4MTIzNA").persisted.get "aa:bb:cc:dd:ee:01" = none
    ∧ (SetCredential [] "AA:BB:CC:DD:EE:01" "sae" "password1" ""
        "Zm9vYmFyYmF6cXV4MTIzNA").persisted.get "AA:BB:CC:DD:EE:01"
      = some ⟨"sae", "AA:BB:CC:DD:EE:01", "password1", ""⟩ := by
  decide

/-- C4, amended. For every PSK store and every accepted `SetCredential(mac, type, psk,
comment)`, the stored credential being the request with an empty `psk` replaced by the
generated one: if `mac` is empty the resulting store holds the credential under `pending`;
otherwise it holds it under `mac` exactly as given; every other key is unchanged. -/
theorem C4_set_credential_stores (file : PSKMap) (mac typ psk comment generated : String)
    (hacc : (SetCredential file mac typ psk comment generated).code = 200) :
    (mac = "" →
        (SetCredential file mac typ psk comment generated).persisted.get "pending"
          = some ⟨typ, mac, if psk = "" then generated else psk, comment⟩)
    ∧ (mac ≠ "" →
        (SetCredential file mac typ psk comment generated).persisted.get mac
          = some ⟨typ, mac, if psk = "" then generated else psk, comment⟩)
    ∧ ∀ k, k ≠ (if mac = "" then "pending" else mac) →
        (SetCredential file mac typ psk comment generated).persisted.get k = file.get k := by
  unfold SetCredential setPSK at hacc ⊢
  by_cases h1 : typ ≠ "sae" ∧ typ ≠ "wpa2"
  · simp [h1] at hacc
  · by_cases h2 : psk.utf8ByteSize > 0 ∧ psk.utf8ByteSize < 8
    · simp [h1, h2] at hacc
    · simp only [h1, h2, if_false]
      by_cases hp : psk = "" <;> by_cases hmac : mac = ""
      · subst hp; subst hmac
        simp only [if_true]
        exact ⟨fun _ => PSKMap.get_put_self _ _ _, fun h => absurd rfl h,
          fun k hk => PSKMap.get_put_other _ _ _ _ hk⟩
      · subst hp
        simp only [if_true, hmac, if_false]
        exact ⟨fun h => h.elim, fun _ => PSKMap.get_put_self _ _ _,
          fun k hk => PSKMap.get_put_other _ _ _ _ hk⟩
      · subst hmac
        simp only [hp, if_false, if_true]
        exact ⟨fun _ => PSKMap.get_put_self _ _ _, fun h => absurd rfl h,
          fun k hk => PSKMap.get_put_other _ _ _ _ hk⟩
      · simp only [hp, hmac, if_false]
        exact ⟨fun h => h.elim, fun _ => PSKMap.get_put_self _ _ _,
          fun k hk => PSKMap.get_put_other _ _ _ _ hk⟩

/-- C4, amended, at a concrete request that replaces an earlier entry of the same MAC. -/
theorem C4_set_credential_stores_witness :
    (SetCredential [("AA:BB:CC:DD:EE:01", ⟨"wpa2", "AA:BB:CC:DD:EE:01", "oldpassword", ""⟩)]
        "AA:BB:CC:DD:EE:01" "sae" "password1" "desk" "Zm9vYmFyYmF6cXV4MTIzNA").code = 200
    ∧ (SetCredential [("AA:BB:CC:DD:EE:01", ⟨"wpa2", "AA:BB:CC:DD:EE:01", "oldpassword", ""⟩)]
        "AA:BB:CC:DD:EE:01" "sae" "password1" "desk"
        "Zm9vYmFyYmF6cXV4MTIzNA").persisted.get "AA:BB:CC:DD:EE:01"
      = some ⟨"sae", "AA:BB:CC:DD:EE:01", "password1", "desk"⟩ :=
  ⟨by decide,
   (C4_set_credential_stores
      [("AA:BB:CC:DD:EE:01", ⟨"wpa2", "AA:BB:CC:DD:EE:01", "oldpassword", ""⟩)]
      "AA:BB:CC:DD:EE:01" "sae" "password1" "desk" "Zm9vYmFyYmF6cXV4MTIzNA"
      (by decide)).2.1 (by decide)⟩

/-- C5, refuted as stated: the psk `ééééé` is non-empty and 5 characters long, shorter than
8 characters, and `SetCredential` with a valid type accepts it, since `len` counts its 10
bytes. -/
theorem C5_counterexample_short_psk_accepted :
    "ééééé" ≠ "" ∧ "ééééé".length = 5 ∧ "ééééé".utf8ByteSize = 10
    ∧ (SetCredential [] "aa:bb:cc:dd:ee:01" "wpa2" "ééééé" "" "Zm9vYmFyYmF6cXV4MTIzNA").code
      = 200
    ∧ (SetCredential [] "aa:bb:cc:dd:ee:01" "wpa2" "ééééé" ""
        "Zm9vYmFyYmF6cXV4MTIzNA").persisted.get "aa:bb:cc:dd:ee:01"
      = some ⟨"wpa2", "aa:bb:cc:dd:ee:01", "ééééé", ""⟩ := by
  decide

/-- C5, amended. `SetCredential(mac, type, psk, comment)` is rejected if and only if `type`
is not one of `sae`, `wpa2`, or `psk` is non-empty and shorter than 8 bytes in UTF-8;
whenever it is rejected the persisted PSK store is unchanged. A request is either rejected
(status 400) or accepted (status 200). -/
theorem C5_set_credential_rejects (file : PSKMap) (mac typ psk comment generated : String) :
    ((SetCredential file mac typ psk comment generated).code = 400 ↔
        ((typ ≠ "sae" ∧ typ ≠ "wpa2") ∨ (psk ≠ "" ∧ psk.utf8ByteSize < 8)))
    ∧ ((SetCredential file mac typ psk comment generated).code = 400 →
        (SetCredential file mac typ psk comment generated).persisted = file)
    ∧ ((SetCredential file mac typ psk comment generated).code = 400
        ∨ (SetCredential file mac typ psk comment generated).code = 200) := by
  have hpos := utf8ByteSize_pos_iff psk
  unfold SetCredential setPSK
  by_cases h1 : typ ≠ "sae" ∧ typ ≠ "wpa2"
  · simp [h1]
  · by_cases h2 : psk.utf8ByteSize > 0 ∧ psk.utf8ByteSize < 8
    · have h3 : psk ≠ "" := hpos.1 h2.1
      simp only [h1, h2, if_false, if_true, and_self, true_and, true_iff, true_or, implies_true,
        and_true]
      exact Or.inr h3
    · have h3 : ¬ (psk ≠ "" ∧ psk.utf8ByteSize < 8) := fun h => h2 ⟨hpos.2 h.1, h.2⟩
      simp only [h1, h2, if_false, h3, or_self]
      simp

/-- C6, refuted as stated: `short12` has 7 characters, and `SetCredential` with a valid
type rejects it and leaves the store as it was. -/
theorem C6_counterexample_short12_rejected :
    "short12".length = 7 ∧ "short1".length = 6
    ∧ (SetCredential [] "aa:bb:cc:dd:ee:01" "wpa2" "short12" "" "Zm9vYmFyYmF6cXV4MTIzNA").code
      = 400
    ∧ (SetCredential [] "aa:bb:cc:dd:ee:01" "wpa2" "short12" ""
        "Zm9vYmFyYmF6cXV4MTIzNA").persisted = [] := by
  decide

/-- C6, amended. For every store, every MAC and every valid type, `SetCredential(mac, type,
"short1", "")` (6 characters) and `SetCredential(mac, type, "short12", "")` (7 characters)
are rejected, and `SetCredential(mac, type, "short123", "")` (8 characters) is accepted. -/
theorem C6_psk_length_boundary (file : PSKMap) (mac typ generated : String)
    (ht : typ = "sae" ∨ typ = "wpa2") :
    (SetCredential file mac typ "short1" "" generated).code = 400
    ∧ (SetCredential file mac typ "short12" "" generated).code = 400
    ∧ (SetCredential file mac typ "short123" "" generated).code = 200 := by
  have h1 : ¬ (typ ≠ "sae" ∧ typ ≠ "wpa2") := by
    rintro ⟨a, b⟩
    rcases ht with ht | ht
    · exact a ht
    · exact b ht
  have e1 : "short1".utf8ByteSize = 6 := by decide
  have e2 : "short12".utf8ByteSize = 7 := by decide
  have e3 : "short123".utf8ByteSize = 8 := by decide
  refine ⟨?_, ?_, ?_⟩
  · simp [SetCredential, setPSK, h1, e1]
  · simp [SetCredential, setPSK, h1, e2]
  · simp [SetCredential, setPSK, h1, e3]

/-- C6, amended, for the type `sae` and the MAC `aa:bb:cc:dd:ee:01`. -/
theorem C6_psk_length_boundary_witness :
    ("sae" = "sae" ∨ "sae" = "wpa2")
    ∧ (SetCredential [] "aa:bb:cc:dd:ee:01" "sae" "short1" "" "Zm9vYmFyYmF6cXV4MTIzNA").code
      = 400
    ∧ (SetCredential [] "aa:bb:cc:dd:ee:01" "sae" "short12" "" "Zm9vYmFyYmF6cXV4MTIzNA").code
      = 400
    ∧ (SetCredential [] "aa:bb:cc:dd:ee:01" "sae" "short123" "" "Zm9vYmFyYmF6cXV4MTIzNA").code
      = 200 :=
  ⟨by decide,
   C6_psk_length_boundary [] "aa:bb:cc:dd:ee:01" "sae" "Zm9vYmFyYmF6cXV4MTIzNA" (by decide)⟩

/-! ## Zone store -/

theorem equalMAC_self (lowerRune : Char → Char) (a : String) : equalMAC lowerRune a a = true := by
  simp [equalMAC]

theorem addClient_idem (lowerRune : Char → Char) (client : Client) (cs : List Client) :
    addClient lowerRune client (addClient lowerRune client cs) = addClient lowerRune client cs := by
  induction cs with
  | nil => simp [addClient, equalMAC_self]
  | cons e rest ih =>
    by_cases h : equalMAC lowerRune e.Mac client.Mac = true
    · by_cases hc : e.Comment ≠ client.Comment
      · simp [addClient, h, hc]
      · simp [addClient, h, hc]
    · simp [addClient, h, ih]

theorem addClient_ne_nil (lowerRune : Char → Char) (client : Client) (cs : List Client) :
    addClient lowerRune client cs ≠ [] := by
  cases cs with
  | nil => simp [addClient]
  | cons e rest =>
    unfold addClient
    split_ifs <;> simp

theorem addZoneLoop_idem (lowerRune : Char → Char) (name : String) (client : Client)
    (zs : List ClientZone) :
    addZoneLoop lowerRune name client (addZoneLoop lowerRune name client zs)
      = addZoneLoop lowerRune name client zs := by
  induction zs with
  | nil => simp [addZoneLoop, addClient, equalMAC_self]
  | cons z rest ih =>
    by_cases h : z.Name = name
    · simp [addZoneLoop, h, addClient_idem]
    · simp [addZoneLoop, h, ih]

theorem addZoneLoop_names (lowerRune : Char → Char) (name : String) (client : Client)
    (zs : List ClientZone) :
    (addZoneLoop lowerRune name client zs).map ClientZone.Name
      = if name ∈ zs.map ClientZone.Name then zs.map ClientZone.Name
        else zs.map ClientZone.Name ++ [name] := by
  induction zs with
  | nil => simp [addZoneLoop]
  | cons z rest ih =>
    by_cases h : z.Name = name
    · simp [addZoneLoop, h]
    · have h2 : ¬ name = z.Name := fun e => h e.symm
      simp only [addZoneLoop, h, if_false, List.map_cons, ih, List.mem_cons, h2, false_or]
      split_ifs <;> simp

theorem addZoneLoop_clients (lowerRune : Char → Char) (name : String) (client : Client)
    (zs : List ClientZone) (hz : ∀ z ∈ zs, z.Clients ≠ []) :
    ∀ z ∈ addZoneLoop lowerRune name client zs, z.Clients ≠ [] := by
  induction zs with
  | nil =>
    intro z hzm
    simp [addZoneLoop] at hzm
    simp [hzm]
  | cons z0 rest ih =>
    intro z hzm
    have hrest : ∀ z ∈ rest, z.Clients ≠ [] := fun z hm => hz z (List.mem_cons_of_mem _ hm)
    by_cases h : z0.Name = name
    · simp only [addZoneLoop, h, if_true, List.mem_cons] at hzm
      rcases hzm with rfl | hzm
      · exact addClient_ne_nil _ _ _
      · exact hrest z hzm
    · simp only [addZoneLoop, h, if_false, List.mem_cons] at hzm
      rcases hzm with rfl | hzm
      · exact hz _ (List.mem_cons_self _ _)
      · exact ih hrest z hzm

theorem delZoneLoop_sublist (lowerRune : Char → Char) (name : String) (client : Client)
    (zs out : List ClientZone) (h : delZoneLoop lowerRune name client zs = some out) :
    (out.map ClientZone.Name).Sublist (zs.map ClientZone.Name)
    ∧ ((∀ z ∈ zs, z.Clients ≠ []) → ∀ z ∈ out, z.Clients ≠ []) := by
  induction zs generalizing out with
  | nil => simp [delZoneLoop] at h
  | cons z0 rest ih =>
    have key : ∀ out', delZoneLoop lowerRune name client rest = some out' →
        ((z0 :: out').map ClientZone.Name).Sublist ((z0 :: rest).map ClientZone.Name)
        ∧ ((∀ z ∈ z0 :: rest, z.Clients ≠ []) → ∀ z ∈ z0 :: out', z.Clients ≠ []) := by
      intro out' h'
      obtain ⟨s1, s2⟩ := ih out' h'
      refine ⟨by simpa using s1.cons₂ z0.Name, ?_⟩
      intro hz z hm
      rcases List.mem_cons.1 hm with rfl | hm
      · exact hz _ (List.mem_cons_self _ _)
      · exact s2 (fun z hm => hz z (List.mem_cons_of_mem _ hm)) z hm
    unfold delZoneLoop at h
    by_cases hn : z0.Name = name
    · simp only [hn, if_true] at h
      cases hr : removeClient lowerRune client.Mac z0.Clients with
      | none =>
        rw [hr] at h
        simp only [Option.map_eq_some'] at h
        obtain ⟨out', h', rfl⟩ := h
        exact key out' h'
      | some cs =>
        rw [hr] at h
        by_cases hl : cs.length > 0
        · simp only [hl, if_true, Option.some.injEq] at h
          subst h
          refine ⟨by simp [hn], ?_⟩
          intro hz z hm
          rcases List.mem_cons.1 hm with rfl | hm
          · exact List.ne_nil_of_length_pos hl
          · exact hz z (List.mem_cons_of_mem _ hm)
        · simp only [hl, if_false, Option.some.injEq] at h
          subst h
          refine ⟨by simp, ?_⟩
          intro hz z hm
          exact hz z (List.mem_cons_of_mem _ hm)
    · simp only [hn, if_false, Option.map_eq_some'] at h
      obtain ⟨out', h', rfl⟩ := h
      exact key out' h'

/-- C9. For every zone list, zone name, MAC and comment, applying `AddMember(zone, {mac,
comment})` twice leaves the same persisted zone list as applying it once. -/
theorem C9_add_member_idempotent (lowerRune : Char → Char) (zones : List ClientZone)
    (zone mac comment : String) :
    AddMember lowerRune (AddMember lowerRune zones zone ⟨mac, comment⟩) zone ⟨mac, comment⟩
      = AddMember lowerRune zones zone ⟨mac, comment⟩ := by
  simp [AddMember, addZoneMember, addZoneLoop_idem]

/-- C10. For every zone list in which no zone has an empty client list and no two zones
share a `Name`, the list persisted by `AddMember`, by `RemoveMember` and by `UpdateComment`
again has no zone with an empty client list and no two zones with the same `Name`. -/
theorem C10_zone_operations_preserve_wellformed (lowerRune : Char → Char)
    (zones : List ClientZone) (zone mac comment : String) (h : ZonesWellFormed zones) :
    ZonesWellFormed (AddMember lowerRune zones zone ⟨mac, comment⟩)
    ∧ ZonesWellFormed (RemoveMember lowerRune zones zone mac)
    ∧ ZonesWellFormed (UpdateComment lowerRune zones mac comment) := by
  obtain ⟨hc, hn⟩ := h
  refine ⟨⟨?_, ?_⟩, ?_, ⟨?_, ?_⟩⟩
  · exact addZoneLoop_clients _ _ _ _ hc
  · simp only [AddMember, addZoneMember]
    rw [addZoneLoop_names]
    split_ifs with hmem
    · exact hn
    · exact List.Nodup.append hn (List.nodup_singleton _) (by simpa using hmem)
  · simp only [RemoveMember, delZoneMember]
    cases hd : delZoneLoop lowerRune (trimLower lowerRune zone) ⟨mac, ""⟩ zones with
    | none => exact ⟨hc, hn⟩
    | some out =>
      obtain ⟨s1, s2⟩ := delZoneLoop_sublist _ _ _ _ _ hd
      exact ⟨s2 hc, hn.sublist s1⟩
  · intro z hz
    simp only [UpdateComment, updateDevice, List.mem_map] at hz
    obtain ⟨z0, hz0, rfl⟩ := hz
    have := hc z0 hz0
    simpa using this
  · simpa [UpdateComment, updateDevice, List.map_map, Function.comp_def] using hn

/-- C10, on a list with the zones `lan` and `guests`, removing the only member of `guests`. -/
theorem C10_zone_operations_preserve_wellformed_witness :
    ZonesWellFormed
      [⟨"lan", [⟨"aa:bb:cc:dd:ee:01", "desk"⟩, ⟨"aa:bb:cc:dd:ee:02", "phone"⟩]⟩,
       ⟨"guests", [⟨"aa:bb:cc:dd:ee:02", "phone"⟩]⟩]
    ∧ RemoveMember Char.toLower
        [⟨"lan", [⟨"aa:bb:cc:dd:ee:01", "desk"⟩, ⟨"aa:bb:cc:dd:ee:02", "phone"⟩]⟩,
         ⟨"guests", [⟨"aa:bb:cc:dd:ee:02", "phone"⟩]⟩] "guests" "AA:BB:CC:DD:EE:02"
      = [⟨"lan", [⟨"aa:bb:cc:dd:ee:01", "desk"⟩, ⟨"aa:bb:cc:dd:ee:02", "phone"⟩]⟩]
    ∧ ZonesWellFormed (RemoveMember Char.toLower
        [⟨"lan", [⟨"aa:bb:cc:dd:ee:01", "desk"⟩, ⟨"aa:bb:cc:dd:ee:02", "phone"⟩]⟩,
         ⟨"guests", [⟨"aa:bb:cc:dd:ee:02", "phone"⟩]⟩] "guests" "AA:BB:CC:DD:EE:02") :=
  ⟨by simp [ZonesWellFormed], by decide,
   (C10_zone_operations_preserve_wellformed Char.toLower
      [⟨"lan", [⟨"aa:bb:cc:dd:ee:01", "desk"⟩, ⟨"aa:bb:cc:dd:ee:02", "phone"⟩]⟩,
       ⟨"guests", [⟨"aa:bb:cc:dd:ee:02", "phone"⟩]⟩] "guests" "AA:BB:CC:DD:EE:02" ""
      (by simp [ZonesWellFormed])).2.1⟩

/-! ## Credential files: writing and re-parsing -/

theorem splitChars_append_sep (sep : Char) (a b : List Char) (h : sep ∉ a) :
    splitChars sep (a ++ sep :: b) = a :: splitChars sep b := by
  induction a with
  | nil => simp [splitChars]
  | cons c cs ih =>
    have hc : ¬ c = sep := fun e => h (e ▸ List.mem_cons_self _ _)
    have hcs : sep ∉ cs := fun m => h (List.mem_cons_of_mem _ m)
    simp [splitChars, hc, ih hcs]

theorem splitChars_no_sep (sep : Char) (a : List Char) (h : sep ∉ a) :
    splitChars sep a = [a] := by
  induction a with
  | nil => simp [splitChars]
  | cons c cs ih =>
    have hc : ¬ c = sep := fun e => h (e ▸ List.mem_cons_self _ _)
    have hcs : sep ∉ cs := fun m => h (List.mem_cons_of_mem _ m)
    simp [splitChars, hc, ih hcs]

theorem join_cons (a : String) (l : List String) : String.join (a :: l) = a ++ String.join l := by
  apply String.ext
  simp

theorem join_append (l₁ l₂ : List String) :
    String.join (l₁ ++ l₂) = String.join l₁ ++ String.join l₂ := by
  apply String.ext
  simp

theorem Split_line (line rest : List Char) (h : '\n' ∉ line) :
    Split ⟨line ++ '\n' :: rest⟩ '\n' = ⟨line⟩ :: Split ⟨rest⟩ '\n' := by
  show (splitChars '\n' (line ++ '\n' :: rest)).map String.mk = _
  rw [splitChars_append_sep _ _ _ h]
  rfl

theorem PSKMap.mem_of_get (m : PSKMap) (k : String) (v : PSKEntry) (h : m.get k = some v) :
    (k, v) ∈ m := by
  induction m with
  | nil => simp [PSKMap.get] at h
  | cons kv rest ih =>
    obtain ⟨k', v'⟩ := kv
    by_cases hk : k' = k
    · simp only [PSKMap.get, hk, if_true, Option.some.injEq] at h
      simp [hk, h]
    · simp only [PSKMap.get, hk, if_false] at h
      exact List.mem_cons_of_mem _ (ih h)

theorem PSKMap.get_of_mem (m : PSKMap) (k : String) (v : PSKEntry)
    (hn : (m.map Prod.fst).Nodup) (h : (k, v) ∈ m) : m.get k = some v := by
  induction m with
  | nil => simp at h
  | cons kv rest ih =>
    obtain ⟨k', v'⟩ := kv
    have hn0 : (k' :: rest.map Prod.fst).Nodup := hn
    have hn' := List.nodup_cons.1 hn0
    rcases List.mem_cons.1 h with e | h'
    · cases e
      simp [PSKMap.get]
    · have hk : ¬ k' = k := by
        intro e
        exact hn'.1 (e ▸ List.mem_map_of_mem Prod.fst h')
      simp only [PSKMap.get, hk, if_false]
      exact ih hn'.2 h'

theorem PSKMap.not_mem_of_get_none (m : PSKMap) (k : String) (h : m.get k = none) :
    ∀ kv ∈ m, kv.1 ≠ k := by
  induction m with
  | nil => simp
  | cons kv rest ih =>
    obtain ⟨k', v'⟩ := kv
    by_cases hk : k' = k
    · simp [PSKMap.get, hk] at h
    · simp only [PSKMap.get, hk, if_false] at h
      intro kv hkv
      rcases List.mem_cons.1 hkv with e | h'
      · rw [e]
        exact hk
      · exact ih h kv h'

theorem PSKMap.get_perm (m visit : PSKMap) (k : String) (hn : (m.map Prod.fst).Nodup)
    (hv : visit.Perm m) : visit.get k = m.get k := by
  have hnv : (visit.map Prod.fst).Nodup := (hv.map Prod.fst).nodup_iff.2 hn
  cases hg : m.get k with
  | some v => exact PSKMap.get_of_mem _ _ _ hnv (hv.mem_iff.2 (PSKMap.mem_of_get _ _ _ hg))
  | none =>
    cases hg2 : visit.get k with
    | none => rfl
    | some v =>
      exact absurd rfl
        (PSKMap.not_mem_of_get_none _ _ hg _ (hv.mem_iff.1 (PSKMap.mem_of_get _ _ _ hg2)))

theorem keyedOfType_cons (typ : String) (kv : String × PSKEntry) (l : PSKMap) :
    keyedOfType typ (kv :: l)
      = (if kv.1 ≠ "pending" ∧ kv.2.Typ = typ then [kv.2] else []) ++ keyedOfType typ l := by
  by_cases h : kv.1 ≠ "pending" ∧ kv.2.Typ = typ
  · simp [keyedOfType, List.filter_cons, h]
  · have h2 : (decide (kv.1 ≠ "pending") && decide (kv.2.Typ = typ)) = false := by
      simpa using h
    rw [if_neg h]
    simp only [keyedOfType, List.filter_cons, h2]
    simp

theorem keyedOfType_append (typ : String) (l₁ l₂ : PSKMap) :
    keyedOfType typ (l₁ ++ l₂) = keyedOfType typ l₁ ++ keyedOfType typ l₂ := by
  simp [keyedOfType]

theorem foldl_reloadStep_keyed (l : PSKMap) (acc : PSKFiles)
    (h : ∀ kv ∈ l, kv.1 ≠ "pending") :
    l.foldl reloadStep acc
      = ⟨acc.sae ++ String.join ((keyedOfType "sae" l).map saeLine),
         acc.wpa2 ++ String.join ((keyedOfType "wpa2" l).map wpa2Line)⟩ := by
  induction l generalizing acc with
  | nil => simp [keyedOfType, String.join]
  | cons kv l ih =>
    have hk : kv.1 ≠ "pending" := h kv (List.mem_cons_self _ _)
    rw [List.foldl_cons, ih _ (fun kv hkv => h kv (List.mem_cons_of_mem _ hkv))]
    rw [keyedOfType_cons, keyedOfType_cons]
    by_cases hs : kv.2.Typ = "sae"
    · have hw : ¬ kv.2.Typ = "wpa2" := by
        rw [hs]
        decide
      simp [reloadStep, hk, hs, join_cons, saeLine, String.append_assoc]
    · by_cases hw : kv.2.Typ = "wpa2"
      · simp [reloadStep, hk, hs, hw, join_cons, wpa2Line, String.append_assoc]
      · simp [reloadStep, hk, hs, hw]

theorem split_at_pending (visit : PSKMap) (p : PSKEntry)
    (hn : (visit.map Prod.fst).Nodup) (hp : ("pending", p) ∈ visit) :
    ∃ l₁ l₂, visit = l₁ ++ ("pending", p) :: l₂
      ∧ (∀ kv ∈ l₁, kv.1 ≠ "pending") ∧ (∀ kv ∈ l₂, kv.1 ≠ "pending") := by
  obtain ⟨l₁, l₂, rfl⟩ := List.append_of_mem hp
  refine ⟨l₁, l₂, rfl, ?_, ?_⟩
  · intro kv hkv e
    have h1 : (l₁.map Prod.fst ++ "pending" :: l₂.map Prod.fst).Nodup := by simpa using hn
    have := (List.nodup_append.1 h1).2.2
    exact this (List.mem_map_of_mem Prod.fst hkv) (e ▸ List.mem_cons_self _ _)
  · intro kv hkv e
    have h1 : (l₁.map Prod.fst ++ "pending" :: l₂.map Prod.fst).Nodup := by simpa using hn
    have := (List.nodup_cons.1 (List.nodup_append.1 h1).2.1).1
    exact this (e ▸ List.mem_map_of_mem Prod.fst hkv)

/-- The content of the two files: in each, the line of the pending entry of that type under
its placeholder MAC, if there is one, and then the lines of the MAC-keyed entries of that
type in visiting order. -/
theorem doReloadPSKFiles_eq (visit : PSKMap) (hn : (visit.map Prod.fst).Nodup) :
    doReloadPSKFiles visit
      = ⟨String.join ((pendingOfType "sae" visit ++ keyedOfType "sae" visit).map saeLine),
         String.join ((pendingOfType "wpa2" visit ++ keyedOfType "wpa2" visit).map wpa2Line)⟩ := by
  cases hg : visit.get "pending" with
  | none =>
    have hk := PSKMap.not_mem_of_get_none _ _ hg
    simp [doReloadPSKFiles, foldl_reloadStep_keyed visit _ hk, pendingOfType, hg]
  | some p =>
    obtain ⟨l₁, l₂, rfl, h₁, h₂⟩ := split_at_pending visit p hn (PSKMap.mem_of_get _ _ _ hg)
    have e1 : "|mac=ff:ff:ff:ff:ff:ff" = "|mac=" ++ "ff:ff:ff:ff:ff:ff" := by decide
    have e2 : "00:00:00:00:00:00 " = "00:00:00:00:00:00" ++ " " := by decide
    have k1 : ∀ typ, keyedOfType typ (l₁ ++ ("pending", p) :: l₂)
        = keyedOfType typ l₁ ++ keyedOfType typ l₂ := by
      intro typ
      rw [keyedOfType_append, keyedOfType_cons]
      simp
    simp only [doReloadPSKFiles, List.foldl_append, List.foldl_cons,
      foldl_reloadStep_keyed l₁ _ h₁, foldl_reloadStep_keyed l₂ _ h₂, pendingOfType, hg, k1]
    by_cases hs : p.Typ = "sae"
    · have hw : ¬ p.Typ = "wpa2" := by
        rw [hs]
        decide
      simp [reloadStep, hs, placeholderMac, saeLine, join_cons, join_append,
        String.append_assoc, e1]
    · by_cases hw : p.Typ = "wpa2"
      · simp [reloadStep, hs, hw, placeholderMac, wpa2Line, join_cons, join_append,
          String.append_assoc, e2]
      · simp [reloadStep, hs, hw, join_append]

theorem keyedOfType_perm (typ : String) (file visit : PSKMap) (hv : visit.Perm file) :
    (keyedOfType typ visit).Perm (keyedOfType typ file) :=
  (hv.filter _).map _

theorem mem_keyedOfType (typ : String) (m : PSKMap) (e : PSKEntry) :
    e ∈ keyedOfType typ m ↔ ∃ k, (k, e) ∈ m ∧ k ≠ "pending" ∧ e.Typ = typ := by
  simp only [keyedOfType, List.mem_map, List.mem_filter, Bool.and_eq_true, decide_eq_true_eq]
  constructor
  · rintro ⟨⟨k, e'⟩, ⟨hm, hk, ht⟩, rfl⟩
    exact ⟨k, hm, hk, ht⟩
  · rintro ⟨k, hm, hk, ht⟩
    exact ⟨(k, e), ⟨hm, hk, ht⟩, rfl⟩

/-- C8. For every PSK store with a `pending` entry `p` and every order `visit` in which
its entries are visited, the file of the type of `p` starts with the line of `p`
(`<psk>|mac=ff:ff:ff:ff:ff:ff` in the SAE file, `00:00:00:00:00:00 <psk>` in the WPA2 file)
and goes on with one line `<psk>|mac=<mac>` (SAE) or `<mac> <psk>` (WPA2) for each MAC-keyed
entry of that type, in visiting order; those keyed entries are the ones of the store, each
once. -/
theorem C8_pending_line_first (file visit : PSKMap) (p : PSKEntry)
    (hn : (file.map Prod.fst).Nodup) (hv : visit.Perm file)
    (hp : file.get "pending" = some p) :
    (p.Typ = "sae" →
        (doReloadPSKFiles visit).sae
          = p.Psk ++ "|mac=ff:ff:ff:ff:ff:ff" ++ "\n"
            ++ String.join ((keyedOfType "sae" visit).map
                (fun e => e.Psk ++ "|mac=" ++ e.Mac ++ "\n")))
    ∧ (p.Typ = "wpa2" →
        (doReloadPSKFiles visit).wpa2
          = "00:00:00:00:00:00 " ++ p.Psk ++ "\n"
            ++ String.join ((keyedOfType "wpa2" visit).map
                (fun e => e.Mac ++ " " ++ e.Psk ++ "\n")))
    ∧ (∀ typ, (keyedOfType typ visit).Perm (keyedOfType typ file))
    ∧ (∀ k e, file.get k = some e → k ≠ "pending" → e ∈ keyedOfType e.Typ visit) := by
  have hnv : (visit.map Prod.fst).Nodup := (hv.map Prod.fst).nodup_iff.2 hn
  have hg : visit.get "pending" = some p := by rw [PSKMap.get_perm _ _ _ hn hv, hp]
  have e1 : "|mac=ff:ff:ff:ff:ff:ff" = "|mac=" ++ "ff:ff:ff:ff:ff:ff" := by decide
  have e2 : "00:00:00:00:00:00 " = "00:00:00:00:00:00" ++ " " := by decide
  refine ⟨?_, ?_, fun typ => keyedOfType_perm typ file visit hv, ?_⟩
  · intro hs
    rw [doReloadPSKFiles_eq visit hnv]
    show String.join ((pendingOfType "sae" visit ++ keyedOfType "sae" visit).map saeLine)
      = p.Psk ++ "|mac=ff:ff:ff:ff:ff:ff" ++ "\n"
        ++ String.join ((keyedOfType "sae" visit).map saeLine)
    simp [pendingOfType, hg, hs, join_cons, saeLine, placeholderMac, e1, String.append_assoc]
  · intro hw
    rw [doReloadPSKFiles_eq visit hnv]
    show String.join ((pendingOfType "wpa2" visit ++ keyedOfType "wpa2" visit).map wpa2Line)
      = "00:00:00:00:00:00 " ++ p.Psk ++ "\n"
        ++ String.join ((keyedOfType "wpa2" visit).map wpa2Line)
    simp [pendingOfType, hg, hw, join_cons, wpa2Line, placeholderMac, e2, String.append_assoc]
  · intro k e hk hkp
    exact (mem_keyedOfType _ _ _).2
      ⟨k, hv.mem_iff.2 (PSKMap.mem_of_get _ _ _ hk), hkp, rfl⟩

/-- C8, on a store with a pending SAE credential, one SAE and one WPA2 keyed entry, with the
pending entry visited second. -/
theorem C8_pending_line_first_witness :
    (doReloadPSKFiles
        [("aa:bb:cc:dd:ee:01", ⟨"sae", "aa:bb:cc:dd:ee:01", "correcthorse", ""⟩),
         ("pending", ⟨"sae", "", "Zm9vYmFyYmF6cXV4MTIzNA", ""⟩),
         ("aa:bb:cc:dd:ee:02", ⟨"wpa2", "aa:bb:cc:dd:ee:02", "batterystaple", ""⟩)]).sae
      = "Zm9vYmFyYmF6cXV4MTIzNA|mac=ff:ff:ff:ff:ff:ff\ncorrecthorse|mac=aa:bb:cc:dd:ee:01\n" :=
  ((C8_pending_line_first
      [("pending", ⟨"sae", "", "Zm9vYmFyYmF6cXV4MTIzNA", ""⟩),
       ("aa:bb:cc:dd:ee:01", ⟨"sae", "aa:bb:cc:dd:ee:01", "correcthorse", ""⟩),
       ("aa:bb:cc:dd:ee:02", ⟨"wpa2", "aa:bb:cc:dd:ee:02", "batterystaple", ""⟩)]
      [("aa:bb:cc:dd:ee:01", ⟨"sae", "aa:bb:cc:dd:ee:01", "correcthorse", ""⟩),
       ("pending", ⟨"sae", "", "Zm9vYmFyYmF6cXV4MTIzNA", ""⟩),
       ("aa:bb:cc:dd:ee:02", ⟨"wpa2", "aa:bb:cc:dd:ee:02", "batterystaple", ""⟩)]
      ⟨"sae", "", "Zm9vYmFyYmF6cXV4MTIzNA", ""⟩
      (by decide) (List.Perm.swap _ _ _) (by decide)).1 (by decide)).trans (by decide)

theorem mem_pendingOfType (typ : String) (m : PSKMap) (e : PSKEntry) :
    e ∈ pendingOfType typ m
      ↔ ∃ p, m.get "pending" = some p ∧ p.Typ = typ ∧ e = { p with Mac := placeholderMac typ } := by
  unfold pendingOfType
  cases hg : m.get "pending" with
  | none => simp
  | some p =>
    by_cases ht : p.Typ = typ
    · simp [ht]
    · simp [ht]

theorem emitted_triple (typ : String) (visit : PSKMap) (t : String × String × String) :
    (∃ e ∈ pendingOfType typ visit ++ keyedOfType typ visit, t = (typ, e.Mac, e.Psk))
      ↔ ((∃ kv ∈ visit, kv.1 ≠ "pending" ∧ kv.2.Typ = typ ∧ t = kv.2.triple)
          ∨ ∃ p, visit.get "pending" = some p ∧ p.Typ = typ
              ∧ t = (p.Typ, placeholderMac p.Typ, p.Psk)) := by
  constructor
  · rintro ⟨e, he, rfl⟩
    rcases List.mem_append.1 he with he | he
    · obtain ⟨p, hg, ht, rfl⟩ := (mem_pendingOfType _ _ _).1 he
      exact Or.inr ⟨p, hg, ht, by simp [ht]⟩
    · obtain ⟨k, hm, hk, ht⟩ := (mem_keyedOfType _ _ _).1 he
      exact Or.inl ⟨(k, e), hm, hk, ht, by simp [PSKEntry.triple, ht]⟩
  · rintro (⟨kv, hm, hk, ht, rfl⟩ | ⟨p, hg, ht, rfl⟩)
    · exact ⟨kv.2, List.mem_append_right _ ((mem_keyedOfType _ _ _).2 ⟨kv.1, hm, hk, ht⟩),
        by simp [PSKEntry.triple, ht]⟩
    · exact ⟨{ p with Mac := placeholderMac typ },
        List.mem_append_left _ ((mem_pendingOfType _ _ _).2 ⟨p, hg, ht, rfl⟩), by simp [ht]⟩

theorem dropWhile_isSpace_head (l : List Char) (h : l.head?.all (fun c => !isSpace c) = true) :
    l.dropWhile isSpace = l := by
  cases l with
  | nil => rfl
  | cons c cs =>
    have hc : isSpace c = false := by simpa using h
    simp [List.dropWhile_cons, hc]

theorem trimSpaceChars_ends (l : List Char) (h1 : l.head?.all (fun c => !isSpace c) = true)
    (h2 : l.getLast?.all (fun c => !isSpace c) = true) : trimSpaceChars l = l := by
  unfold trimSpaceChars
  rw [dropWhile_isSpace_head l h1, dropWhile_isSpace_head l.reverse (by rw [List.head?_reverse]; exact h2)]
  simp

theorem saeCarries_spec (e : PSKEntry) (h : saeCarries e = true) :
    '|' ∉ e.Psk.data ∧ '\n' ∉ e.Psk.data ∧ e.Psk.data.head?.all (fun c => !isSpace c) = true
      ∧ '|' ∉ e.Mac.data ∧ '=' ∉ e.Mac.data ∧ '\n' ∉ e.Mac.data
      ∧ e.Mac.data.getLast?.all (fun c => !isSpace c) = true := by
  simp only [saeCarries, Bool.and_eq_true, List.all_eq_true, bne_iff_ne, ne_eq] at h
  obtain ⟨⟨⟨h1, h2⟩, h3⟩, h4⟩ := h
  exact ⟨fun m => (h1 _ m).1 rfl, fun m => (h1 _ m).2 rfl, h2,
    fun m => (h3 _ m).1.1 rfl, fun m => (h3 _ m).1.2 rfl, fun m => (h3 _ m).2 rfl, h4⟩

theorem wpa2Carries_spec (e : PSKEntry) (h : wpa2Carries e = true) :
    e.Mac.data ≠ [] ∧ ' ' ∉ e.Mac.data ∧ '\n' ∉ e.Mac.data
      ∧ e.Mac.data.head?.all (fun c => !isSpace c) = true
      ∧ e.Psk.data ≠ [] ∧ ' ' ∉ e.Psk.data ∧ '\n' ∉ e.Psk.data
      ∧ e.Psk.data.getLast?.all (fun c => !isSpace c) = true := by
  simp only [wpa2Carries, Bool.and_eq_true, List.all_eq_true, bne_iff_ne, ne_eq,
    Bool.not_eq_true', List.isEmpty_eq_false] at h
  obtain ⟨⟨⟨⟨⟨h1, h2⟩, h3⟩, h4⟩, h5⟩, h6⟩ := h
  refine ⟨?_, fun m => (h2 _ m).1 rfl, fun m => (h2 _ m).2 rfl, h3, ?_,
    fun m => (h5 _ m).1 rfl, fun m => (h5 _ m).2 rfl, h6⟩
  · intro e0
    rw [e0] at h1
    simp at h1
  · intro e0
    rw [e0] at h4
    simp at h4

theorem loadSaeLines_carried (m0 : PSKMap) (e : PSKEntry) (rest : List String)
    (h : saeCarries e = true) :
    loadSaeLines m0 (⟨e.Psk.data ++ "|mac=".data ++ e.Mac.data⟩ :: rest)
      = loadSaeLines (m0.put e.Mac ⟨"sae", e.Mac, e.Psk, ""⟩) rest := by
  obtain ⟨hpb, _, hph, hmb, hme, _, hml⟩ := saeCarries_spec e h
  have htrim : TrimSpace ⟨e.Psk.data ++ "|mac=".data ++ e.Mac.data⟩
      = ⟨e.Psk.data ++ "|mac=".data ++ e.Mac.data⟩ := by
    simp only [TrimSpace]
    rw [trimSpaceChars_ends]
    · rw [List.append_assoc, List.head?_append]
      cases hp : e.Psk.data with
      | nil => rfl
      | cons c cs =>
        rw [hp] at hph
        simpa using hph
    · rw [List.getLast?_append]
      cases hm : e.Mac.data.getLast? with
      | none =>
        show Option.all _ ((e.Psk.data ++ ['|', 'm', 'a', 'c', '=']).getLast?) = true
        rw [List.getLast?_append]
        rfl
      | some c =>
        rw [hm] at hml
        simpa using hml
  have hne : (⟨e.Psk.data ++ "|mac=".data ++ e.Mac.data⟩ : String) ≠ "" := by
    intro h
    have := congrArg String.data h
    simp at this
  have hbar : '|' ∉ ['m', 'a', 'c', '='] ++ e.Mac.data := by
    simp only [List.mem_append, not_or]
    exact ⟨by decide, hmb⟩
  have hsplit : Split ⟨e.Psk.data ++ "|mac=".data ++ e.Mac.data⟩ '|'
      = [e.Psk, ⟨['m', 'a', 'c', '='] ++ e.Mac.data⟩] := by
    have hd : e.Psk.data ++ "|mac=".data ++ e.Mac.data
        = e.Psk.data ++ '|' :: (['m', 'a', 'c', '='] ++ e.Mac.data) := by
      rw [List.append_assoc]
      rfl
    show (splitChars '|' (e.Psk.data ++ "|mac=".data ++ e.Mac.data)).map String.mk = _
    rw [hd, splitChars_append_sep _ _ _ hpb, splitChars_no_sep _ _ hbar]
    rfl
  have hsplit2 : Split ⟨['m', 'a', 'c', '='] ++ e.Mac.data⟩ '=' = ["mac", e.Mac] := by
    have hd : ['m', 'a', 'c', '='] ++ e.Mac.data = ['m', 'a', 'c'] ++ '=' :: e.Mac.data := rfl
    show (splitChars '=' (['m', 'a', 'c', '='] ++ e.Mac.data)).map String.mk = _
    rw [hd, splitChars_append_sep _ _ _ (by decide), splitChars_no_sep _ _ hme]
    rfl
  rw [loadSaeLines]
  simp only [htrim]
  rw [if_neg hne]
  simp only [hsplit]
  have hsplit3 : Split ⟨'m' :: 'a' :: 'c' :: '=' :: e.Mac.data⟩ '=' = ["mac", e.Mac] := hsplit2
  simp [hsplit3]

theorem loadWpa2Lines_carried (m0 : PSKMap) (e : PSKEntry) (rest : List String)
    (h : wpa2Carries e = true) :
    loadWpa2Lines m0 (⟨e.Mac.data ++ " ".data ++ e.Psk.data⟩ :: rest)
      = loadWpa2Lines (m0.put e.Mac ⟨"wpa2", e.Mac, e.Psk, ""⟩) rest := by
  obtain ⟨hm1, hms, _, hmh, hp1, hps, _, hpl⟩ := wpa2Carries_spec e h
  have htrim : TrimSpace ⟨e.Mac.data ++ " ".data ++ e.Psk.data⟩
      = ⟨e.Mac.data ++ " ".data ++ e.Psk.data⟩ := by
    simp only [TrimSpace]
    rw [trimSpaceChars_ends]
    · rw [List.append_assoc, List.head?_append]
      cases hp : e.Mac.data with
      | nil => exact absurd hp hm1
      | cons c cs =>
        rw [hp] at hmh
        simpa using hmh
    · rw [List.getLast?_append]
      cases hm : e.Psk.data.getLast? with
      | none => exact absurd (List.getLast?_eq_none_iff.1 hm) hp1
      | some c =>
        rw [hm] at hpl
        simpa using hpl
  have hne : (⟨e.Mac.data ++ " ".data ++ e.Psk.data⟩ : String) ≠ "" := by
    intro h
    have := congrArg String.data h
    simp [hm1] at this
  have hsplit : Split ⟨e.Mac.data ++ " ".data ++ e.Psk.data⟩ ' ' = [e.Mac, e.Psk] := by
    have hd : e.Mac.data ++ " ".data ++ e.Psk.data = e.Mac.data ++ ' ' :: e.Psk.data := by
      rw [List.append_assoc]
      rfl
    show (splitChars ' ' (e.Mac.data ++ " ".data ++ e.Psk.data)).map String.mk = _
    rw [hd, splitChars_append_sep _ _ _ hms, splitChars_no_sep _ _ hps]
    rfl
  rw [loadWpa2Lines]
  simp only [htrim]
  rw [if_neg hne]
  simp only [hsplit]
  simp

theorem loadSaeLines_written (L : List PSKEntry) (hL : ∀ e ∈ L, saeCarries e = true)
    (m0 : PSKMap) :
    loadSaeLines m0 (Split (String.join (L.map saeLine)) '\n') = some (putAll "sae" m0 L) := by
  induction L generalizing m0 with
  | nil =>
    show loadSaeLines m0 [""] = some m0
    rw [loadSaeLines]
    have : TrimSpace "" = "" := by decide
    simp [this, loadSaeLines]
  | cons e L ih =>
    have he := hL e (List.mem_cons_self _ _)
    obtain ⟨_, hpn, _, _, _, hmn, _⟩ := saeCarries_spec e he
    have hn : '\n' ∉ e.Psk.data ++ "|mac=".data ++ e.Mac.data := by
      simp only [List.mem_append, not_or]
      exact ⟨⟨hpn, by decide⟩, hmn⟩
    have hd : String.join ((e :: L).map saeLine)
        = ⟨(e.Psk.data ++ "|mac=".data ++ e.Mac.data)
            ++ '\n' :: (String.join (L.map saeLine)).data⟩ := by
      apply String.ext
      simp only [List.map_cons, join_cons, saeLine, String.data_append]
      simp
    rw [hd, Split_line _ _ hn, loadSaeLines_carried m0 e _ he]
    exact ih (fun e he => hL e (List.mem_cons_of_mem _ he)) _

theorem loadWpa2Lines_written (L : List PSKEntry) (hL : ∀ e ∈ L, wpa2Carries e = true)
    (m0 : PSKMap) :
    loadWpa2Lines m0 (Split (String.join (L.map wpa2Line)) '\n')
      = some (putAll "wpa2" m0 L) := by
  induction L generalizing m0 with
  | nil =>
    show loadWpa2Lines m0 [""] = some m0
    rw [loadWpa2Lines]
    have : TrimSpace "" = "" := by decide
    simp [this, loadWpa2Lines]
  | cons e L ih =>
    have he := hL e (List.mem_cons_self _ _)
    obtain ⟨_, _, hmn, _, _, _, hpn, _⟩ := wpa2Carries_spec e he
    have hn : '\n' ∉ e.Mac.data ++ " ".data ++ e.Psk.data := by
      simp only [List.mem_append, not_or]
      exact ⟨⟨hmn, by decide⟩, hpn⟩
    have hd : String.join ((e :: L).map wpa2Line)
        = ⟨(e.Mac.data ++ " ".data ++ e.Psk.data)
            ++ '\n' :: (String.join (L.map wpa2Line)).data⟩ := by
      apply String.ext
      simp only [List.map_cons, join_cons, wpa2Line, String.data_append]
      simp
    rw [hd, Split_line _ _ hn, loadWpa2Lines_carried m0 e _ he]
    exact ih (fun e he => hL e (List.mem_cons_of_mem _ he)) _

theorem PSKMap.mem_put (m : PSKMap) (k : String) (v : PSKEntry) (kv : String × PSKEntry) :
    kv ∈ m.put k v ↔ kv = (k, v) ∨ (kv ∈ m ∧ kv.1 ≠ k) := by
  simp [PSKMap.put, PSKMap.del, List.mem_filter]

theorem putAll_cons (typ : String) (m : PSKMap) (e : PSKEntry) (es : List PSKEntry) :
    putAll typ m (e :: es) = putAll typ (m.put e.Mac ⟨typ, e.Mac, e.Psk, ""⟩) es := rfl

/-- Every pair of the map that the lines leave was there before or comes from a line. -/
theorem putAll_mem (typ : String) (es : List PSKEntry) (m : PSKMap) (kv : String × PSKEntry)
    (h : kv ∈ putAll typ m es) :
    kv ∈ m ∨ ∃ e ∈ es, kv = (e.Mac, ⟨typ, e.Mac, e.Psk, ""⟩) := by
  induction es generalizing m with
  | nil => exact Or.inl h
  | cons e es ih =>
    rw [putAll_cons] at h
    rcases ih _ h with h1 | ⟨e', he', h1⟩
    · rcases (PSKMap.mem_put _ _ _ _).1 h1 with h2 | h2
      · exact Or.inr ⟨e, List.mem_cons_self _ _, h2⟩
      · exact Or.inl h2.1
    · exact Or.inr ⟨e', List.mem_cons_of_mem _ he', h1⟩

/-- A key of the map stays a key, with its value or with the value of a later line of the
same MAC. -/
theorem putAll_key_kept (typ : String) (es : List PSKEntry) (m : PSKMap) (k : String)
    (v : PSKEntry) (h : (k, v) ∈ m) :
    ∃ v', (k, v') ∈ putAll typ m es
      ∧ (v' = v ∨ ∃ e ∈ es, e.Mac = k ∧ v' = ⟨typ, e.Mac, e.Psk, ""⟩) := by
  induction es generalizing m v with
  | nil => exact ⟨v, h, Or.inl rfl⟩
  | cons e es ih =>
    rw [putAll_cons]
    by_cases hk : e.Mac = k
    · have h1 : (k, (⟨typ, e.Mac, e.Psk, ""⟩ : PSKEntry)) ∈ m.put e.Mac ⟨typ, e.Mac, e.Psk, ""⟩ := by
        rw [PSKMap.mem_put]
        exact Or.inl (by rw [hk])
      obtain ⟨v', hv', hor⟩ := ih _ _ h1
      refine ⟨v', hv', Or.inr ?_⟩
      rcases hor with rfl | ⟨e', he', h2, h3⟩
      · exact ⟨e, List.mem_cons_self _ _, hk, rfl⟩
      · exact ⟨e', List.mem_cons_of_mem _ he', h2, h3⟩
    · have h1 : (k, v) ∈ m.put e.Mac ⟨typ, e.Mac, e.Psk, ""⟩ := by
        rw [PSKMap.mem_put]
        exact Or.inr ⟨h, fun h' => hk h'.symm⟩
      obtain ⟨v', hv', hor⟩ := ih _ _ h1
      refine ⟨v', hv', ?_⟩
      rcases hor with rfl | ⟨e', he', h2, h3⟩
      · exact Or.inl rfl
      · exact Or.inr ⟨e', List.mem_cons_of_mem _ he', h2, h3⟩

/-- The MAC of every line is a key of the map, with the value of a line of that MAC. -/
theorem putAll_mem_of (typ : String) (es : List PSKEntry) (m : PSKMap) (e : PSKEntry)
    (h : e ∈ es) :
    ∃ e' ∈ es, e'.Mac = e.Mac ∧ (e.Mac, (⟨typ, e'.Mac, e'.Psk, ""⟩ : PSKEntry)) ∈ putAll typ m es := by
  induction es generalizing m with
  | nil => simp at h
  | cons x es ih =>
    rw [putAll_cons]
    rcases List.mem_cons.1 h with rfl | h
    · have h1 : (e.Mac, (⟨typ, e.Mac, e.Psk, ""⟩ : PSKEntry)) ∈ m.put e.Mac ⟨typ, e.Mac, e.Psk, ""⟩ := by
        rw [PSKMap.mem_put]
        exact Or.inl rfl
      obtain ⟨v', hv', hor⟩ := putAll_key_kept typ es _ _ _ h1
      rcases hor with rfl | ⟨e', he', h2, h3⟩
      · exact ⟨e, List.mem_cons_self _ _, rfl, hv'⟩
      · subst h3
        exact ⟨e', List.mem_cons_of_mem _ he', h2, hv'⟩
    · obtain ⟨e', he', h2, h3⟩ := ih _ h
      exact ⟨e', List.mem_cons_of_mem _ he', h2, h3⟩

theorem writtenEntry_of_mem (typ : String) (visit : PSKMap) (e : PSKEntry)
    (h : e ∈ pendingOfType typ visit ++ keyedOfType typ visit) :
    ∃ kv ∈ visit, e = writtenEntry kv ∧ e.Typ = typ := by
  rcases List.mem_append.1 h with h | h
  · obtain ⟨p, hg, ht, rfl⟩ := (mem_pendingOfType _ _ _).1 h
    refine ⟨("pending", p), PSKMap.mem_of_get _ _ _ hg, ?_, ht⟩
    simp [writtenEntry, ht]
  · obtain ⟨k, hm, hk, ht⟩ := (mem_keyedOfType _ _ _).1 h
    exact ⟨(k, e), hm, by simp [writtenEntry, hk], ht⟩

/-- C7, refuted as stated. (1) For the store with a pending SAE credential and one keyed WPA2
entry, in both visiting orders, re-parsing the two written files yields two triples, the
keyed one and `(sae, ff:ff:ff:ff:ff:ff, psk)` for the pending entry, while the keyed entries
of the store give one triple: the pending entry is not excluded. (2) A keyed WPA2 entry with
the PSK `correct horse` is re-parsed with the PSK `correct`. (3) With a keyed SAE entry whose
PSK is `horse|battery` the re-parsing ends in a panic. (4) A keyed SAE entry whose PSK starts
with a space is re-parsed without the space. (5) With a keyed WPA2 entry whose PSK is empty
the re-parsing ends in a panic. (6) A keyed SAE entry stored under the key
`ff:ff:ff:ff:ff:ff` takes the place of the pending SAE entry. (7) A keyed SAE entry whose MAC
holds `=` is re-parsed with the MAC cut there. (8) A keyed WPA2 entry whose MAC holds a space
is re-parsed with the MAC cut there and the rest of it as PSK. -/
theorem C7_counterexample_files_lose_entries :
    loadPSKFiles (doReloadPSKFiles
        [("pending", ⟨"sae", "", "Zm9vYmFyYmF6cXV4MTIzNA", ""⟩),
         ("aa:bb:cc:dd:ee:01", ⟨"wpa2", "aa:bb:cc:dd:ee:01", "batterystaple", ""⟩)])
      = some [("aa:bb:cc:dd:ee:01", ⟨"wpa2", "aa:bb:cc:dd:ee:01", "batterystaple", ""⟩),
              ("ff:ff:ff:ff:ff:ff", ⟨"sae", "ff:ff:ff:ff:ff:ff", "Zm9vYmFyYmF6cXV4MTIzNA", ""⟩)]
    ∧ loadPSKFiles (doReloadPSKFiles
        [("aa:bb:cc:dd:ee:01", ⟨"wpa2", "aa:bb:cc:dd:ee:01", "batterystaple", ""⟩),
         ("pending", ⟨"sae", "", "Zm9vYmFyYmF6cXV4MTIzNA", ""⟩)])
      = some [("aa:bb:cc:dd:ee:01", ⟨"wpa2", "aa:bb:cc:dd:ee:01", "batterystaple", ""⟩),
              ("ff:ff:ff:ff:ff:ff", ⟨"sae", "ff:ff:ff:ff:ff:ff", "Zm9vYmFyYmF6cXV4MTIzNA", ""⟩)]
    ∧ (PSKMap.del
        [("pending", ⟨"sae", "", "Zm9vYmFyYmF6cXV4MTIzNA", ""⟩),
         ("aa:bb:cc:dd:ee:01", ⟨"wpa2", "aa:bb:cc:dd:ee:01", "batterystaple", ""⟩)]
        "pending").map (fun kv => kv.2.triple)
      = [("wpa2", "aa:bb:cc:dd:ee:01", "batterystaple")]
    ∧ loadPSKFiles (doReloadPSKFiles
        [("aa:bb:cc:dd:ee:01", ⟨"wpa2", "aa:bb:cc:dd:ee:01", "correct horse", ""⟩)])
      = some [("aa:bb:cc:dd:ee:01", ⟨"wpa2", "aa:bb:cc:dd:ee:01", "correct", ""⟩)]
    ∧ loadPSKFiles (doReloadPSKFiles
        [("aa:bb:cc:dd:ee:01", ⟨"sae", "aa:bb:cc:dd:ee:01", "horse|battery", ""⟩)])
      = none
    ∧ loadPSKFiles (doReloadPSKFiles
        [("aa:bb:cc:dd:ee:01", ⟨"sae", "aa:bb:cc:dd:ee:01", " batterystaple", ""⟩)])
      = some [("aa:bb:cc:dd:ee:01", ⟨"sae", "aa:bb:cc:dd:ee:01", "batterystaple", ""⟩)]
    ∧ loadPSKFiles (doReloadPSKFiles
        [("aa:bb:cc:dd:ee:01", ⟨"wpa2", "aa:bb:cc:dd:ee:01", "", ""⟩)])
      = none
    ∧ loadPSKFiles (doReloadPSKFiles
        [("pending", ⟨"sae", "", "Zm9vYmFyYmF6cXV4MTIzNA", ""⟩),
         ("ff:ff:ff:ff:ff:ff", ⟨"sae", "ff:ff:ff:ff:ff:ff", "batterystaple", ""⟩)])
      = some [("ff:ff:ff:ff:ff:ff", ⟨"sae", "ff:ff:ff:ff:ff:ff", "batterystaple", ""⟩)]
    ∧ loadPSKFiles (doReloadPSKFiles
        [("aa:bb=cc", ⟨"sae", "aa:bb=cc", "batterystaple", ""⟩)])
      = some [("aa:bb", ⟨"sae", "aa:bb", "batterystaple", ""⟩)]
    ∧ loadPSKFiles (doReloadPSKFiles
        [("aa bb", ⟨"wpa2", "aa bb", "batterystaple", ""⟩)])
      = some [("aa", ⟨"wpa2", "aa", "bb", ""⟩)] := by
  refine ⟨by decide, by decide, by decide, by decide, by decide, by decide, by decide,
    by decide, by decide, by decide⟩

/-- C7, amended. For every PSK store whose entries have type `sae` or `wpa2`, in which the
line format of its file carries every entry as written (the pending entry under the
placeholder MAC of its type) and in which entries written under the same MAC have the same
type and PSK: for every visiting order, re-parsing the two written files succeeds and yields
exactly the `(type, mac, psk)` triples of the MAC-keyed entries together with, when a pending
entry exists, the triple `(type, placeholder MAC, psk)` of the pending entry. -/
theorem C7_files_round_trip (file visit : PSKMap)
    (hn : (file.map Prod.fst).Nodup) (hv : visit.Perm file)
    (htyp : ∀ kv ∈ file, kv.2.Typ = "sae" ∨ kv.2.Typ = "wpa2")
    (hline : ∀ kv ∈ file, lineCarries (writtenEntry kv) = true)
    (hagree : ∀ kv ∈ file, ∀ kv' ∈ file, (writtenEntry kv).Mac = (writtenEntry kv').Mac →
      (writtenEntry kv).Typ = (writtenEntry kv').Typ
        ∧ (writtenEntry kv).Psk = (writtenEntry kv').Psk) :
    ∃ m, loadPSKFiles (doReloadPSKFiles visit) = some m ∧
      ∀ t, t ∈ m.map (fun kv => kv.2.triple) ↔
        ((∃ kv ∈ file, kv.1 ≠ "pending" ∧ t = kv.2.triple)
          ∨ ∃ p, file.get "pending" = some p
              ∧ t = (p.Typ, placeholderMac p.Typ, p.Psk)) := by
  have hnv : (visit.map Prod.fst).Nodup := (hv.map Prod.fst).nodup_iff.2 hn
  have hg : ∀ k, visit.get k = file.get k := fun k => PSKMap.get_perm _ _ k hn hv
  have hsae : ∀ e ∈ pendingOfType "sae" visit ++ keyedOfType "sae" visit,
      saeCarries e = true := by
    intro e he
    obtain ⟨kv, hkv, rfl, ht⟩ := writtenEntry_of_mem _ _ _ he
    have := hline kv (hv.mem_iff.1 hkv)
    rwa [lineCarries, if_pos ht] at this
  have hwpa : ∀ e ∈ pendingOfType "wpa2" visit ++ keyedOfType "wpa2" visit,
      wpa2Carries e = true := by
    intro e he
    obtain ⟨kv, hkv, rfl, ht⟩ := writtenEntry_of_mem _ _ _ he
    have := hline kv (hv.mem_iff.1 hkv)
    have hns : ¬ (writtenEntry kv).Typ = "sae" := by
      rw [ht]
      decide
    rwa [lineCarries, if_neg hns] at this
  have hA : ∀ typ typ', ∀ e ∈ pendingOfType typ visit ++ keyedOfType typ visit,
      ∀ e' ∈ pendingOfType typ' visit ++ keyedOfType typ' visit, e.Mac = e'.Mac →
      typ = typ' ∧ e.Psk = e'.Psk := by
    intro typ typ' e he e' he' hmac
    obtain ⟨kv, hkv, rfl, ht⟩ := writtenEntry_of_mem _ _ _ he
    obtain ⟨kv', hkv', rfl, ht'⟩ := writtenEntry_of_mem _ _ _ he'
    have := hagree kv (hv.mem_iff.1 hkv) kv' (hv.mem_iff.1 hkv') hmac
    exact ⟨by rw [← ht, ← ht']; exact this.1, this.2⟩
  refine ⟨putAll "wpa2"
      (putAll "sae" [] (pendingOfType "sae" visit ++ keyedOfType "sae" visit))
      (pendingOfType "wpa2" visit ++ keyedOfType "wpa2" visit), ?_, ?_⟩
  · rw [doReloadPSKFiles_eq visit hnv]
    simp only [loadPSKFiles]
    rw [loadSaeLines_written _ hsae []]
    simp only
    exact loadWpa2Lines_written _ hwpa _
  · intro t
    have hmem : t ∈ (putAll "wpa2"
          (putAll "sae" [] (pendingOfType "sae" visit ++ keyedOfType "sae" visit))
          (pendingOfType "wpa2" visit ++ keyedOfType "wpa2" visit)).map (fun kv => kv.2.triple)
        ↔ ((∃ e ∈ pendingOfType "sae" visit ++ keyedOfType "sae" visit,
              t = ("sae", e.Mac, e.Psk))
            ∨ ∃ e ∈ pendingOfType "wpa2" visit ++ keyedOfType "wpa2" visit,
              t = ("wpa2", e.Mac, e.Psk)) := by
      constructor
      · intro ht
        obtain ⟨kv, hkv, rfl⟩ := List.mem_map.1 ht
        rcases putAll_mem _ _ _ _ hkv with h1 | ⟨e, he, rfl⟩
        · rcases putAll_mem _ _ _ _ h1 with h2 | ⟨e, he, rfl⟩
          · simp at h2
          · exact Or.inl ⟨e, he, rfl⟩
        · exact Or.inr ⟨e, he, rfl⟩
      · rintro (⟨e, he, rfl⟩ | ⟨e, he, rfl⟩)
        · obtain ⟨e', he', hm', hin⟩ := putAll_mem_of "sae" _ [] e he
          obtain ⟨v', hv', hor⟩ := putAll_key_kept "wpa2"
            (pendingOfType "wpa2" visit ++ keyedOfType "wpa2" visit) _ _ _ hin
          refine List.mem_map.2 ⟨(e.Mac, v'), hv', ?_⟩
          rcases hor with rfl | ⟨e'', he'', h2, _⟩
          · have := (hA "sae" "sae" e he e' he' hm'.symm).2
            simp [PSKEntry.triple, hm', this]
          · exact absurd (hA "sae" "wpa2" e he e'' he'' h2.symm).1 (by decide)
        · obtain ⟨e', he', hm', hin⟩ := putAll_mem_of "wpa2" _
            (putAll "sae" [] (pendingOfType "sae" visit ++ keyedOfType "sae" visit)) e he
          refine List.mem_map.2 ⟨_, hin, ?_⟩
          have := (hA "wpa2" "wpa2" e he e' he' hm'.symm).2
          simp [PSKEntry.triple, hm', this]
    rw [hmem, emitted_triple, emitted_triple]
    simp only [hg]
    constructor
    · rintro ((⟨kv, hm, hk, _, rfl⟩ | ⟨p, hp, _, rfl⟩) | (⟨kv, hm, hk, _, rfl⟩ | ⟨p, hp, _, rfl⟩))
      · exact Or.inl ⟨kv, hv.mem_iff.1 hm, hk, rfl⟩
      · exact Or.inr ⟨p, hp, rfl⟩
      · exact Or.inl ⟨kv, hv.mem_iff.1 hm, hk, rfl⟩
      · exact Or.inr ⟨p, hp, rfl⟩
    · rintro (⟨kv, hm, hk, rfl⟩ | ⟨p, hp, rfl⟩)
      · rcases htyp kv hm with ht | ht
        · exact Or.inl (Or.inl ⟨kv, hv.mem_iff.2 hm, hk, ht, rfl⟩)
        · exact Or.inr (Or.inl ⟨kv, hv.mem_iff.2 hm, hk, ht, rfl⟩)
      · rcases htyp _ (PSKMap.mem_of_get _ _ _ hp) with ht | ht
        · exact Or.inl (Or.inr ⟨p, hp, ht, rfl⟩)
        · exact Or.inr (Or.inr ⟨p, hp, ht, rfl⟩)

/-- C7, amended, on a store with a pending SAE credential, a keyed WPA2 entry whose PSK holds
`|` and `=`, and a keyed SAE entry whose PSK holds `=` and a space, visited with the pending
entry second. -/
theorem C7_files_round_trip_witness :
    ∃ m, loadPSKFiles (doReloadPSKFiles
          [("aa:bb:cc:dd:ee:01", ⟨"wpa2", "aa:bb:cc:dd:ee:01", "pass=wo|rd1", "desk"⟩),
           ("pending", ⟨"sae", "", "Zm9vYmFyYmF6cXV4MTIzNA", ""⟩),
           ("aa:bb:cc:dd:ee:02", ⟨"sae", "aa:bb:cc:dd:ee:02", "pass=word 1", ""⟩)]) = some m ∧
      ∀ t, t ∈ m.map (fun kv => kv.2.triple) ↔
        ((∃ kv ∈ ([("pending", ⟨"sae", "", "Zm9vYmFyYmF6cXV4MTIzNA", ""⟩),
                   ("aa:bb:cc:dd:ee:01",
                     ⟨"wpa2", "aa:bb:cc:dd:ee:01", "pass=wo|rd1", "desk"⟩),
                   ("aa:bb:cc:dd:ee:02",
                     ⟨"sae", "aa:bb:cc:dd:ee:02", "pass=word 1", ""⟩)] : PSKMap),
            kv.1 ≠ "pending" ∧ t = kv.2.triple)
          ∨ ∃ p, PSKMap.get
                [("pending", ⟨"sae", "", "Zm9vYmFyYmF6cXV4MTIzNA", ""⟩),
                 ("aa:bb:cc:dd:ee:01", ⟨"wpa2", "aa:bb:cc:dd:ee:01", "pass=wo|rd1", "desk"⟩),
                 ("aa:bb:cc:dd:ee:02", ⟨"sae", "aa:bb:cc:dd:ee:02", "pass=word 1", ""⟩)]
                "pending" = some p
              ∧ t = (p.Typ, placeholderMac p.Typ, p.Psk)) :=
  C7_files_round_trip
    [("pending", ⟨"sae", "", "Zm9vYmFyYmF6cXV4MTIzNA", ""⟩),
     ("aa:bb:cc:dd:ee:01", ⟨"wpa2", "aa:bb:cc:dd:ee:01", "pass=wo|rd1", "desk"⟩),
     ("aa:bb:cc:dd:ee:02", ⟨"sae", "aa:bb:cc:dd:ee:02", "pass=word 1", ""⟩)]
    [("aa:bb:cc:dd:ee:01", ⟨"wpa2", "aa:bb:cc:dd:ee:01", "pass=wo|rd1", "desk"⟩),
     ("pending", ⟨"sae", "", "Zm9vYmFyYmF6cXV4MTIzNA", ""⟩),
     ("aa:bb:cc:dd:ee:02", ⟨"sae", "aa:bb:cc:dd:ee:02", "pass=word 1", ""⟩)]
    (by decide) (List.Perm.swap _ _ _) (by decide) (by decide) (by decide)

/-! ## Verdict of a map -/

theorem containsChars_append_self (sub z : List Char) : containsChars sub (z ++ sub) = true := by
  induction z with
  | nil =>
    cases sub with
    | nil => rfl
    | cons c cs => simp [containsChars]
  | cons c cs ih => simp [containsChars, ih]

theorem prefix_append_cases (sub l t : List Char) (h : sub <+: l ++ t) :
    sub <+: l ∨ ∃ u, u ≠ [] ∧ u <:+ sub ∧ u <+: t := by
  obtain ⟨r, hr⟩ := h
  rcases List.append_eq_append_iff.1 hr with ⟨a, ha, _⟩ | ⟨c, hc, ht⟩
  · exact Or.inl ⟨a, ha.symm⟩
  · by_cases hcn : c = []
    · left
      rw [hc, hcn]
      simp
    · exact Or.inr ⟨c, hcn, ⟨l, hc.symm⟩, ⟨r, ht.symm⟩⟩

theorem containsChars_append_of_no_overlap (sub t : List Char)
    (ht : containsChars sub t = false)
    (hov : ∀ u ∈ sub.tails, u.isPrefixOf t = true → u = [])
    (z : List Char) (hz : containsChars sub z = false) :
    containsChars sub (z ++ t) = false := by
  induction z with
  | nil => simpa using ht
  | cons c cs ih =>
    simp only [containsChars, Bool.or_eq_false_iff] at hz
    simp only [List.cons_append, containsChars, Bool.or_eq_false_iff]
    refine ⟨?_, ih hz.2⟩
    cases hp : sub.isPrefixOf (c :: (cs ++ t)) with
    | false => rfl
    | true =>
      exfalso
      have hp2 : sub <+: (c :: cs) ++ t := List.isPrefixOf_iff_prefix.1 hp
      rcases prefix_append_cases _ _ _ hp2 with h | ⟨u, hu, hsuf, hpre⟩
      · have := List.isPrefixOf_iff_prefix.2 h
        rw [hz.1] at this
        cases this
      · exact hu (hov u ((List.mem_tails _ _).2 hsuf) (List.isPrefixOf_iff_prefix.2 hpre))

/-- C13 (code defect). For the zone `x_dst_access`, Repopulate adds the element of the source
half `x_dst_access_mac_src_access` with the verdict `accept`; that map name does not end with
`_dst_access`, and `VerdictFor` gives `continue` for it, because it contains `_dst_access`: the
flush then deletes the element with a verdict other than the one it was added with. -/
theorem C13_source_half_verdict_continue :
    getMapVerdict ("x_dst_access" ++ "_mac_src_access") = "continue"
    ∧ "_dst_access".data.isSuffixOf ("x_dst_access" ++ "_mac_src_access").data = false
    ∧ zoneElements "x_dst_access" "10.0.0.5" "aa:bb:cc:dd:ee:02" "br-lan"
      = [["nft", "add", "element", "inet", "filter", "x_dst_access_dst_access", "\x7b", "10.0.0.5",
            ".", "br-lan", ":", "continue", "\x7d"],
         ["nft", "add", "element", "inet", "filter", "x_dst_access_mac_src_access", "\x7b",
            "10.0.0.5", ".", "br-lan", ".", "aa:bb:cc:dd:ee:02", ":", "accept", "\x7d"]]
    ∧ deleteArgv "x_dst_access_mac_src_access" (getMapVerdict "x_dst_access_mac_src_access")
        ⟨"10.0.0.5", "br-lan", "aa:bb:cc:dd:ee:02"⟩
      = ["nft", "delete", "element", "inet", "filter", "x_dst_access_mac_src_access", "\x7b",
          "10.0.0.5", ".", "br-lan", ".", "aa:bb:cc:dd:ee:02", ":", "continue", "\x7d"] := by
  decide

/-- The verdict of a map name: `continue` when the name contains `_dst_access`, `accept`
otherwise; so `continue` for `<zone>_dst_access`, `accept` for `<zone>_mac_src_access` when
the zone name does not contain `_dst_access`, and `accept` for the three builtin maps. -/
theorem getMapVerdict_of_zone_maps :
    (∀ name, Contains name "_dst_access" = true → getMapVerdict name = "continue")
    ∧ (∀ name, Contains name "_dst_access" = false → getMapVerdict name = "accept")
    ∧ (∀ z : String, getMapVerdict (z ++ "_dst_access") = "continue")
    ∧ (∀ z : String, Contains z "_dst_access" = false →
        getMapVerdict (z ++ "_mac_src_access") = "accept")
    ∧ getMapVerdict "internet_access" = "accept" ∧ getMapVerdict "dns_access" = "accept"
    ∧ getMapVerdict "lan_access" = "accept" := by
  refine ⟨?_, ?_, ?_, ?_, by decide, by decide, by decide⟩
  · intro name h
    simp [getMapVerdict, h]
  · intro name h
    simp [getMapVerdict, h]
  · intro z
    have : Contains (z ++ "_dst_access") "_dst_access" = true :=
      containsChars_append_self _ _
    simp [getMapVerdict, this]
  · intro z hz
    have : Contains (z ++ "_mac_src_access") "_dst_access" = false :=
      containsChars_append_of_no_overlap "_dst_access".data "_mac_src_access".data
        (by decide) (by decide) z.data hz
    simp [getMapVerdict, this]

/-! ## Elements of a verdict map -/

theorem fieldOf_append_last (fields : List (String × JSON)) (key : String) (v : JSON) :
    fieldOf (fields ++ [(key, v)]) key = v := by
  simp [fieldOf]

theorem verdictElem_three (map_name l0 l1 l2 : String) (v : JSON) :
    verdictElem map_name (concatElem [JSON.str l0, JSON.str l1, JSON.str l2] v)
      = some (some ⟨l0, l1, l2⟩) := by
  simp [verdictElem, concatElem, JSON.asArr, JSON.asObj, JSON.asStr, fieldOf]

theorem verdictElem_two (map_name l0 l1 : String) (v : JSON) :
    verdictElem map_name (concatElem [JSON.str l0, JSON.str l1] v)
      = some (some (if map_name = "dhcp_access" then ⟨"", l0, l1⟩ else ⟨l0, l1, ""⟩)) := by
  by_cases h : map_name = "dhcp_access" <;>
    simp [verdictElem, concatElem, JSON.asArr, JSON.asObj, JSON.asStr, fieldOf, h]

theorem verdictElem_key (map_name : String) (key : List String) (v : JSON)
    (h : key.length = 2 ∨ key.length = 3) :
    verdictElem map_name (concatElem (key.map JSON.str) v)
      = some (some (entryOfKey map_name key)) := by
  rcases h with h | h
  · obtain ⟨l0, l1, rfl⟩ := List.length_eq_two.1 h
    rw [List.map_cons, List.map_cons, List.map_nil, verdictElem_two]
    by_cases hm : map_name = "dhcp_access" <;> simp [entryOfKey, hm]
  · obtain ⟨l0, l1, l2, rfl⟩ := List.length_eq_three.1 h
    rw [List.map_cons, List.map_cons, List.map_cons, List.map_nil, verdictElem_three]
    rfl

theorem verdictElems_keys (map_name : String) (keys : List (List String × JSON))
    (h : ∀ k ∈ keys, k.1.length = 2 ∨ k.1.length = 3) (existing : List verdictEntry) :
    verdictElems map_name (keys.map (fun k => concatElem (k.1.map JSON.str) k.2)) existing
      = some (existing ++ keys.map (fun k => entryOfKey map_name k.1)) := by
  induction keys generalizing existing with
  | nil => simp [verdictElems]
  | cons k ks ih =>
    rw [List.map_cons, verdictElems, verdictElem_key _ _ _ (h k (List.mem_cons_self _ _))]
    simp only
    rw [ih (fun k hk => h k (List.mem_cons_of_mem _ hk))]
    simp

/-- The parsed content of a map whose elements all have keys of two or three string
literals: one entry per element, in order. -/
theorem getNFTVerdictMap_keys (map_name : String) (metainfo : JSON)
    (fields : List (String × JSON)) (keys : List (List String × JSON))
    (h : ∀ k ∈ keys, k.1.length = 2 ∨ k.1.length = 3) :
    getNFTVerdictMap map_name
        (some (nftOutput metainfo fields (keys.map (fun k => concatElem (k.1.map JSON.str) k.2))))
      = some (keys.map (fun k => entryOfKey map_name k.1)) := by
  have h1 : fieldOf [("nftables", JSON.arr [metainfo,
      JSON.obj [("map", JSON.obj (fields ++
        [("elem", JSON.arr (keys.map (fun k => concatElem (k.1.map JSON.str) k.2)))]))]])]
      "nftables" = JSON.arr [metainfo,
      JSON.obj [("map", JSON.obj (fields ++
        [("elem", JSON.arr (keys.map (fun k => concatElem (k.1.map JSON.str) k.2)))]))]] := by
    simp [fieldOf]
  have h2 : ∀ x, fieldOf [("map", x)] "map" = x := by
    intro x
    simp [fieldOf]
  simp only [getNFTVerdictMap, nftOutput, JSON.asObj, Option.getD_some, h1, JSON.asArr, h2,
    fieldOf_append_last]
  rw [verdictElems_keys _ _ h]
  simp

/-- C14, refuted as stated: in the map `lan_access`, whose name is not `dhcp_access` and does
not end in `_dst_access`, a key of two string literals yields the entry `(l0, l1, "")`; a key
of four string literals yields an entry from its first three; and a key whose first literal
is a number yields an entry with an empty first field. -/
theorem C14_counterexample_other_shapes_yield_entries :
    verdictElem "lan_access"
        (concatElem [JSON.str "10.0.0.5", JSON.str "br-lan"] (JSON.obj [("accept", JSON.null)]))
      = some (some ⟨"10.0.0.5", "br-lan", ""⟩)
    ∧ "lan_access" ≠ "dhcp_access"
    ∧ "_dst_access".data.isSuffixOf "lan_access".data = false
    ∧ verdictElem "lan_access"
        (concatElem [JSON.str "10.0.0.5", JSON.str "br-lan", JSON.str "aa:bb:cc:dd:ee:02",
          JSON.str "extra"] (JSON.obj [("accept", JSON.null)]))
      = some (some ⟨"10.0.0.5", "br-lan", "aa:bb:cc:dd:ee:02"⟩)
    ∧ verdictElem "lan_access"
        (concatElem [JSON.num "5", JSON.str "br-lan", JSON.str "aa:bb:cc:dd:ee:02"]
          (JSON.obj [("accept", JSON.null)]))
      = some (some ⟨"", "br-lan", "aa:bb:cc:dd:ee:02"⟩) := by
  decide

/-- C14, amended. For every map name and every element of the tool's output whose key is a
concatenation of string literals: 3 literals give the entry `(l0, l1, l2)`; 2 literals give
`("", l0, l1)` when the map name is `dhcp_access` and `(l0, l1, "")` for every other map name;
an element whose key has no `concat` list gives no entry; and a map whose elements all have
keys of 2 or 3 string literals is read as the list of their entries, in order. -/
theorem C14_list_elements_by_key_shape :
    (∀ (map_name l0 l1 l2 : String) (v : JSON),
        verdictElem map_name (concatElem [JSON.str l0, JSON.str l1, JSON.str l2] v)
          = some (some ⟨l0, l1, l2⟩))
    ∧ (∀ (l0 l1 : String) (v : JSON),
        verdictElem "dhcp_access" (concatElem [JSON.str l0, JSON.str l1] v)
          = some (some ⟨"", l0, l1⟩))
    ∧ (∀ (map_name l0 l1 : String) (v : JSON), map_name ≠ "dhcp_access" →
        verdictElem map_name (concatElem [JSON.str l0, JSON.str l1] v)
          = some (some ⟨l0, l1, ""⟩))
    ∧ (∀ (map_name : String) (key v : JSON),
        (fieldOf (key.asObj.getD []) "concat").asArr = none →
        verdictElem map_name (JSON.arr [key, v]) = some none)
    ∧ (∀ (map_name : String) (metainfo : JSON) (fields : List (String × JSON))
        (keys : List (List String × JSON)),
        (∀ k ∈ keys, k.1.length = 2 ∨ k.1.length = 3) →
        getNFTVerdictMap map_name
            (some (nftOutput metainfo fields
              (keys.map (fun k => concatElem (k.1.map JSON.str) k.2))))
          = some (keys.map (fun k => entryOfKey map_name k.1))) := by
  refine ⟨verdictElem_three, ?_, ?_, ?_, getNFTVerdictMap_keys⟩
  · intro l0 l1 v
    rw [verdictElem_two]
    simp
  · intro map_name l0 l1 v h
    rw [verdictElem_two]
    simp [h]
  · intro map_name key v h
    show (match (fieldOf (key.asObj.getD []) "concat").asArr with
      | none => some none
      | some g => _) = some none
    rw [h]

/-- C14, amended, on the output for `guests_dst_access` with one element of two literals
and for `lan_access` with one element of three. -/
theorem C14_list_elements_by_key_shape_witness :
    getNFTVerdictMap "guests_dst_access"
        (some (nftOutput (JSON.obj [("metainfo", JSON.null)])
          [("name", JSON.str "guests_dst_access")]
          [concatElem [JSON.str "10.0.0.5", JSON.str "br-lan"]
            (JSON.obj [("continue", JSON.null)])]))
      = some [⟨"10.0.0.5", "br-lan", ""⟩]
    ∧ verdictElem "guests_dst_access"
        (concatElem [JSON.str "10.0.0.5", JSON.str "br-lan"] (JSON.obj [("continue", JSON.null)]))
      = some (some ⟨"10.0.0.5", "br-lan", ""⟩) :=
  ⟨C14_list_elements_by_key_shape.2.2.2.2 "guests_dst_access" (JSON.obj [("metainfo", JSON.null)])
      [("name", JSON.str "guests_dst_access")]
      [(["10.0.0.5", "br-lan"], JSON.obj [("continue", JSON.null)])] (by decide),
   C14_list_elements_by_key_shape.2.2.1 "guests_dst_access" "10.0.0.5" "br-lan"
      (JSON.obj [("continue", JSON.null)]) (by decide)⟩

/-! ## Local DNS mappings -/

theorem mappingToken_not_mem (s : String) (h : mappingToken s = true) :
    ' ' ∉ s.data ∧ '\n' ∉ s.data := by
  simp only [mappingToken, List.all_eq_true, Bool.and_eq_true, bne_iff_ne, ne_eq] at h
  exact ⟨fun m => (h _ m).1 rfl, fun m => (h _ m).2 rfl⟩

theorem Split_mapping_line (l : String × String) (h1 : mappingToken l.1 = true)
    (h2 : mappingToken l.2 = true) :
    Split ⟨l.1.data ++ ' ' :: l.2.data⟩ ' ' = [l.1, l.2] := by
  show (splitChars ' ' (l.1.data ++ ' ' :: l.2.data)).map String.mk = _
  rw [splitChars_append_sep _ _ _ (mappingToken_not_mem _ h1).1,
    splitChars_no_sep _ _ (mappingToken_not_mem _ h2).1]
  rfl

theorem mappingsLoop_eq (IP entryName : String) (L : List String) (new_data : String) :
    mappingsLoop IP entryName L new_data
      = new_data ++ String.join
          (((L.filterMap mappingOfLine).filter
            (fun l => decide (l.1 ≠ IP ∧ l.2 ≠ entryName))).map mappingLine) := by
  induction L generalizing new_data with
  | nil => simp [mappingsLoop, String.join]
  | cons line rest ih =>
    cases hs : Split line ' ' with
    | nil =>
      have hm : mappingOfLine line = none := by
        unfold mappingOfLine
        rw [hs]
      rw [mappingsLoop, List.filterMap_cons, hm]
      simp only [hs]
      exact ih new_data
    | cons ip tl =>
      cases tl with
      | nil =>
        have hm : mappingOfLine line = none := by
          unfold mappingOfLine
          rw [hs]
        rw [mappingsLoop, List.filterMap_cons, hm]
        simp only [hs]
        exact ih new_data
      | cons hostname tl2 =>
        have hm : mappingOfLine line = some (ip, hostname) := by
          unfold mappingOfLine
          rw [hs]
        rw [mappingsLoop, List.filterMap_cons, hm]
        simp only [hs]
        by_cases hk : ip = IP ∨ entryName = hostname
        · have hf : ¬ (ip ≠ IP ∧ hostname ≠ entryName) := by
            rintro ⟨a, b⟩
            rcases hk with hk | hk
            · exact a hk
            · exact b hk.symm
          rw [if_pos hk, ih, List.filter_cons]
          simp [hf]
        · have hf : ip ≠ IP ∧ hostname ≠ entryName :=
            ⟨fun a => hk (Or.inl a), fun b => hk (Or.inr b.symm)⟩
          rw [if_neg hk, ih, List.filter_cons]
          simp [hf, join_cons, mappingLine, String.append_assoc]

theorem updateLocalMappings_eq (data IP Name : String) :
    updateLocalMappings (some data) IP Name
      = some (String.join
          (((readMappings data).filter (fun l => decide (l.1 ≠ IP ∧ l.2 ≠ Name ++ ".lan"))
            ++ [(IP, Name ++ ".lan")]).map mappingLine)) := by
  simp only [updateLocalMappings, readMappings]
  rw [mappingsLoop_eq]
  simp [join_append, join_cons, mappingLine, String.join]

theorem mappingOfLine_tokens (ip host : String) (h1 : mappingToken ip = true)
    (h2 : mappingToken host = true) :
    mappingOfLine (ip ++ " " ++ host) = some (ip, host) := by
  have := Split_mapping_line (ip, host) h1 h2
  have e : (ip ++ " " ++ host) = ⟨ip.data ++ ' ' :: host.data⟩ := by
    apply String.ext
    simp
  rw [mappingOfLine, e, this]

theorem readMappings_join (lines : List (String × String))
    (htok : ∀ l ∈ lines, mappingToken l.1 = true ∧ mappingToken l.2 = true) :
    readMappings (String.join (lines.map mappingLine)) = lines := by
  unfold readMappings
  induction lines with
  | nil => decide
  | cons l ls ih =>
    obtain ⟨h1, h2⟩ := htok l (List.mem_cons_self _ _)
    have hn : '\n' ∉ l.1.data ++ ' ' :: l.2.data := by
      simp only [List.mem_append, List.mem_cons, not_or]
      exact ⟨(mappingToken_not_mem _ h1).2, by decide, (mappingToken_not_mem _ h2).2⟩
    have hd : String.join ((l :: ls).map mappingLine)
        = ⟨(l.1.data ++ ' ' :: l.2.data) ++ '\n' :: (String.join (ls.map mappingLine)).data⟩ := by
      apply String.ext
      simp [join_cons, mappingLine]
    have e : (⟨l.1.data ++ ' ' :: l.2.data⟩ : String) = l.1 ++ " " ++ l.2 := by
      apply String.ext
      simp
    rw [hd, Split_line _ _ hn, List.filterMap_cons, e, mappingOfLine_tokens _ _ h1 h2]
    simp only
    rw [ih (fun l hl => htok l (List.mem_cons_of_mem _ hl))]

/-- In a file whose non-empty lines are all of the form `<ip> <hostname>`, the pairs read are
those lines, in order, and their fields have no space and no line end. -/
theorem filterMap_mappingOfLine (L : List String)
    (hlines : ∀ line ∈ L, line = "" ∨ ∃ ip host, mappingToken ip = true
      ∧ mappingToken host = true ∧ line = ip ++ " " ++ host) :
    (L.filterMap mappingOfLine).map (fun l => l.1 ++ " " ++ l.2)
        = L.filter (fun line => decide (line ≠ ""))
      ∧ ∀ l ∈ L.filterMap mappingOfLine, mappingToken l.1 = true ∧ mappingToken l.2 = true := by
  induction L with
  | nil => simp
  | cons line rest ih =>
    obtain ⟨ih1, ih2⟩ := ih (fun l hl => hlines l (List.mem_cons_of_mem _ hl))
    rcases hlines line (List.mem_cons_self _ _) with h | ⟨ip, host, h1, h2, h⟩
    · subst h
      have : mappingOfLine "" = none := by decide
      rw [List.filterMap_cons, this]
      simp only [List.filter_cons]
      exact ⟨by simpa using ih1, ih2⟩
    · have hne : line ≠ "" := by
        rw [h]
        intro e
        have := congrArg String.data e
        simp at this
      have hm : mappingOfLine line = some (ip, host) := by
        rw [h]
        exact mappingOfLine_tokens _ _ h1 h2
      rw [List.filterMap_cons, hm]
      refine ⟨?_, ?_⟩
      · have hd : decide (line ≠ "") = true := by simpa using hne
        rw [List.map_cons, List.filter_cons, hd, if_pos rfl, ih1, h]
      · intro l hl
        rcases List.mem_cons.1 hl with rfl | hl
        · exact ⟨h1, h2⟩
        · exact ih2 l hl

theorem mappingToken_append (a b : String) (ha : mappingToken a = true)
    (hb : mappingToken b = true) : mappingToken (a ++ b) = true := by
  simp only [mappingToken, String.data_append, List.all_append, Bool.and_eq_true] at *
  exact ⟨ha, hb⟩

/-- C15, refuted as stated. (1) In a file where each IP and each hostname is on one line, the
line `junk`, which has one field, is dropped, and the line `10.0.0.1 nas.lan extra` is
rewritten without its third field, although their IP and hostname differ from the new
ones. (2) With a device name that holds a line end, the result has the line `10.0.0.9 a.lan`
twice. (3) With the device name `a b`, the hostname `a` is read from two lines of the result.
(4) With an IP that holds a space, the IP `10.0.0.9` is read from two lines of the result. -/
theorem C15_counterexample_malformed_lines :
    updateLocalMappings (some "junk\n10.0.0.1 nas.lan extra\n") "10.0.0.5" "phone"
      = some "10.0.0.1 nas.lan\n10.0.0.5 phone.lan\n"
    ∧ updateLocalMappings (some "10.0.0.9 a.lan\n") "10.0.0.5" "x\n10.0.0.9 a"
      = some "10.0.0.9 a.lan\n10.0.0.5 x\n10.0.0.9 a.lan\n"
    ∧ (updateLocalMappings (some "10.0.0.9 a\n") "10.0.0.5" "a b").map readMappings
      = some [("10.0.0.9", "a"), ("10.0.0.5", "a")]
    ∧ (updateLocalMappings (some "10.0.0.9 a.lan\n") "10.0.0.9 x" "phone").map readMappings
      = some [("10.0.0.9", "a.lan"), ("10.0.0.9", "x")] := by
  refine ⟨by decide, by decide, by decide, by decide⟩

/-- C15, amended. For every content of the mapping file whose non-empty lines all have the
form `<ip> <hostname>` (two fields without space) and in which each IP and each hostname is
read from at most one line, and for every IP and device name without space or line end: the
pairs read from the file are its non-empty lines, in order; the rewrite produces the file
made of the old lines whose IP differs from the new IP and whose hostname differs from
`<deviceName>.lan`, in their original order, followed by the one new line
`<ip> <deviceName>.lan`; and each IP and each hostname is read from at most one line of the
result. -/
theorem C15_local_mappings_rewrite (data IP Name : String)
    (hlines : ∀ line ∈ Split data '\n', line = "" ∨ ∃ ip host, mappingToken ip = true
      ∧ mappingToken host = true ∧ line = ip ++ " " ++ host)
    (hIP : mappingToken IP = true) (hName : mappingToken Name = true)
    (hip : ((readMappings data).map Prod.fst).Nodup)
    (hhost : ((readMappings data).map Prod.snd).Nodup) :
    (readMappings data).map (fun l => l.1 ++ " " ++ l.2)
        = (Split data '\n').filter (fun line => decide (line ≠ ""))
    ∧ ∃ out, updateLocalMappings (some data) IP Name = some out
      ∧ out = String.join
          (((readMappings data).filter (fun l => decide (l.1 ≠ IP ∧ l.2 ≠ Name ++ ".lan"))
            ++ [(IP, Name ++ ".lan")]).map (fun l => l.1 ++ " " ++ l.2 ++ "\n"))
      ∧ readMappings out
          = (readMappings data).filter (fun l => decide (l.1 ≠ IP ∧ l.2 ≠ Name ++ ".lan"))
            ++ [(IP, Name ++ ".lan")]
      ∧ ((readMappings out).map Prod.fst).Nodup
      ∧ ((readMappings out).map Prod.snd).Nodup := by
  obtain ⟨h1, h2⟩ := filterMap_mappingOfLine (Split data '\n') hlines
  refine ⟨h1, _, updateLocalMappings_eq data IP Name, rfl, ?_⟩
  have hr : readMappings (String.join
      (((readMappings data).filter (fun l => decide (l.1 ≠ IP ∧ l.2 ≠ Name ++ ".lan"))
        ++ [(IP, Name ++ ".lan")]).map mappingLine))
      = (readMappings data).filter (fun l => decide (l.1 ≠ IP ∧ l.2 ≠ Name ++ ".lan"))
        ++ [(IP, Name ++ ".lan")] := by
    apply readMappings_join
    intro l hl
    rcases List.mem_append.1 hl with hl | hl
    · exact h2 l (List.mem_filter.1 hl).1
    · simp only [List.mem_singleton] at hl
      subst hl
      exact ⟨hIP, mappingToken_append _ _ hName (by decide)⟩
  rw [hr]
  refine ⟨rfl, ?_, ?_⟩
  · rw [List.map_append]
    refine List.Nodup.append (hip.sublist ((List.filter_sublist _).map _)) (by simp) ?_
    intro x hx hy
    simp only [List.map_cons, List.map_nil, List.mem_singleton] at hy
    obtain ⟨l, hl, rfl⟩ := List.mem_map.1 hx
    have := (List.mem_filter.1 hl).2
    simp only [decide_eq_true_eq] at this
    exact this.1 hy
  · rw [List.map_append]
    refine List.Nodup.append (hhost.sublist ((List.filter_sublist _).map _)) (by simp) ?_
    intro x hx hy
    simp only [List.map_cons, List.map_nil, List.mem_singleton] at hy
    obtain ⟨l, hl, rfl⟩ := List.mem_map.1 hx
    have := (List.mem_filter.1 hl).2
    simp only [decide_eq_true_eq] at this
    exact this.2 hy

/-- C15, amended, on a file of three hosts with an empty line and no line end after the last
line, where the new lease takes the IP of one line and the name of another. -/
theorem C15_local_mappings_rewrite_witness :
    ∃ out, updateLocalMappings
        (some "10.0.0.1 nas.lan\n\n10.0.0.5 old.lan\n10.0.0.7 phone.lan") "10.0.0.5" "phone"
        = some out
      ∧ out = "10.0.0.1 nas.lan\n10.0.0.5 phone.lan\n"
      ∧ readMappings out = [("10.0.0.1", "nas.lan"), ("10.0.0.5", "phone.lan")] := by
  obtain ⟨_, out, h1, h2, h3, _, _⟩ := C15_local_mappings_rewrite
    "10.0.0.1 nas.lan\n\n10.0.0.5 old.lan\n10.0.0.7 phone.lan" "10.0.0.5" "phone"
    (by
      have hs : Split "10.0.0.1 nas.lan\n\n10.0.0.5 old.lan\n10.0.0.7 phone.lan" '\n'
          = ["10.0.0.1 nas.lan", "", "10.0.0.5 old.lan", "10.0.0.7 phone.lan"] := by decide
      rw [hs]
      intro line hl
      simp only [List.mem_cons, List.mem_singleton, List.not_mem_nil, or_false] at hl
      rcases hl with rfl | rfl | rfl | rfl
      · exact Or.inr ⟨"10.0.0.1", "nas.lan", by decide, by decide, by decide⟩
      · exact Or.inl rfl
      · exact Or.inr ⟨"10.0.0.5", "old.lan", by decide, by decide, by decide⟩
      · exact Or.inr ⟨"10.0.0.7", "phone.lan", by decide, by decide, by decide⟩)
    (by decide) (by decide) (by decide) (by decide)
  refine ⟨out, h1, ?_, ?_⟩
  · rw [h2]
    decide
  · rw [h3]
    decide

/-! ## Flush -/

theorem flushMatch_iff (lowerRune : Char → Char) (IP MAC Ifname : String)
    (matchInterface : Bool) (e : verdictEntry) :
    flushMatch lowerRune IP MAC Ifname matchInterface e = true
      ↔ (e.ipv4 = IP ∨ (MAC ≠ "" ∧ trimLower lowerRune e.mac = trimLower lowerRune MAC)
          ∨ (matchInterface = true ∧ e.ifname = Ifname)) := by
  simp only [flushMatch, equalMAC, Bool.or_eq_true, Bool.and_eq_true, decide_eq_true_eq,
    beq_iff_eq]
  constructor
  · rintro ((h | h) | h)
    · exact Or.inl h
    · exact Or.inr (Or.inr h)
    · exact Or.inr (Or.inl ⟨h.2, h.1⟩)
  · rintro (h | h | h)
    · exact Or.inl (Or.inl h)
    · exact Or.inr ⟨h.2, h.1⟩
    · exact Or.inl (Or.inr h)

theorem NftState.elems_setElems_self (s : NftState) (t : String) (es es0 : List NftElem)
    (h : s.elems t = some es0) : (s.setElems t es).elems t = some es := by
  unfold NftState.elems NftState.setElems at *
  induction s with
  | nil => simp at h
  | cons m rest ih =>
    by_cases hm : m.1 = t
    · simp [List.find?_cons, hm]
    · have h' : (List.find? (fun m => decide (m.1 = t)) rest).isSome = true ∨ True := Or.inr trivial
      simp only [List.find?_cons, hm, decide_False, List.map_cons, if_false] at h ⊢
      exact ih h

theorem NftState.elems_setElems_other (s : NftState) (t t' : String) (es : List NftElem)
    (h : t' ≠ t) : (s.setElems t es).elems t' = s.elems t' := by
  unfold NftState.elems NftState.setElems
  induction s with
  | nil => rfl
  | cons m rest ih =>
    by_cases hm : m.1 = t
    · have hm' : ¬ m.1 = t' := fun e => h (e.symm.trans hm)
      have ht : ¬ t = t' := fun e => h e.symm
      simp only [List.map_cons, hm, if_true, List.find?_cons, ht, hm', decide_False]
      exact ih
    · by_cases hm' : m.1 = t'
      · have e1 : (if m.1 = t then (t, es) else m) = m := if_neg hm
        rw [List.map_cons, e1, List.find?_cons, List.find?_cons]
        simp only [hm', decide_True]
      · simp only [List.map_cons, hm, if_false, List.find?_cons, hm', decide_False]
        exact ih

/-- For a key of three fields with a MAC, or of two fields in a map other than `dhcp_access`,
the delete command of the entry read from it names that key. -/
theorem deleteArgv_key (name verdict : String) (k : List String)
    (hk : (∃ a b c, k = [a, b, c] ∧ c ≠ "") ∨ (∃ a b, k = [a, b] ∧ name ≠ "dhcp_access")) :
    ∃ body, deleteArgv name verdict (entryOfKey name k)
        = "nft" :: "delete" :: "element" :: "inet" :: "filter" :: name :: "\x7b" :: body
      ∧ keyFields body = k := by
  rcases hk with ⟨a, b, c, rfl, hc⟩ | ⟨a, b, rfl, hn⟩
  · refine ⟨[a, ".", b, ".", c, ":", verdict, "\x7d"], ?_, ?_⟩
    · simp [deleteArgv, entryOfKey, hc]
    · simp [keyFields]
  · refine ⟨[a, ".", b, ":", verdict, "\x7d"], ?_, ?_⟩
    · simp [deleteArgv, entryOfKey, hn]
    · simp [keyFields]

theorem nftRun_delete (s : NftState) (name : String) (body : List String) :
    nftRun s ("nft" :: "delete" :: "element" :: "inet" :: "filter" :: name :: "\x7b" :: body)
      = match s.elems name with
        | none => (false, s)
        | some es =>
          if es.any (fun e => decide (e.key = keyFields body)) then
            (true, s.setElems name (es.filter (fun e => decide (e.key ≠ keyFields body))))
          else (false, s) := by
  rfl

theorem getNFTVerdictMap_nft_some (s : NftState) (name : String) (es : List NftElem)
    (he : s.elems name = some es) (h : ∀ e ∈ es, e.key.length = 2 ∨ e.key.length = 3) :
    getNFTVerdictMap name (nftListMap s name)
      = some (es.map (fun e => entryOfKey name e.key)) := by
  unfold nftListMap
  rw [he]
  have hk : ∀ k ∈ es.map (fun e => (e.key, JSON.obj [(e.verdict, JSON.null)])),
      k.1.length = 2 ∨ k.1.length = 3 := by
    intro k hk
    obtain ⟨e, hee, rfl⟩ := List.mem_map.1 hk
    exact h e hee
  have := getNFTVerdictMap_keys name (JSON.obj [("metainfo", JSON.obj [])])
    [("family", JSON.str "inet"), ("name", JSON.str name), ("table", JSON.str "filter")]
    (es.map (fun e => (e.key, JSON.obj [(e.verdict, JSON.null)]))) hk
  simp only [List.map_map, Function.comp_def] at this
  simpa using this

theorem getNFTVerdictMap_nft_none (s : NftState) (name : String)
    (he : s.elems name = none) : getNFTVerdictMap name (nftListMap s name) = some [] := by
  unfold nftListMap
  rw [he]
  rfl

theorem filter_key_ne (kept rest : List NftElem) (e : NftElem)
    (hnd : ((kept ++ e :: rest).map NftElem.key).Nodup) :
    (kept ++ e :: rest).filter (fun x => decide (x.key ≠ e.key)) = kept ++ rest := by
  have h1 : (kept.map NftElem.key ++ e.key :: rest.map NftElem.key).Nodup := by
    simpa using hnd
  have h2 := List.nodup_append.1 h1
  have h3 := List.nodup_cons.1 h2.2.1
  rw [List.filter_append, List.filter_cons]
  have hk : kept.filter (fun x => decide (x.key ≠ e.key)) = kept := by
    rw [List.filter_eq_self]
    intro x hx
    have : x.key ≠ e.key := fun he =>
      h2.2.2 (List.mem_map_of_mem NftElem.key hx) (he ▸ List.mem_cons_self _ _)
    simpa using this
  have hr : rest.filter (fun x => decide (x.key ≠ e.key)) = rest := by
    rw [List.filter_eq_self]
    intro x hx
    have : x.key ≠ e.key := fun he => h3.1 (he ▸ List.mem_map_of_mem NftElem.key hx)
    simpa using this
  rw [hk, hr]
  simp

theorem nftRun_deleteArgv (s : NftState) (name verdict : String) (kept rest : List NftElem)
    (e : NftElem) (hs : s.elems name = some (kept ++ e :: rest))
    (hnd : ((kept ++ e :: rest).map NftElem.key).Nodup)
    (hk : (∃ a b c, e.key = [a, b, c] ∧ c ≠ "") ∨ (∃ a b, e.key = [a, b] ∧ name ≠ "dhcp_access")) :
    nftRun s (deleteArgv name verdict (entryOfKey name e.key))
      = (true, s.setElems name (kept ++ rest)) := by
  obtain ⟨body, hargv, hkf⟩ := deleteArgv_key name verdict e.key hk
  rw [hargv, nftRun_delete, hs]
  simp only [hkf]
  have hany : (kept ++ e :: rest).any (fun x => decide (x.key = e.key)) = true := by
    rw [List.any_eq_true]
    exact ⟨e, by simp, by simp⟩
  rw [if_pos hany, filter_key_ne kept rest e hnd]

theorem flushEntries_nft (lowerRune : Char → Char) (IP MAC Ifname : String)
    (matchInterface : Bool) (name : String) (rest kept : List NftElem) (s : NftState)
    (l : List (List String × Bool))
    (hs : s.elems name = some (kept ++ rest))
    (hnd : ((kept ++ rest).map NftElem.key).Nodup)
    (hshape : ∀ e ∈ rest, (∃ a b c, e.key = [a, b, c] ∧ c ≠ "")
      ∨ (∃ a b, e.key = [a, b] ∧ name ≠ "dhcp_access")) :
    (flushEntries (loggedWorld nftWorld) lowerRune IP MAC Ifname matchInterface name
        (getMapVerdict name) (rest.map (fun e => entryOfKey name e.key)) (s, l)).returned = false
    ∧ (flushEntries (loggedWorld nftWorld) lowerRune IP MAC Ifname matchInterface name
        (getMapVerdict name) (rest.map (fun e => entryOfKey name e.key)) (s, l)).state.1.elems name
      = some (kept ++ rest.filter (fun e =>
          !flushMatch lowerRune IP MAC Ifname matchInterface (entryOfKey name e.key)))
    ∧ (∀ t, t ≠ name →
        (flushEntries (loggedWorld nftWorld) lowerRune IP MAC Ifname matchInterface name
          (getMapVerdict name) (rest.map (fun e => entryOfKey name e.key)) (s, l)).state.1.elems t
        = s.elems t)
    ∧ (flushEntries (loggedWorld nftWorld) lowerRune IP MAC Ifname matchInterface name
        (getMapVerdict name) (rest.map (fun e => entryOfKey name e.key)) (s, l)).state.2
      = l ++ (rest.filter (fun e =>
          flushMatch lowerRune IP MAC Ifname matchInterface (entryOfKey name e.key))).map
            (fun e => (deleteArgv name (getMapVerdict name) (entryOfKey name e.key), true)) := by
  induction rest generalizing kept s l with
  | nil =>
    refine ⟨rfl, ?_, fun _ _ => rfl, ?_⟩
    · simpa [flushEntries] using hs
    · simp [flushEntries]
  | cons e rest ih =>
    by_cases hm : flushMatch lowerRune IP MAC Ifname matchInterface (entryOfKey name e.key) = true
    · have hrun := nftRun_deleteArgv s name (getMapVerdict name) kept rest e hs hnd
        (hshape e (List.mem_cons_self _ _))
      have hnd' : ((kept ++ rest).map NftElem.key).Nodup := by
        refine hnd.sublist (List.Sublist.map _ ?_)
        exact List.Sublist.append_left (List.sublist_cons_self e rest) kept
      have hs' : (s.setElems name (kept ++ rest)).elems name = some (kept ++ rest) :=
        NftState.elems_setElems_self s name _ _ hs
      obtain ⟨i1, i2, i3, i4⟩ := ih kept (s.setElems name (kept ++ rest))
        (l ++ [(deleteArgv name (getMapVerdict name) (entryOfKey name e.key), true)]) hs' hnd'
        (fun x hx => hshape x (List.mem_cons_of_mem _ hx))
      have hW : (loggedWorld nftWorld).run (s, l)
          (deleteArgv name (getMapVerdict name) (entryOfKey name e.key))
          = (true, (s.setElems name (kept ++ rest),
              l ++ [(deleteArgv name (getMapVerdict name) (entryOfKey name e.key), true)])) := by
        show ((nftRun s _).1, ((nftRun s _).2, l ++ [(_, (nftRun s _).1)])) = _
        rw [hrun]
      have hstep : flushEntries (loggedWorld nftWorld) lowerRune IP MAC Ifname matchInterface
          name (getMapVerdict name) ((e :: rest).map (fun e => entryOfKey name e.key)) (s, l)
          = ⟨(flushEntries (loggedWorld nftWorld) lowerRune IP MAC Ifname matchInterface name
                (getMapVerdict name) (rest.map (fun e => entryOfKey name e.key))
                (s.setElems name (kept ++ rest),
                  l ++ [(deleteArgv name (getMapVerdict name) (entryOfKey name e.key),
                    true)])).state,
             (entryOfKey name e.key, true) ::
              (flushEntries (loggedWorld nftWorld) lowerRune IP MAC Ifname matchInterface name
                (getMapVerdict name) (rest.map (fun e => entryOfKey name e.key))
                (s.setElems name (kept ++ rest),
                  l ++ [(deleteArgv name (getMapVerdict name) (entryOfKey name e.key),
                    true)])).deletes,
             (flushEntries (loggedWorld nftWorld) lowerRune IP MAC Ifname matchInterface name
                (getMapVerdict name) (rest.map (fun e => entryOfKey name e.key))
                (s.setElems name (kept ++ rest),
                  l ++ [(deleteArgv name (getMapVerdict name) (entryOfKey name e.key),
                    true)])).returned⟩ := by
        rw [List.map_cons, flushEntries]
        simp only [hm, if_true, hW]
        split_ifs <;> rfl
      rw [hstep]
      refine ⟨i1, ?_, ?_, ?_⟩
      · rw [i2, List.filter_cons]
        simp [hm]
      · intro t ht
        rw [i3 t ht, NftState.elems_setElems_other s name t _ ht]
      · rw [i4, List.filter_cons]
        simp [hm]
    · have hs' : s.elems name = some ((kept ++ [e]) ++ rest) := by
        rw [hs]
        simp
      have hnd' : (((kept ++ [e]) ++ rest).map NftElem.key).Nodup := by
        simpa using hnd
      obtain ⟨i1, i2, i3, i4⟩ := ih (kept ++ [e]) s l hs' hnd'
        (fun x hx => hshape x (List.mem_cons_of_mem _ hx))
      have hstep : flushEntries (loggedWorld nftWorld) lowerRune IP MAC Ifname matchInterface
          name (getMapVerdict name) ((e :: rest).map (fun e => entryOfKey name e.key)) (s, l)
          = flushEntries (loggedWorld nftWorld) lowerRune IP MAC Ifname matchInterface name
              (getMapVerdict name) (rest.map (fun e => entryOfKey name e.key)) (s, l) := by
        rw [List.map_cons, flushEntries]
        simp only [hm, Bool.false_eq_true, if_false]
      rw [hstep]
      refine ⟨i1, ?_, i3, ?_⟩
      · rw [i2, List.filter_cons]
        simp [hm]
      · rw [i4, List.filter_cons]
        simp [hm]

theorem flushVmaps_cons_some {σ : Type} (w : World σ) (lowerRune : Char → Char) (s : σ)
    (IP MAC Ifname name : String) (rest : List String) (matchInterface : Bool)
    (entries : List verdictEntry) (r : FlushResult σ)
    (he : getNFTVerdictMap name (w.listMap s name) = some entries)
    (hret : (flushEntries w lowerRune IP MAC Ifname matchInterface name (getMapVerdict name)
      entries s).returned = false)
    (hr : flushVmaps w lowerRune
      (flushEntries w lowerRune IP MAC Ifname matchInterface name (getMapVerdict name)
        entries s).state IP MAC Ifname rest matchInterface = some r) :
    flushVmaps w lowerRune s IP MAC Ifname (name :: rest) matchInterface
      = some ⟨r.state, ⟨name, entries,
          (flushEntries w lowerRune IP MAC Ifname matchInterface name (getMapVerdict name)
            entries s).deletes⟩ :: r.maps⟩ := by
  rw [flushVmaps, he]
  simp only [hret, Bool.false_eq_true, if_false, hr]

theorem flushVmaps_nft (lowerRune : Char → Char) (IP MAC Ifname : String)
    (matchInterface : Bool) (names : List String) (s : NftState)
    (l : List (List String × Bool))
    (hkeys : ∀ name ∈ names, ∀ es, s.elems name = some es →
      (es.map NftElem.key).Nodup
        ∧ ∀ e ∈ es, (∃ a b c, e.key = [a, b, c] ∧ c ≠ "")
            ∨ (∃ a b, e.key = [a, b] ∧ name ≠ "dhcp_access")) :
    ∃ r, flushVmaps (loggedWorld nftWorld) lowerRune (s, l) IP MAC Ifname names matchInterface
        = some r
      ∧ (∀ t, r.state.1.elems t = (s.elems t).map (fun es =>
          if t ∈ names then
            es.filter (fun e =>
              !flushMatch lowerRune IP MAC Ifname matchInterface (entryOfKey t e.key))
          else es))
      ∧ ∃ ext, r.state.2 = l ++ ext
        ∧ ∀ c, c ∈ ext ↔ ∃ name ∈ names, ∃ es, s.elems name = some es ∧ ∃ e ∈ es,
            flushMatch lowerRune IP MAC Ifname matchInterface (entryOfKey name e.key) = true
            ∧ c = (deleteArgv name (getMapVerdict name) (entryOfKey name e.key), true) := by
  induction names generalizing s l with
  | nil =>
    refine ⟨⟨(s, l), []⟩, rfl, ?_, [], by simp, by simp⟩
    intro t
    cases s.elems t <;> simp
  | cons name rest ih =>
    cases he : s.elems name with
    | none =>
      obtain ⟨r, hr, h1, ext, h2, h3⟩ := ih s l
        (fun n hn es hes => hkeys n (List.mem_cons_of_mem _ hn) es hes)
      have hread : getNFTVerdictMap name ((loggedWorld nftWorld).listMap (s, l) name)
          = some [] := getNFTVerdictMap_nft_none s name he
      refine ⟨_, flushVmaps_cons_some (loggedWorld nftWorld) lowerRune (s, l) IP MAC Ifname
        name rest matchInterface [] r hread rfl hr, ?_, ext, h2, ?_⟩
      · intro t
        rw [h1 t]
        by_cases ht : t = name
        · subst ht
          rw [he]
          rfl
        · have : (t ∈ name :: rest) = (t ∈ rest) := by simp [ht]
          simp only [this]
      · intro c
        rw [h3 c]
        constructor
        · rintro ⟨n, hn, es, hes, e, hee, hm, hc⟩
          exact ⟨n, List.mem_cons_of_mem _ hn, es, hes, e, hee, hm, hc⟩
        · rintro ⟨n, hn, es, hes, e, hee, hm, hc⟩
          rcases List.mem_cons.1 hn with rfl | hn
          · rw [he] at hes
            exact absurd hes (by simp)
          · exact ⟨n, hn, es, hes, e, hee, hm, hc⟩
    | some es =>
      obtain ⟨hnd, hshape⟩ := hkeys name (List.mem_cons_self _ _) es he
      have hlen : ∀ e ∈ es, e.key.length = 2 ∨ e.key.length = 3 := by
        intro e hee
        rcases hshape e hee with ⟨a, b, c, hk, _⟩ | ⟨a, b, hk, _⟩
        · exact Or.inr (by rw [hk]; rfl)
        · exact Or.inl (by rw [hk]; rfl)
      have hread : getNFTVerdictMap name ((loggedWorld nftWorld).listMap (s, l) name)
          = some (es.map (fun e => entryOfKey name e.key)) :=
        getNFTVerdictMap_nft_some s name es he hlen
      obtain ⟨i1, i2, i3, i4⟩ := flushEntries_nft lowerRune IP MAC Ifname matchInterface name
        es [] s l (by simpa using he) (by simpa using hnd) hshape
      simp only [List.nil_append] at i2
      have hkeys' : ∀ n ∈ rest, ∀ es',
          (flushEntries (loggedWorld nftWorld) lowerRune IP MAC Ifname matchInterface name
            (getMapVerdict name) (es.map (fun e => entryOfKey name e.key))
            (s, l)).state.1.elems n = some es' →
          (es'.map NftElem.key).Nodup
            ∧ ∀ e ∈ es', (∃ a b c, e.key = [a, b, c] ∧ c ≠ "")
                ∨ (∃ a b, e.key = [a, b] ∧ n ≠ "dhcp_access") := by
        intro n hn es' hes'
        by_cases hnn : n = name
        · subst hnn
          rw [i2] at hes'
          simp only [Option.some.injEq] at hes'
          subst hes'
          exact ⟨hnd.sublist ((List.filter_sublist _).map _),
            fun e hee => hshape e (List.mem_filter.1 hee).1⟩
        · rw [i3 n hnn] at hes'
          exact hkeys n (List.mem_cons_of_mem _ hn) es' hes'
      obtain ⟨r, hr, h1, ext, h2, h3⟩ := ih
        (flushEntries (loggedWorld nftWorld) lowerRune IP MAC Ifname matchInterface name
          (getMapVerdict name) (es.map (fun e => entryOfKey name e.key)) (s, l)).state.1
        (flushEntries (loggedWorld nftWorld) lowerRune IP MAC Ifname matchInterface name
          (getMapVerdict name) (es.map (fun e => entryOfKey name e.key)) (s, l)).state.2
        hkeys'
      refine ⟨_, flushVmaps_cons_some (loggedWorld nftWorld) lowerRune (s, l) IP MAC Ifname
        name rest matchInterface _ r hread i1 hr, ?_,
        (es.filter (fun e =>
          flushMatch lowerRune IP MAC Ifname matchInterface (entryOfKey name e.key))).map
            (fun e => (deleteArgv name (getMapVerdict name) (entryOfKey name e.key), true))
          ++ ext, ?_, ?_⟩
      · intro t
        show r.state.1.elems t = _
        rw [h1 t]
        by_cases ht : t = name
        · subst ht
          rw [i2, he]
          simp only [Option.map_some', List.mem_cons, true_or, if_true, Option.some.injEq]
          split_ifs
          · rw [List.filter_filter]
            simp
          · rfl
        · rw [i3 t ht]
          have : (t ∈ name :: rest) = (t ∈ rest) := by simp [ht]
          simp only [this]
      · show r.state.2 = _
        rw [h2, i4, List.append_assoc]
      · intro c
        rw [List.mem_append, h3 c, List.mem_map]
        constructor
        · rintro (⟨e, hee, rfl⟩ | ⟨n, hn, es', hes', e, hee, hm, hc⟩)
          · obtain ⟨hee1, hee2⟩ := List.mem_filter.1 hee
            exact ⟨name, List.mem_cons_self _ _, es, he, e, hee1, hee2, rfl⟩
          · by_cases hnn : n = name
            · subst hnn
              rw [i2] at hes'
              simp only [Option.some.injEq] at hes'
              subst hes'
              have := (List.mem_filter.1 hee).2
              rw [hm] at this
              exact absurd this (by simp)
            · rw [i3 n hnn] at hes'
              exact ⟨n, List.mem_cons_of_mem _ hn, es', hes', e, hee, hm, hc⟩
        · rintro ⟨n, hn, es', hes', e, hee, hm, hc⟩
          by_cases hnn : n = name
          · subst hnn
            rw [he] at hes'
            simp only [Option.some.injEq] at hes'
            subst hes'
            exact Or.inl ⟨e, List.mem_filter.2 ⟨hee, hm⟩, hc.symm⟩
          · rcases List.mem_cons.1 hn with h | hn
            · exact absurd h hnn
            · exact Or.inr ⟨n, hn, es', by rw [i3 n hnn]; exact hes', e, hee, hm, hc⟩

/-- C18. In the packet-filter tool, when every listed map holds each key once and its keys are
`(ip, ifname, mac)` with a MAC or, in a map other than `dhcp_access`, `(ip, ifname)`, every
delete that `Flush(ip, mac, iface, maps, matchInterface)` submits succeeds, and: the commands
the tool receives are exactly the deletes of the elements `e` of the listed maps for which
`e.ip` equals `ip`, or `mac` is non-empty and `e.mac` equals `mac` ignoring case and surrounding
white space, or `matchInterface` holds and `e.ifname` equals `iface`; afterwards every listed
map holds exactly its other elements, in their order, and every other map is as it was; with
`matchInterface` false an element that has neither the IP nor the MAC stays. -/
theorem C18_flush_deletes_exactly_matching (lowerRune : Char → Char) (s : NftState)
    (IP MAC Ifname : String) (names : List String) (matchInterface : Bool)
    (hkeys : ∀ name ∈ names, ∀ es, s.elems name = some es →
      (es.map NftElem.key).Nodup
        ∧ ∀ e ∈ es, (∃ a b c, e.key = [a, b, c] ∧ c ≠ "")
            ∨ (∃ a b, e.key = [a, b] ∧ name ≠ "dhcp_access")) :
    ∃ r, flushVmaps (loggedWorld nftWorld) lowerRune (s, []) IP MAC Ifname names matchInterface
        = some r
      ∧ (∀ c ∈ r.state.2, c.2 = true)
      ∧ (∀ argv, argv ∈ r.state.2.map Prod.fst ↔
          ∃ name ∈ names, ∃ es, s.elems name = some es ∧ ∃ e ∈ es,
            ((entryOfKey name e.key).ipv4 = IP
              ∨ (MAC ≠ "" ∧ trimLower lowerRune (entryOfKey name e.key).mac
                  = trimLower lowerRune MAC)
              ∨ (matchInterface = true ∧ (entryOfKey name e.key).ifname = Ifname))
            ∧ argv = deleteArgv name (getMapVerdict name) (entryOfKey name e.key))
      ∧ (∀ t, r.state.1.elems t = (s.elems t).map (fun es =>
          if t ∈ names then
            es.filter (fun e => decide ¬ ((entryOfKey t e.key).ipv4 = IP
              ∨ (MAC ≠ "" ∧ trimLower lowerRune (entryOfKey t e.key).mac
                  = trimLower lowerRune MAC)
              ∨ (matchInterface = true ∧ (entryOfKey t e.key).ifname = Ifname)))
          else es))
      ∧ (matchInterface = false → ∀ t es e, s.elems t = some es → e ∈ es →
          (entryOfKey t e.key).ipv4 ≠ IP →
          ¬ (MAC ≠ "" ∧ trimLower lowerRune (entryOfKey t e.key).mac = trimLower lowerRune MAC) →
          ∃ es', r.state.1.elems t = some es' ∧ e ∈ es') := by
  obtain ⟨r, hr, h1, ext, h2, h3⟩ := flushVmaps_nft lowerRune IP MAC Ifname matchInterface
    names s [] hkeys
  simp only [List.nil_append] at h2
  have hfilter : ∀ t (es : List NftElem),
      es.filter (fun e =>
        !flushMatch lowerRune IP MAC Ifname matchInterface (entryOfKey t e.key))
      = es.filter (fun e => decide ¬ ((entryOfKey t e.key).ipv4 = IP
          ∨ (MAC ≠ "" ∧ trimLower lowerRune (entryOfKey t e.key).mac
              = trimLower lowerRune MAC)
          ∨ (matchInterface = true ∧ (entryOfKey t e.key).ifname = Ifname))) := by
    intro t es
    apply List.filter_congr
    intro e _
    rw [Bool.eq_iff_iff]
    simp only [Bool.not_eq_true', decide_eq_true_eq]
    rw [← flushMatch_iff, Bool.not_eq_true]
  have hstate : ∀ t, r.state.1.elems t = (s.elems t).map (fun es =>
      if t ∈ names then
        es.filter (fun e => decide ¬ ((entryOfKey t e.key).ipv4 = IP
          ∨ (MAC ≠ "" ∧ trimLower lowerRune (entryOfKey t e.key).mac
              = trimLower lowerRune MAC)
          ∨ (matchInterface = true ∧ (entryOfKey t e.key).ifname = Ifname)))
      else es) := by
    intro t
    rw [h1 t]
    simp only [hfilter]
  refine ⟨r, hr, ?_, ?_, hstate, ?_⟩
  · intro c hc
    rw [h2] at hc
    obtain ⟨_, _, _, _, _, _, _, rfl⟩ := (h3 c).1 hc
    rfl
  · intro argv
    rw [h2, List.mem_map]
    constructor
    · rintro ⟨c, hc, rfl⟩
      obtain ⟨n, hn, es, hes, e, hee, hm, rfl⟩ := (h3 c).1 hc
      exact ⟨n, hn, es, hes, e, hee, (flushMatch_iff _ _ _ _ _ _).1 hm, rfl⟩
    · rintro ⟨n, hn, es, hes, e, hee, hm, rfl⟩
      exact ⟨_, (h3 _).2 ⟨n, hn, es, hes, e, hee, (flushMatch_iff _ _ _ _ _ _).2 hm, rfl⟩, rfl⟩
  · intro hmi t es e hes hee hip hmac
    rw [hstate t, hes]
    by_cases ht : t ∈ names
    · simp only [Option.map_some', ht, if_true]
      refine ⟨_, rfl, ?_⟩
      rw [List.mem_filter]
      refine ⟨hee, ?_⟩
      simp only [decide_eq_true_eq]
      rintro (h | h | h)
      · exact hip h
      · exact hmac h
      · rw [hmi] at h
        exact absurd h.1 (by decide)
    · exact ⟨es, by simp only [Option.map_some', ht, if_false], hee⟩

/-- C18, in the tool holding `lan_access` with the element of the device and one of another
device on the same interface, and `guests_dst_access` with one element of the IP and one of
another IP, with `matchInterface` false: the two deletes succeed and the other two elements
stay. -/
theorem C18_flush_deletes_exactly_matching_witness :
    ∃ r, flushVmaps (loggedWorld nftWorld) Char.toLower
        ([("lan_access",
            [⟨["10.0.0.5", "br-lan", "aa:bb:cc:dd:ee:02"], "accept"⟩,
             ⟨["10.0.0.9", "br-lan", "aa:bb:cc:dd:ee:09"], "accept"⟩]),
          ("guests_dst_access",
            [⟨["10.0.0.9", "br-lan"], "continue"⟩, ⟨["10.0.0.5", "br-lan"], "continue"⟩])], [])
        "10.0.0.5" "AA:BB:CC:DD:EE:02" "br-lan" ["lan_access", "guests_dst_access"] false
        = some r
      ∧ r.state
        = ([("lan_access", [⟨["10.0.0.9", "br-lan", "aa:bb:cc:dd:ee:09"], "accept"⟩]),
            ("guests_dst_access", [⟨["10.0.0.9", "br-lan"], "continue"⟩])],
           [(["nft", "delete", "element", "inet", "filter", "lan_access", "\x7b", "10.0.0.5", ".",
              "br-lan", ".", "aa:bb:cc:dd:ee:02", ":", "accept", "\x7d"], true),
            (["nft", "delete", "element", "inet", "filter", "guests_dst_access", "\x7b",
              "10.0.0.5", ".", "br-lan", ":", "continue", "\x7d"], true)])
      ∧ ∀ c ∈ r.state.2, c.2 = true := by
  obtain ⟨r, h1, h2, _⟩ := C18_flush_deletes_exactly_matching Char.toLower
    [("lan_access",
        [⟨["10.0.0.5", "br-lan", "aa:bb:cc:dd:ee:02"], "accept"⟩,
         ⟨["10.0.0.9", "br-lan", "aa:bb:cc:dd:ee:09"], "accept"⟩]),
      ("guests_dst_access",
        [⟨["10.0.0.9", "br-lan"], "continue"⟩, ⟨["10.0.0.5", "br-lan"], "continue"⟩])]
    "10.0.0.5" "AA:BB:CC:DD:EE:02" "br-lan" ["lan_access", "guests_dst_access"] false
    (by
      intro name hn es hes
      simp only [List.mem_cons, List.mem_singleton, List.not_mem_nil, or_false] at hn
      rcases hn with rfl | rfl
      · have e : NftState.elems
            [("lan_access",
                [⟨["10.0.0.5", "br-lan", "aa:bb:cc:dd:ee:02"], "accept"⟩,
                 ⟨["10.0.0.9", "br-lan", "aa:bb:cc:dd:ee:09"], "accept"⟩]),
              ("guests_dst_access",
                [⟨["10.0.0.9", "br-lan"], "continue"⟩, ⟨["10.0.0.5", "br-lan"], "continue"⟩])]
            "lan_access"
            = some [⟨["10.0.0.5", "br-lan", "aa:bb:cc:dd:ee:02"], "accept"⟩,
                 ⟨["10.0.0.9", "br-lan", "aa:bb:cc:dd:ee:09"], "accept"⟩] := by decide
        rw [e] at hes
        cases hes
        refine ⟨by decide, ?_⟩
        intro x hx
        simp only [List.mem_cons, List.mem_singleton, List.not_mem_nil, or_false] at hx
        rcases hx with rfl | rfl
        · exact Or.inl ⟨_, _, _, rfl, by decide⟩
        · exact Or.inl ⟨_, _, _, rfl, by decide⟩
      · have e : NftState.elems
            [("lan_access",
                [⟨["10.0.0.5", "br-lan", "aa:bb:cc:dd:ee:02"], "accept"⟩,
                 ⟨["10.0.0.9", "br-lan", "aa:bb:cc:dd:ee:09"], "accept"⟩]),
              ("guests_dst_access",
                [⟨["10.0.0.9", "br-lan"], "continue"⟩, ⟨["10.0.0.5", "br-lan"], "continue"⟩])]
            "guests_dst_access"
            = some [⟨["10.0.0.9", "br-lan"], "continue"⟩, ⟨["10.0.0.5", "br-lan"], "continue"⟩] := by
          decide
        rw [e] at hes
        cases hes
        refine ⟨by decide, ?_⟩
        intro x hx
        simp only [List.mem_cons, List.mem_singleton, List.not_mem_nil, or_false] at hx
        rcases hx with rfl | rfl
        · exact Or.inr ⟨_, _, rfl, by decide⟩
        · exact Or.inr ⟨_, _, rfl, by decide⟩)
  refine ⟨r, h1, ?_, h2⟩
  have h3 : (flushVmaps (loggedWorld nftWorld) Char.toLower
        ([("lan_access",
            [⟨["10.0.0.5", "br-lan", "aa:bb:cc:dd:ee:02"], "accept"⟩,
             ⟨["10.0.0.9", "br-lan", "aa:bb:cc:dd:ee:09"], "accept"⟩]),
          ("guests_dst_access",
            [⟨["10.0.0.9", "br-lan"], "continue"⟩, ⟨["10.0.0.5", "br-lan"], "continue"⟩])], [])
        "10.0.0.5" "AA:BB:CC:DD:EE:02" "br-lan" ["lan_access", "guests_dst_access"] false).map
          (fun r => r.state)
      = some ([("lan_access", [⟨["10.0.0.9", "br-lan", "aa:bb:cc:dd:ee:09"], "accept"⟩]),
            ("guests_dst_access", [⟨["10.0.0.9", "br-lan"], "continue"⟩])],
           [(["nft", "delete", "element", "inet", "filter", "lan_access", "\x7b", "10.0.0.5", ".",
              "br-lan", ".", "aa:bb:cc:dd:ee:02", ":", "accept", "\x7d"], true),
            (["nft", "delete", "element", "inet", "filter", "guests_dst_access", "\x7b",
              "10.0.0.5", ".", "br-lan", ":", "continue", "\x7d"], true)]) := by
    decide
  rw [h1] at h3
  simpa using h3

/-- C17 (code defect). The two branches of `flushVmaps` handle a failed delete in opposite
ways. (1) `lan_access` holds two elements of the IP and `dns_access` one; the delete of the
first element of `lan_access`, which has a MAC, fails: the tool still receives the delete of
the second element of `lan_access`, and then the delete in `dns_access`, so the failure does
not stop the remaining deletes in its map. (2) `guests_dst_access` holds two elements of the
IP and `lan_access` one; the delete of the first element of `guests_dst_access`, which has no
MAC, fails: the tool receives no other command, so the matching element of the later map
`lan_access` is never submitted for deletion. -/
theorem C17_failed_delete_branches_disagree :
    (flushVmaps
        (loggedWorld (fixedWorld
          [("lan_access",
            [⟨["10.0.0.5", "br-lan", "aa:bb:cc:dd:ee:02"], "accept"⟩,
             ⟨["10.0.0.5", "br-lan", "aa:bb:cc:dd:ee:09"], "accept"⟩]),
           ("dns_access", [⟨["10.0.0.5", "br-lan", "aa:bb:cc:dd:ee:02"], "accept"⟩])]
          [["nft", "delete", "element", "inet", "filter", "lan_access", "\x7b", "10.0.0.5", ".",
            "br-lan", ".", "aa:bb:cc:dd:ee:02", ":", "accept", "\x7d"]]))
        Char.toLower ((), []) "10.0.0.5" "aa:bb:cc:dd:ee:02" "br-lan"
        ["lan_access", "dns_access"] false).map (fun r => r.state.2)
      = some
        [(["nft", "delete", "element", "inet", "filter", "lan_access", "\x7b", "10.0.0.5", ".",
            "br-lan", ".", "aa:bb:cc:dd:ee:02", ":", "accept", "\x7d"], false),
         (["nft", "delete", "element", "inet", "filter", "lan_access", "\x7b", "10.0.0.5", ".",
            "br-lan", ".", "aa:bb:cc:dd:ee:09", ":", "accept", "\x7d"], true),
         (["nft", "delete", "element", "inet", "filter", "dns_access", "\x7b", "10.0.0.5", ".",
            "br-lan", ".", "aa:bb:cc:dd:ee:02", ":", "accept", "\x7d"], true)]
    ∧ (flushVmaps
        (loggedWorld (fixedWorld
          [("guests_dst_access",
            [⟨["10.0.0.5", "br-lan"], "continue"⟩, ⟨["10.0.0.5", "eth0"], "continue"⟩]),
           ("lan_access", [⟨["10.0.0.5", "br-lan", "aa:bb:cc:dd:ee:02"], "accept"⟩])]
          [["nft", "delete", "element", "inet", "filter", "guests_dst_access", "\x7b", "10.0.0.5",
            ".", "br-lan", ":", "continue", "\x7d"]]))
        Char.toLower ((), []) "10.0.0.5" "aa:bb:cc:dd:ee:02" "br-lan"
        ["guests_dst_access", "lan_access"] false).map (fun r => r.state.2)
      = some
        [(["nft", "delete", "element", "inet", "filter", "guests_dst_access", "\x7b", "10.0.0.5",
            ".", "br-lan", ":", "continue", "\x7d"], false)] := by
  decide

/-! ## Repopulate -/

theorem addElementsOf_append (l₁ l₂ : List (List String × Bool)) :
    addElementsOf (l₁ ++ l₂) = addElementsOf l₁ ++ addElementsOf l₂ := by
  simp [addElementsOf]

theorem replay_append {σ : Type} (w : World σ) (s : σ) (l₁ l₂ : List (List String × Bool)) :
    replay w s (l₁ ++ l₂) = (replay w s l₁).bind (fun s' => replay w s' l₂) := by
  induction l₁ generalizing s with
  | nil => rfl
  | cons c rest ih =>
    simp only [List.cons_append, replay]
    split_ifs
    · exact ih _
    · rfl

theorem NftState.elems_append_new (s : NftState) (t t' : String) :
    (s ++ [(t, [])]).elems t'
      = match s.elems t' with
        | some es => some es
        | none => if t = t' then some [] else none := by
  unfold NftState.elems
  rw [List.find?_append]
  cases h : s.find? (fun m => decide (m.1 = t')) with
  | some m => rfl
  | none =>
    by_cases ht : t = t'
    · simp [ht]
    · simp [ht]

/-- One command that is not a delete keeps every element of every map. -/
theorem nftRun_keeps (s : NftState) (argv : List String)
    (hnd : argv.take 3 ≠ ["nft", "delete", "element"]) (t : String) (es : List NftElem)
    (x : NftElem) (hs : s.elems t = some es) (hx : x ∈ es) :
    ∃ es', (nftRun s argv).2.elems t = some es' ∧ x ∈ es' := by
  unfold nftRun
  split
  · rename_i t0 body
    cases h0 : s.elems t0 with
    | none => exact ⟨es, hs, hx⟩
    | some es0 =>
      simp only
      split_ifs
      · exact ⟨es, hs, hx⟩
      · by_cases ht : t = t0
        · subst ht
          rw [hs] at h0
          cases h0
          exact ⟨_, NftState.elems_setElems_self s t _ _ hs, List.mem_append_left _ hx⟩
        · exact ⟨es, by rw [NftState.elems_setElems_other s t0 t _ ht]; exact hs, hx⟩
  · exact absurd rfl hnd
  · exact ⟨es, hs, hx⟩
  · rename_i t0 _
    split_ifs
    · exact ⟨es, hs, hx⟩
    · exact ⟨es, by rw [NftState.elems_append_new, hs], hx⟩
  · exact ⟨es, hs, hx⟩

/-- An `add element` command that succeeds leaves its key in its map. -/
theorem nftRun_add_present (s : NftState) (t : String) (body : List String)
    (h : (nftRun s ("nft" :: "add" :: "element" :: "inet" :: "filter" :: t :: "\x7b" :: body)).1
      = true) :
    ∃ es', (nftRun s ("nft" :: "add" :: "element" :: "inet" :: "filter" :: t :: "\x7b"
        :: body)).2.elems t = some es' ∧ ∃ x ∈ es', x.key = keyFields body := by
  have e : nftRun s ("nft" :: "add" :: "element" :: "inet" :: "filter" :: t :: "\x7b" :: body)
      = match s.elems t with
        | none => (false, s)
        | some es =>
          if es.any (fun e => decide (e.key = keyFields body)) then (true, s)
          else (true, s.setElems t (es ++ [⟨keyFields body, verdictWord body⟩])) := rfl
  rw [e] at h ⊢
  cases h0 : s.elems t with
  | none => simp [h0] at h
  | some es =>
    simp only
    split_ifs with hany
    · obtain ⟨x, hx, hk⟩ := List.any_eq_true.1 hany
      exact ⟨es, h0, x, hx, by simpa using hk⟩
    · exact ⟨_, NftState.elems_setElems_self s t _ _ h0, ⟨keyFields body, verdictWord body⟩,
        by simp, rfl⟩

/-- Every element that a map holds after one command was there before or is the element of
that command, an `add element` that succeeded. -/
theorem nftRun_frame (s : NftState) (argv : List String) (t : String) (es : List NftElem)
    (x : NftElem) (hs : (nftRun s argv).2.elems t = some es) (hx : x ∈ es) :
    (∃ es0, s.elems t = some es0 ∧ x ∈ es0)
      ∨ (∃ body, argv = "nft" :: "add" :: "element" :: "inet" :: "filter" :: t :: "\x7b" :: body
          ∧ (nftRun s argv).1 = true ∧ x = ⟨keyFields body, verdictWord body⟩) := by
  unfold nftRun at hs ⊢
  split at hs
  · rename_i t0 body
    cases h0 : s.elems t0 with
    | none =>
      simp only [h0] at hs
      exact Or.inl ⟨es, hs, hx⟩
    | some es0 =>
      simp only [h0] at hs ⊢
      split_ifs at hs ⊢ with hany
      · exact Or.inl ⟨es, hs, hx⟩
      · by_cases ht : t = t0
        · subst ht
          rw [NftState.elems_setElems_self s t _ _ h0] at hs
          cases hs
          rcases List.mem_append.1 hx with hx | hx
          · exact Or.inl ⟨es0, h0, hx⟩
          · simp only [List.mem_singleton] at hx
            exact Or.inr ⟨body, rfl, rfl, hx⟩
        · rw [NftState.elems_setElems_other s t0 t _ ht] at hs
          exact Or.inl ⟨es, hs, hx⟩
  · rename_i t0 body
    left
    cases h0 : s.elems t0 with
    | none =>
      simp only [h0] at hs
      exact ⟨es, hs, hx⟩
    | some es0 =>
      simp only [h0] at hs
      split_ifs at hs with hany
      · by_cases ht : t = t0
        · subst ht
          rw [NftState.elems_setElems_self s t _ _ h0] at hs
          cases hs
          exact ⟨es0, h0, (List.mem_filter.1 hx).1⟩
        · rw [NftState.elems_setElems_other s t0 t _ ht] at hs
          exact ⟨es, hs, hx⟩
      · exact ⟨es, hs, hx⟩
  · exact Or.inl ⟨es, hs, hx⟩
  · rename_i t0 _
    left
    split_ifs at hs
    · exact ⟨es, hs, hx⟩
    · rw [NftState.elems_append_new] at hs
      cases h0 : s.elems t with
      | some es0 =>
        rw [h0] at hs
        cases hs
        exact ⟨es, rfl, hx⟩
      | none =>
        rw [h0] at hs
        simp only at hs
        split_ifs at hs
        cases hs
        simp at hx
  · exact Or.inl ⟨es, hs, hx⟩

theorem replay_keeps (ext : List (List String × Bool)) (s fin : NftState)
    (hr : replay nftWorld s ext = some fin)
    (hnd : ∀ c ∈ ext, c.1.take 3 ≠ ["nft", "delete", "element"])
    (t : String) (es : List NftElem) (x : NftElem) (hs : s.elems t = some es) (hx : x ∈ es) :
    ∃ es', fin.elems t = some es' ∧ x ∈ es' := by
  induction ext generalizing s es with
  | nil =>
    simp only [replay, Option.some.injEq] at hr
    subst hr
    exact ⟨es, hs, hx⟩
  | cons c rest ih =>
    simp only [replay] at hr
    split_ifs at hr
    obtain ⟨es1, h1, h2⟩ := nftRun_keeps s c.1 (hnd c (List.mem_cons_self _ _)) t es x hs hx
    exact ih _ hr (fun c hc => hnd c (List.mem_cons_of_mem _ hc)) es1 h1 h2

theorem replay_add_present (ext : List (List String × Bool)) (s fin : NftState)
    (hr : replay nftWorld s ext = some fin)
    (hnd : ∀ c ∈ ext, c.1.take 3 ≠ ["nft", "delete", "element"])
    (t : String) (body : List String)
    (hc : ("nft" :: "add" :: "element" :: "inet" :: "filter" :: t :: "\x7b" :: body, true)
      ∈ ext) :
    ∃ es', fin.elems t = some es' ∧ ∃ x ∈ es', x.key = keyFields body := by
  induction ext generalizing s with
  | nil => simp at hc
  | cons c rest ih =>
    simp only [replay] at hr
    split_ifs at hr with hres
    rcases List.mem_cons.1 hc with h | h
    · subst h
      obtain ⟨es1, h1, x, hx, hk⟩ := nftRun_add_present s t body hres
      obtain ⟨es2, h2, hx2⟩ := replay_keeps rest _ fin hr
        (fun c hc => hnd c (List.mem_cons_of_mem _ hc)) t es1 x h1 hx
      exact ⟨es2, h2, x, hx2, hk⟩
    · exact ih _ hr (fun c hc => hnd c (List.mem_cons_of_mem _ hc)) h

theorem replay_frame (ext : List (List String × Bool)) (s fin : NftState)
    (hr : replay nftWorld s ext = some fin)
    (t : String) (es : List NftElem) (x : NftElem) (hs : fin.elems t = some es) (hx : x ∈ es) :
    (∃ es0, s.elems t = some es0 ∧ x ∈ es0)
      ∨ ∃ body, ("nft" :: "add" :: "element" :: "inet" :: "filter" :: t :: "\x7b" :: body, true)
          ∈ ext ∧ x = ⟨keyFields body, verdictWord body⟩ := by
  induction ext generalizing s with
  | nil =>
    simp only [replay, Option.some.injEq] at hr
    subst hr
    exact Or.inl ⟨es, hs, hx⟩
  | cons c rest ih =>
    simp only [replay] at hr
    split_ifs at hr with hres
    rcases ih _ hr with ⟨es1, h1, h2⟩ | ⟨body, h1, h2⟩
    · rcases nftRun_frame s c.1 t es1 x h1 h2 with h3 | ⟨body, h3, h4, h5⟩
      · exact Or.inl h3
      · refine Or.inr ⟨body, ?_, h5⟩
        have hc : c = ("nft" :: "add" :: "element" :: "inet" :: "filter" :: t :: "\x7b" :: body,
            true) := by
          have h6 : (nftWorld.run s c.1).1 = true := h4
          rw [hres] at h6
          exact Prod.ext h3 h6
        rw [hc]
        exact List.mem_cons_self _ _
    · exact Or.inr ⟨body, List.mem_cons_of_mem _ h1, h2⟩

theorem runUntilFail_traced {σ : Type} (w : World σ) (cmds : List (List String))
    (st : σ × List (List String × Bool)) :
    ∃ ext, (runUntilFail (loggedWorld w) cmds st).1.state.2 = st.2 ++ ext
      ∧ replay w st.1 ext = some (runUntilFail (loggedWorld w) cmds st).1.state.1
      ∧ (∀ c ∈ ext, c.1 ∈ cmds)
      ∧ ((∀ c ∈ ext, c.2 = true) → ext = cmds.map (fun a => (a, true))) := by
  induction cmds generalizing st with
  | nil => exact ⟨[], by simp [runUntilFail], rfl, by simp, fun _ => rfl⟩
  | cons argv rest ih =>
    cases hr : (w.run st.1 argv).1 with
    | false =>
      refine ⟨[(argv, false)], ?_, ?_, ?_, ?_⟩
      · simp [runUntilFail, loggedWorld, hr]
      · simp [runUntilFail, loggedWorld, hr, replay]
      · simp
      · intro h
        exact absurd (h (argv, false) (List.mem_singleton.2 rfl)) (by simp)
    | true =>
      obtain ⟨ext, h1, h0, h2, h3⟩ := ih ((w.run st.1 argv).2, st.2 ++ [(argv, true)])
      refine ⟨(argv, true) :: ext, ?_, ?_, ?_, ?_⟩
      · simp only [runUntilFail, loggedWorld, hr, if_true]
        simp only [loggedWorld] at h1
        rw [h1]
        simp
      · simp only [runUntilFail, loggedWorld, hr, if_true, replay]
        simp only [loggedWorld] at h0
        exact h0
      · intro c hc
        rcases List.mem_cons.1 hc with rfl | hc
        · exact List.mem_cons_self _ _
        · exact List.mem_cons_of_mem _ (h2 c hc)
      · intro h
        rw [List.map_cons, h3 (fun c hc => h c (List.mem_cons_of_mem _ hc))]

theorem addVerdict_traced {σ : Type} (w : World σ) (st : σ × List (List String × Bool))
    (IP MAC Iface Table : String) :
    ∃ ext, (addVerdict (loggedWorld w) st IP MAC Iface Table).state.2 = st.2 ++ ext
      ∧ replay w st.1 ext = some (addVerdict (loggedWorld w) st IP MAC Iface Table).state.1
      ∧ (∀ c ∈ ext, c.1.take 3 ≠ ["nft", "delete", "element"])
      ∧ ((∀ c ∈ ext, c.1.take 3 ≠ ["nft", "list", "map"] → c.2 = true) →
          addElementsOf ext
            = [(["nft", "add", "element", "inet", "filter", Table, "\x7b", IP, ".", Iface, ".",
                  MAC, ":", "accept", "\x7d"], true)]) := by
  obtain ⟨ext, h1, h0, h2, h3⟩ := runUntilFail_traced w
    [["nft", "add", "element", "inet", "filter", Table, "\x7b", IP, ".", Iface, ".", MAC, ":",
      "accept", "\x7d"]] st
  have hshape : ∀ c ∈ ext, c.1 = ["nft", "add", "element", "inet", "filter", Table, "\x7b", IP,
      ".", Iface, ".", MAC, ":", "accept", "\x7d"] := by
    intro c hc
    simpa using h2 c hc
  refine ⟨ext, h1, h0, ?_, ?_⟩
  · intro c hc
    rw [hshape c hc]
    simp
  · intro hok
    have hall : ∀ c ∈ ext, c.2 = true := by
      intro c hc
      apply hok c hc
      rw [hshape c hc]
      simp
    rw [h3 hall]
    simp [addElementsOf]

theorem addCustomVerdict_traced {σ : Type} (w : World σ) (st : σ × List (List String × Bool))
    (ZoneName IP MAC Iface : String) :
    ∃ ext, (addCustomVerdict (loggedWorld w) st ZoneName IP MAC Iface).state.2 = st.2 ++ ext
      ∧ replay w st.1 ext
          = some (addCustomVerdict (loggedWorld w) st ZoneName IP MAC Iface).state.1
      ∧ (∀ c ∈ ext, c.1.take 3 ≠ ["nft", "delete", "element"])
      ∧ ((∀ c ∈ ext, c.1.take 3 ≠ ["nft", "list", "map"] → c.2 = true) →
          addElementsOf ext
            = [(["nft", "add", "element", "inet", "filter", ZoneName ++ "_dst_access", "\x7b", IP,
                  ".", Iface, ":", "continue", "\x7d"], true),
               (["nft", "add", "element", "inet", "filter", ZoneName ++ "_mac_src_access", "\x7b",
                  IP, ".", Iface, ".", MAC, ":", "accept", "\x7d"], true)]) := by
  unfold addCustomVerdict
  simp only
  cases hp : (w.run st.1 ["nft", "list", "map", "inet", "filter", ZoneName ++ "_dst_access"]).1
  · have hp' : ((loggedWorld w).run st
        ["nft", "list", "map", "inet", "filter", ZoneName ++ "_dst_access"]).1 = false := hp
    simp only [hp', Bool.false_eq_true, if_false]
    obtain ⟨ext, h1, h0, h2, h3⟩ := runUntilFail_traced w
      ([["nft", "add", "map", "inet", "filter", ZoneName ++ "_mac_src_access", "\x7b", "type",
          "ipv4_addr", ".", "ifname", ".", "ether_addr", ":", "verdict", ";", "\x7d"],
       ["nft", "add", "map", "inet", "filter", ZoneName ++ "_dst_access", "\x7b", "type",
          "ipv4_addr", ".", "ifname", ":", "verdict", ";", "\x7d"],
       ["nft", "insert", "rule", "inet", "filter", "FORWARD", "ip", "daddr", ".", "oifname",
          "vmap", "@" ++ ZoneName ++ "_dst_access", "ip", "saddr", ".", "iifname", ".", "ether",
          "saddr", "vmap", "@" ++ ZoneName ++ "_mac_src_access"]] ++
      [["nft", "add", "element", "inet", "filter", ZoneName ++ "_dst_access", "\x7b", IP, ".",
          Iface, ":", "continue", "\x7d"],
       ["nft", "add", "element", "inet", "filter", ZoneName ++ "_mac_src_access", "\x7b", IP, ".",
          Iface, ".", MAC, ":", "accept", "\x7d"]])
      ((loggedWorld w).run st
        ["nft", "list", "map", "inet", "filter", ZoneName ++ "_dst_access"]).2
    have hkind : ∀ c ∈ ext, c.1.take 3 ≠ ["nft", "delete", "element"]
        ∧ c.1.take 3 ≠ ["nft", "list", "map"] := by
      intro c hc
      have := h2 c hc
      simp only [List.cons_append, List.nil_append, List.mem_cons, List.mem_singleton,
        List.not_mem_nil, or_false] at this
      rcases this with h | h | h | h | h <;> rw [h] <;> simp
    refine ⟨(["nft", "list", "map", "inet", "filter", ZoneName ++ "_dst_access"], false) :: ext,
      ?_, ?_, ?_, ?_⟩
    · rw [h1]
      simp [loggedWorld, hp]
    · simp only [replay, hp, if_true]
      exact h0
    · intro c hc
      rcases List.mem_cons.1 hc with rfl | hc
      · simp
      · exact (hkind c hc).1
    · intro hok
      have hall : ∀ c ∈ ext, c.2 = true := fun c hc =>
        hok c (List.mem_cons_of_mem _ hc) (hkind c hc).2
      rw [h3 hall]
      simp [addElementsOf, List.filter_cons]
  · have hp' : ((loggedWorld w).run st
        ["nft", "list", "map", "inet", "filter", ZoneName ++ "_dst_access"]).1 = true := hp
    simp only [hp', if_true]
    obtain ⟨ext, h1, h0, h2, h3⟩ := runUntilFail_traced w
      ([] ++
      [["nft", "add", "element", "inet", "filter", ZoneName ++ "_dst_access", "\x7b", IP, ".",
          Iface, ":", "continue", "\x7d"],
       ["nft", "add", "element", "inet", "filter", ZoneName ++ "_mac_src_access", "\x7b", IP, ".",
          Iface, ".", MAC, ":", "accept", "\x7d"]])
      ((loggedWorld w).run st
        ["nft", "list", "map", "inet", "filter", ZoneName ++ "_dst_access"]).2
    have hkind : ∀ c ∈ ext, c.1.take 3 ≠ ["nft", "delete", "element"]
        ∧ c.1.take 3 ≠ ["nft", "list", "map"] := by
      intro c hc
      have := h2 c hc
      simp only [List.nil_append, List.mem_cons, List.mem_singleton,
        List.not_mem_nil, or_false] at this
      rcases this with h | h <;> rw [h] <;> simp
    refine ⟨(["nft", "list", "map", "inet", "filter", ZoneName ++ "_dst_access"], true) :: ext,
      ?_, ?_, ?_, ?_⟩
    · rw [h1]
      simp [loggedWorld, hp]
    · simp only [replay, hp, if_true]
      exact h0
    · intro c hc
      rcases List.mem_cons.1 hc with rfl | hc
      · simp
      · exact (hkind c hc).1
    · intro hok
      have hall : ∀ c ∈ ext, c.2 = true := fun c hc =>
        hok c (List.mem_cons_of_mem _ hc) (hkind c hc).2
      rw [h3 hall]
      simp [addElementsOf, List.filter_cons]

theorem addZoneVerdict_traced {σ : Type} (w : World σ) (st : σ × List (List String × Bool))
    (zoneName IP MAC Iface : String) (hz : zoneName ≠ "isolated") :
    ∃ ext, (addZoneVerdict (loggedWorld w) st zoneName IP MAC Iface).state.2 = st.2 ++ ext
      ∧ replay w st.1 ext
          = some (addZoneVerdict (loggedWorld w) st zoneName IP MAC Iface).state.1
      ∧ (∀ c ∈ ext, c.1.take 3 ≠ ["nft", "delete", "element"])
      ∧ ((∀ c ∈ ext, c.1.take 3 ≠ ["nft", "list", "map"] → c.2 = true) →
          addElementsOf ext
            = (zoneElements zoneName IP MAC Iface).map (fun a => (a, true))) := by
  unfold addZoneVerdict zoneElements
  rw [if_neg hz]
  split_ifs
  · exact addVerdict_traced w st IP MAC Iface "dns_access"
  · exact addVerdict_traced w st IP MAC Iface "lan_access"
  · exact addVerdict_traced w st IP MAC Iface "internet_access"
  · exact addCustomVerdict_traced w st zoneName IP MAC Iface

theorem populateClients_traced {σ : Type} (w : World σ) (lowerRune : Char → Char)
    (zoneName IP MAC Iface : String) (hz : zoneName ≠ "isolated")
    (clients : List Client) (st : σ × List (List String × Bool)) :
    ∃ ext, (populateClients (loggedWorld w) lowerRune zoneName IP MAC Iface clients st).state.2
        = st.2 ++ ext
      ∧ replay w st.1 ext
          = some (populateClients (loggedWorld w) lowerRune zoneName IP MAC Iface clients
              st).state.1
      ∧ (∀ c ∈ ext, c.1.take 3 ≠ ["nft", "delete", "element"])
      ∧ ((∀ c ∈ ext, c.1.take 3 ≠ ["nft", "list", "map"] → c.2 = true) →
          addElementsOf ext
            = ((clients.filter (fun c => equalMAC lowerRune c.Mac MAC)).flatMap
                (fun _ => zoneElements zoneName IP MAC Iface)).map (fun a => (a, true))) := by
  induction clients generalizing st with
  | nil =>
    exact ⟨[], by simp [populateClients], rfl, by simp, fun _ => by simp [addElementsOf]⟩
  | cons c rest ih =>
    by_cases h : equalMAC lowerRune c.Mac MAC = true
    · obtain ⟨e1, a1, r1, n1, b1⟩ := addZoneVerdict_traced w st zoneName IP MAC Iface hz
      obtain ⟨e2, a2, r2, n2, b2⟩ :=
        ih (addZoneVerdict (loggedWorld w) st zoneName IP MAC Iface).state
      refine ⟨e1 ++ e2, ?_, ?_, ?_, ?_⟩
      · simp only [populateClients, h, if_true]
        rw [a2, a1, List.append_assoc]
      · simp only [populateClients, h, if_true]
        rw [replay_append, r1]
        exact r2
      · intro x hx
        rcases List.mem_append.1 hx with hx | hx
        · exact n1 x hx
        · exact n2 x hx
      · intro hok
        rw [addElementsOf_append, b1 (fun c hc => hok c (List.mem_append_left _ hc)),
          b2 (fun c hc => hok c (List.mem_append_right _ hc))]
        simp [List.filter_cons, h]
    · obtain ⟨e2, a2, r2, n2, b2⟩ := ih st
      refine ⟨e2, ?_, ?_, n2, ?_⟩
      · simp only [populateClients, h, if_false]
        exact a2
      · simp only [populateClients, h, if_false]
        exact r2
      · intro hok
        rw [b2 hok]
        simp [List.filter_cons, h]

theorem populateVmapEntries_traced {σ : Type} (w : World σ) (lowerRune : Char → Char)
    (IP MAC Iface : String) (zones : List ClientZone) (st : σ × List (List String × Bool)) :
    ∃ ext, (populateVmapEntries (loggedWorld w) lowerRune IP MAC Iface zones st).state.2
        = st.2 ++ ext
      ∧ replay w st.1 ext
          = some (populateVmapEntries (loggedWorld w) lowerRune IP MAC Iface zones st).state.1
      ∧ (∀ c ∈ ext, c.1.take 3 ≠ ["nft", "delete", "element"])
      ∧ ((∀ c ∈ ext, c.1.take 3 ≠ ["nft", "list", "map"] → c.2 = true) →
          addElementsOf ext
            = (zones.flatMap (fun z =>
                (z.Clients.filter (fun c => equalMAC lowerRune c.Mac MAC)).flatMap
                  (fun _ => zoneElements z.Name IP MAC Iface))).map (fun a => (a, true))) := by
  induction zones generalizing st with
  | nil =>
    exact ⟨[], by simp [populateVmapEntries], rfl, by simp, fun _ => by simp [addElementsOf]⟩
  | cons z rest ih =>
    by_cases hz : z.Name = "isolated"
    · obtain ⟨e2, a2, r2, n2, b2⟩ := ih st
      refine ⟨e2, ?_, ?_, n2, ?_⟩
      · simp only [populateVmapEntries, hz, if_true]
        exact a2
      · simp only [populateVmapEntries, hz, if_true]
        exact r2
      · intro hok
        rw [b2 hok]
        simp [zoneElements, hz]
    · obtain ⟨e1, a1, r1, n1, b1⟩ := populateClients_traced w lowerRune z.Name IP MAC Iface hz
        z.Clients st
      obtain ⟨e2, a2, r2, n2, b2⟩ := ih
        (populateClients (loggedWorld w) lowerRune z.Name IP MAC Iface z.Clients st).state
      refine ⟨e1 ++ e2, ?_, ?_, ?_, ?_⟩
      · simp only [populateVmapEntries, hz, if_false]
        rw [a2, a1, List.append_assoc]
      · simp only [populateVmapEntries, hz, if_false]
        rw [replay_append, r1]
        exact r2
      · intro x hx
        rcases List.mem_append.1 hx with hx | hx
        · exact n1 x hx
        · exact n2 x hx
      · intro hok
        rw [addElementsOf_append, b1 (fun c hc => hok c (List.mem_append_left _ hc)),
          b2 (fun c hc => hok c (List.mem_append_right _ hc))]
        simp

theorem zoneMapElems_argv (zoneName IP MAC Iface : String) (p : String × NftElem)
    (h : p ∈ zoneMapElems zoneName IP MAC Iface) :
    ∃ body, ("nft" :: "add" :: "element" :: "inet" :: "filter" :: p.1 :: "\x7b" :: body)
        ∈ zoneElements zoneName IP MAC Iface
      ∧ keyFields body = p.2.key := by
  unfold zoneMapElems at h
  unfold zoneElements
  split_ifs at h ⊢
  · simp at h
  · simp only [List.mem_singleton] at h
    subst h
    exact ⟨[IP, ".", Iface, ".", MAC, ":", "accept", "\x7d"], by simp, by simp [keyFields]⟩
  · simp only [List.mem_singleton] at h
    subst h
    exact ⟨[IP, ".", Iface, ".", MAC, ":", "accept", "\x7d"], by simp, by simp [keyFields]⟩
  · simp only [List.mem_singleton] at h
    subst h
    exact ⟨[IP, ".", Iface, ".", MAC, ":", "accept", "\x7d"], by simp, by simp [keyFields]⟩
  · simp only [List.mem_cons, List.mem_singleton, List.not_mem_nil, or_false] at h
    rcases h with h | h
    · subst h
      exact ⟨[IP, ".", Iface, ":", "continue", "\x7d"], by simp, by simp [keyFields]⟩
    · subst h
      exact ⟨[IP, ".", Iface, ".", MAC, ":", "accept", "\x7d"], by simp, by simp [keyFields]⟩

theorem zoneElements_elem (zoneName IP MAC Iface t : String) (body : List String)
    (h : ("nft" :: "add" :: "element" :: "inet" :: "filter" :: t :: "\x7b" :: body)
      ∈ zoneElements zoneName IP MAC Iface) :
    (t, (⟨keyFields body, verdictWord body⟩ : NftElem)) ∈ zoneMapElems zoneName IP MAC Iface := by
  unfold zoneElements at h
  unfold zoneMapElems
  split_ifs at h ⊢
  · simp at h
  · simp only [List.mem_singleton, List.cons.injEq, true_and] at h
    obtain ⟨rfl, rfl⟩ := h
    simp [keyFields, verdictWord]
  · simp only [List.mem_singleton, List.cons.injEq, true_and] at h
    obtain ⟨rfl, rfl⟩ := h
    simp [keyFields, verdictWord]
  · simp only [List.mem_singleton, List.cons.injEq, true_and] at h
    obtain ⟨rfl, rfl⟩ := h
    simp [keyFields, verdictWord]
  · simp only [List.mem_cons, List.mem_singleton, List.cons.injEq, true_and, List.not_mem_nil,
      or_false] at h
    rcases h with ⟨rfl, rfl⟩ | ⟨rfl, rfl⟩
    · simp [keyFields, verdictWord]
    · simp [keyFields, verdictWord]

theorem mem_addElementsOf (log : List (List String × Bool)) (c : List String × Bool) :
    c ∈ addElementsOf log ↔ c ∈ log ∧ c.1.take 3 = ["nft", "add", "element"] := by
  simp [addElementsOf, List.mem_filter]

/-- In the packet-filter tool, when every command that Repopulate submits other than the
probe succeeds: every element of a zone that contains the MAC is in its map afterwards; every
element that a map holds afterwards was there before or is an element of a zone that
contains the MAC; and every element that was there before is still there. -/
theorem populateVmapEntries_nft (lowerRune : Char → Char) (IP MAC Iface : String)
    (zones : List ClientZone) (s0 : NftState)
    (hok : ∀ c ∈ (populateVmapEntries (loggedWorld nftWorld) lowerRune IP MAC Iface zones
        (s0, [])).state.2, c.1.take 3 ≠ ["nft", "list", "map"] → c.2 = true) :
    (∀ z ∈ zones, (∃ m ∈ z.Clients, equalMAC lowerRune m.Mac MAC = true) →
        ∀ p ∈ zoneMapElems z.Name IP MAC Iface,
          ∃ es, (populateVmapEntries (loggedWorld nftWorld) lowerRune IP MAC Iface zones
              (s0, [])).state.1.elems p.1 = some es ∧ ∃ x ∈ es, x.key = p.2.key)
    ∧ (∀ t es x, (populateVmapEntries (loggedWorld nftWorld) lowerRune IP MAC Iface zones
          (s0, [])).state.1.elems t = some es → x ∈ es →
        (∃ es0, s0.elems t = some es0 ∧ x ∈ es0)
          ∨ ∃ z ∈ zones, (∃ m ∈ z.Clients, equalMAC lowerRune m.Mac MAC = true)
              ∧ (t, x) ∈ zoneMapElems z.Name IP MAC Iface)
    ∧ (∀ t es0 x, s0.elems t = some es0 → x ∈ es0 →
        ∃ es, (populateVmapEntries (loggedWorld nftWorld) lowerRune IP MAC Iface zones
            (s0, [])).state.1.elems t = some es ∧ x ∈ es) := by
  obtain ⟨ext, h1, hrep, hnd, hadd⟩ :=
    populateVmapEntries_traced nftWorld lowerRune IP MAC Iface zones (s0, [])
  simp only [List.nil_append] at h1
  rw [h1] at hok
  have hexp := hadd hok
  have hmem : ∀ argv : List String, (argv, true) ∈ addElementsOf ext ↔
      ∃ z ∈ zones, (∃ m ∈ z.Clients, equalMAC lowerRune m.Mac MAC = true)
        ∧ argv ∈ zoneElements z.Name IP MAC Iface := by
    intro argv
    rw [hexp]
    simp only [List.mem_map, List.mem_flatMap, List.mem_filter, Prod.mk.injEq, and_true,
      exists_eq_right]
    constructor
    · rintro ⟨z, hz, m, ⟨hm, he⟩, ha⟩
      exact ⟨z, hz, ⟨m, hm, he⟩, ha⟩
    · rintro ⟨z, hz, ⟨m, hm, he⟩, ha⟩
      exact ⟨z, hz, m, ⟨hm, he⟩, ha⟩
  refine ⟨?_, ?_, ?_⟩
  · intro z hz hm p hp
    obtain ⟨body, hargv, hkey⟩ := zoneMapElems_argv z.Name IP MAC Iface p hp
    have hin := ((mem_addElementsOf _ _).1 ((hmem _).2 ⟨z, hz, hm, hargv⟩)).1
    obtain ⟨es, hes, x, hx, hk⟩ := replay_add_present ext s0 _ hrep hnd p.1 body hin
    exact ⟨es, hes, x, hx, hk.trans hkey⟩
  · intro t es x hes hx
    rcases replay_frame ext s0 _ hrep t es x hes hx with h | ⟨body, hin, rfl⟩
    · exact Or.inl h
    · obtain ⟨z, hz, hm, ha⟩ := (hmem _).1 ((mem_addElementsOf _ _).2 ⟨hin, rfl⟩)
      exact Or.inr ⟨z, hz, hm, zoneElements_elem _ _ _ _ _ _ ha⟩
  · intro t es0 x hes0 hx
    exact replay_keeps ext s0 _ hrep hnd t es0 x hes0 hx

/-- C12, refuted as stated: the elements are added only when the tool accepts the commands.
(1) The device is in the zone `lan` and the tool has no map `lan_access`: the one command
submitted fails and no map holds an element afterwards. (2) The device is in the custom zone
`guests`, the probe for `guests_dst_access` fails and so does the first `add map`: the
function returns and no `add element` command is submitted. (3) The tool has the map
`guests_dst_access` and no map `guests_mac_src_access`: the `continue` element is added and the
`accept` element is not. -/
theorem C12_counterexample_tool_failure :
    (populateVmapEntries (loggedWorld nftWorld) Char.toLower "10.0.0.5" "aa:bb:cc:dd:ee:02"
        "br-lan" [⟨"lan", [⟨"aa:bb:cc:dd:ee:02", "phone"⟩]⟩]
        ([("dns_access", [])], [])).state
      = ([("dns_access", [])],
         [(["nft", "add", "element", "inet", "filter", "lan_access", "\x7b", "10.0.0.5", ".",
            "br-lan", ".", "aa:bb:cc:dd:ee:02", ":", "accept", "\x7d"], false)])
    ∧ (populateVmapEntries
        (loggedWorld (fixedWorld []
          [["nft", "list", "map", "inet", "filter", "guests_dst_access"],
           ["nft", "add", "map", "inet", "filter", "guests_mac_src_access", "\x7b", "type",
            "ipv4_addr", ".", "ifname", ".", "ether_addr", ":", "verdict", ";", "\x7d"]]))
        Char.toLower "10.0.0.5" "aa:bb:cc:dd:ee:02" "br-lan"
        [⟨"guests", [⟨"aa:bb:cc:dd:ee:02", "phone"⟩]⟩] ((), [])).state.2
      = [(["nft", "list", "map", "inet", "filter", "guests_dst_access"], false),
         (["nft", "add", "map", "inet", "filter", "guests_mac_src_access", "\x7b", "type",
            "ipv4_addr", ".", "ifname", ".", "ether_addr", ":", "verdict", ";", "\x7d"], false)]
    ∧ (populateVmapEntries (loggedWorld nftWorld) Char.toLower "10.0.0.5" "aa:bb:cc:dd:ee:02"
        "br-lan" [⟨"guests", [⟨"aa:bb:cc:dd:ee:02", "phone"⟩]⟩]
        ([("guests_dst_access", [])], [])).state
      = ([("guests_dst_access", [⟨["10.0.0.5", "br-lan"], "continue"⟩])],
         [(["nft", "list", "map", "inet", "filter", "guests_dst_access"], true),
          (["nft", "add", "element", "inet", "filter", "guests_dst_access", "\x7b", "10.0.0.5",
            ".", "br-lan", ":", "continue", "\x7d"], true),
          (["nft", "add", "element", "inet", "filter", "guests_mac_src_access", "\x7b",
            "10.0.0.5", ".", "br-lan", ".", "aa:bb:cc:dd:ee:02", ":", "accept", "\x7d"],
            false)]) := by
  refine ⟨by decide, by decide, by decide⟩

/-- C12, amended. For every world, every zone list and every `(ip, mac, iface)`: when every
command that Repopulate submits, other than the probe `nft list map`, succeeds, the
`add element` commands that the world received are, for each zone in order and for each entry
of it whose MAC equals `mac` ignoring case and surrounding white space, the elements of that
zone, each accepted: none for `isolated`, one `accept` element `(ip, iface, mac)` in
`dns_access`, `lan_access` or `internet_access` for `dns`, `lan` or `wan`, and for any other
zone one `continue` element `(ip, iface)` in `<zone>_dst_access` and one `accept` element
`(ip, iface, mac)` in `<zone>_mac_src_access`. An element is added exactly when it is an
element of a zone that contains `mac`. In the packet-filter tool, under the same condition,
every such element is in its map afterwards, every element a map holds afterwards was there
before or is such an element, and every element that was there before is still there. -/
theorem C12_repopulate_adds_zone_elements {σ : Type} (w : World σ) (lowerRune : Char → Char)
    (s : σ) (zones : List ClientZone) (IP MAC Iface : String)
    (hok : ∀ c ∈ (populateVmapEntries (loggedWorld w) lowerRune IP MAC Iface zones
        (s, [])).state.2, c.1.take 3 ≠ ["nft", "list", "map"] → c.2 = true) :
    addElementsOf (populateVmapEntries (loggedWorld w) lowerRune IP MAC Iface zones
        (s, [])).state.2
      = (zones.flatMap (fun z =>
          (z.Clients.filter (fun c => equalMAC lowerRune c.Mac MAC)).flatMap
            (fun _ => zoneElements z.Name IP MAC Iface))).map (fun argv => (argv, true))
    ∧ (∀ c,
        c ∈ addElementsOf (populateVmapEntries (loggedWorld w) lowerRune IP MAC Iface zones
            (s, [])).state.2
          ↔ c.2 = true ∧ ∃ z ∈ zones, (∃ m ∈ z.Clients, equalMAC lowerRune m.Mac MAC = true)
              ∧ c.1 ∈ zoneElements z.Name IP MAC Iface)
    ∧ zoneElements "isolated" IP MAC Iface = []
    ∧ zoneElements "dns" IP MAC Iface
        = [["nft", "add", "element", "inet", "filter", "dns_access", "\x7b", IP, ".", Iface, ".",
            MAC, ":", "accept", "\x7d"]]
    ∧ zoneElements "lan" IP MAC Iface
        = [["nft", "add", "element", "inet", "filter", "lan_access", "\x7b", IP, ".", Iface, ".",
            MAC, ":", "accept", "\x7d"]]
    ∧ zoneElements "wan" IP MAC Iface
        = [["nft", "add", "element", "inet", "filter", "internet_access", "\x7b", IP, ".", Iface,
            ".", MAC, ":", "accept", "\x7d"]]
    ∧ (∀ z, z ∉ default_zones → zoneElements z IP MAC Iface
        = [["nft", "add", "element", "inet", "filter", z ++ "_dst_access", "\x7b", IP, ".", Iface,
              ":", "continue", "\x7d"],
           ["nft", "add", "element", "inet", "filter", z ++ "_mac_src_access", "\x7b", IP, ".",
              Iface, ".", MAC, ":", "accept", "\x7d"]])
    ∧ (∀ s0 : NftState,
        (∀ c ∈ (populateVmapEntries (loggedWorld nftWorld) lowerRune IP MAC Iface zones
            (s0, [])).state.2, c.1.take 3 ≠ ["nft", "list", "map"] → c.2 = true) →
        (∀ z ∈ zones, (∃ m ∈ z.Clients, equalMAC lowerRune m.Mac MAC = true) →
            ∀ p ∈ zoneMapElems z.Name IP MAC Iface,
              ∃ es, (populateVmapEntries (loggedWorld nftWorld) lowerRune IP MAC Iface zones
                  (s0, [])).state.1.elems p.1 = some es ∧ ∃ x ∈ es, x.key = p.2.key)
        ∧ (∀ t es x, (populateVmapEntries (loggedWorld nftWorld) lowerRune IP MAC Iface zones
              (s0, [])).state.1.elems t = some es → x ∈ es →
            (∃ es0, s0.elems t = some es0 ∧ x ∈ es0)
              ∨ ∃ z ∈ zones, (∃ m ∈ z.Clients, equalMAC lowerRune m.Mac MAC = true)
                  ∧ (t, x) ∈ zoneMapElems z.Name IP MAC Iface)
        ∧ (∀ t es0 x, s0.elems t = some es0 → x ∈ es0 →
            ∃ es, (populateVmapEntries (loggedWorld nftWorld) lowerRune IP MAC Iface zones
                (s0, [])).state.1.elems t = some es ∧ x ∈ es)) := by
  obtain ⟨ext, h1, _, _, h2⟩ :=
    populateVmapEntries_traced w lowerRune IP MAC Iface zones (s, [])
  simp only [List.nil_append] at h1
  rw [h1] at hok ⊢
  have h := h2 hok
  refine ⟨h, ?_, by simp [zoneElements], by simp [zoneElements], by simp [zoneElements],
    by simp [zoneElements], ?_, fun s0 h0 => populateVmapEntries_nft lowerRune IP MAC Iface zones
      s0 h0⟩
  · intro c
    rw [h]
    simp only [List.mem_map, List.mem_flatMap, List.mem_filter]
    constructor
    · rintro ⟨argv, ⟨z, hz, m, ⟨hm, he⟩, ha⟩, rfl⟩
      exact ⟨rfl, z, hz, ⟨m, hm, he⟩, ha⟩
    · rintro ⟨hc, z, hz, ⟨m, hm, he⟩, ha⟩
      refine ⟨c.1, ⟨z, hz, m, ⟨hm, he⟩, ha⟩, ?_⟩
      rw [← hc]
  · intro z hz
    simp only [default_zones, List.mem_cons, List.mem_singleton, List.not_mem_nil, or_false,
      not_or] at hz
    simp [zoneElements, hz.1, hz.2.1, hz.2.2.1, hz.2.2.2]

/-- C12, amended, in the packet-filter tool holding the three builtin maps, for the device
`AA:BB:CC:DD:EE:02` in the zones `isolated`, `lan` and `guests` and absent from `dns`: the
probe for `guests_dst_access` fails, the maps of `guests` are created, and the tool receives
and accepts the three `add element` commands. -/
theorem C12_repopulate_adds_zone_elements_witness :
    addElementsOf (populateVmapEntries (loggedWorld nftWorld) Char.toLower "10.0.0.5"
        "AA:BB:CC:DD:EE:02" "br-lan"
        [⟨"isolated", [⟨"aa:bb:cc:dd:ee:02", "phone"⟩]⟩,
         ⟨"lan", [⟨"aa:bb:cc:dd:ee:02", "phone"⟩]⟩,
         ⟨"dns", [⟨"aa:bb:cc:dd:ee:07", "tv"⟩]⟩,
         ⟨"guests", [⟨"aa:bb:cc:dd:ee:02", "phone"⟩]⟩]
        ([("internet_access", []), ("dns_access", []), ("lan_access", [])], [])).state.2
      = [(["nft", "add", "element", "inet", "filter", "lan_access", "\x7b", "10.0.0.5", ".",
            "br-lan", ".", "AA:BB:CC:DD:EE:02", ":", "accept", "\x7d"], true),
         (["nft", "add", "element", "inet", "filter", "guests_dst_access", "\x7b", "10.0.0.5", ".",
            "br-lan", ":", "continue", "\x7d"], true),
         (["nft", "add", "element", "inet", "filter", "guests_mac_src_access", "\x7b", "10.0.0.5",
            ".", "br-lan", ".", "AA:BB:CC:DD:EE:02", ":", "accept", "\x7d"], true)] :=
  (C12_repopulate_adds_zone_elements nftWorld Char.toLower
    [("internet_access", []), ("dns_access", []), ("lan_access", [])]
    [⟨"isolated", [⟨"aa:bb:cc:dd:ee:02", "phone"⟩]⟩,
     ⟨"lan", [⟨"aa:bb:cc:dd:ee:02", "phone"⟩]⟩,
     ⟨"dns", [⟨"aa:bb:cc:dd:ee:07", "tv"⟩]⟩,
     ⟨"guests", [⟨"aa:bb:cc:dd:ee:02", "phone"⟩]⟩] "10.0.0.5" "AA:BB:CC:DD:EE:02" "br-lan"
    (by decide)).1.trans (by decide)

/-- The maps of the tool after the repopulation of the scenario above: the element of the
device is in `lan_access`, `guests_dst_access` and `guests_mac_src_access`. -/
theorem populateVmapEntries_scenario_maps :
    (populateVmapEntries (loggedWorld nftWorld) Char.toLower "10.0.0.5"
        "AA:BB:CC:DD:EE:02" "br-lan"
        [⟨"isolated", [⟨"aa:bb:cc:dd:ee:02", "phone"⟩]⟩,
         ⟨"lan", [⟨"aa:bb:cc:dd:ee:02", "phone"⟩]⟩,
         ⟨"dns", [⟨"aa:bb:cc:dd:ee:07", "tv"⟩]⟩,
         ⟨"guests", [⟨"aa:bb:cc:dd:ee:02", "phone"⟩]⟩]
        ([("internet_access", []), ("dns_access", []), ("lan_access", [])], [])).state.1
      = [("internet_access", []), ("dns_access", []),
         ("lan_access", [⟨["10.0.0.5", "br-lan", "AA:BB:CC:DD:EE:02"], "accept"⟩]),
         ("guests_mac_src_access", [⟨["10.0.0.5", "br-lan", "AA:BB:CC:DD:EE:02"], "accept"⟩]),
         ("guests_dst_access", [⟨["10.0.0.5", "br-lan"], "continue"⟩])] := by
  decide

/-! ## Removing a member and re-syncing -/

/-- C11 (code defect). The device `aa:bb:cc:dd:ee:02` is the only member of `lan` and of the
custom zone `guests`, is in the ARP table and in `dhcp_access`. A DHCP sync of `(10.0.0.5,
aa:bb:cc:dd:ee:02, br-lan)` leaves its element in `lan_access`, `guests_mac_src_access` and
`guests_dst_access`. `RemoveMember("guests", aa:bb:cc:dd:ee:02)` empties and so deletes the
zone; the re-sync it triggers takes the map names from the saved zone list, visits only the
three builtin maps, and leaves both elements of the `guests` maps in place. -/
theorem C11_last_member_elements_remain :
    (dhcpUpdate nftWorld Char.toLower ""
        [⟨"lan", [⟨"aa:bb:cc:dd:ee:02", "phone"⟩]⟩, ⟨"guests", [⟨"aa:bb:cc:dd:ee:02", "phone"⟩]⟩]
        [("internet_access", []), ("dns_access", []), ("lan_access", []),
         ("dhcp_access", [⟨["br-lan", "aa:bb:cc:dd:ee:02"], "accept"⟩])]
        ⟨"10.0.0.5", "aa:bb:cc:dd:ee:02", "phone", "br-lan", "10.0.0.6"⟩).map (fun r => r.state)
      = some
        [("internet_access", []), ("dns_access", []),
         ("lan_access", [⟨["10.0.0.5", "br-lan", "aa:bb:cc:dd:ee:02"], "accept"⟩]),
         ("dhcp_access", [⟨["br-lan", "aa:bb:cc:dd:ee:02"], "accept"⟩]),
         ("guests_mac_src_access", [⟨["10.0.0.5", "br-lan", "aa:bb:cc:dd:ee:02"], "accept"⟩]),
         ("guests_dst_access", [⟨["10.0.0.5", "br-lan"], "continue"⟩])]
    ∧ RemoveMember Char.toLower
        [⟨"lan", [⟨"aa:bb:cc:dd:ee:02", "phone"⟩]⟩, ⟨"guests", [⟨"aa:bb:cc:dd:ee:02", "phone"⟩]⟩]
        "guests" "aa:bb:cc:dd:ee:02"
      = [⟨"lan", [⟨"aa:bb:cc:dd:ee:02", "phone"⟩]⟩]
    ∧ (delZoneMemberRefresh nftWorld Char.toLower ""
        (some ("IP address       HW type     Flags       HW address            Mask     Device\n"
          ++ "10.0.0.5         0x1         0x2         aa:bb:cc:dd:ee:02     *        br-lan\n"))
        [⟨"lan", [⟨"aa:bb:cc:dd:ee:02", "phone"⟩]⟩, ⟨"guests", [⟨"aa:bb:cc:dd:ee:02", "phone"⟩]⟩]
        [("internet_access", []), ("dns_access", []),
         ("lan_access", [⟨["10.0.0.5", "br-lan", "aa:bb:cc:dd:ee:02"], "accept"⟩]),
         ("dhcp_access", [⟨["br-lan", "aa:bb:cc:dd:ee:02"], "accept"⟩]),
         ("guests_mac_src_access", [⟨["10.0.0.5", "br-lan", "aa:bb:cc:dd:ee:02"], "accept"⟩]),
         ("guests_dst_access", [⟨["10.0.0.5", "br-lan"], "continue"⟩])]
        "guests" ⟨"aa:bb:cc:dd:ee:02", ""⟩).map
          (fun r => (r.flushed.map MapFlush.name, r.state))
      = some (["internet_access", "dns_access", "lan_access"],
        [("internet_access", []), ("dns_access", []),
         ("lan_access", [⟨["10.0.0.5", "br-lan", "aa:bb:cc:dd:ee:02"], "accept"⟩]),
         ("dhcp_access", [⟨["br-lan", "aa:bb:cc:dd:ee:02"], "accept"⟩]),
         ("guests_mac_src_access", [⟨["10.0.0.5", "br-lan", "aa:bb:cc:dd:ee:02"], "accept"⟩]),
         ("guests_dst_access", [⟨["10.0.0.5", "br-lan"], "continue"⟩])]) := by
  decide

/-- When the zone `guests` keeps another member, the same removal and re-sync does visit the
two `guests` maps and deletes both elements of the device, and `lan_access` ends with the
element it had. -/
theorem delZoneMemberRefresh_zone_kept :
    (delZoneMemberRefresh nftWorld Char.toLower ""
        (some ("IP address       HW type     Flags       HW address            Mask     Device\n"
          ++ "10.0.0.5         0x1         0x2         aa:bb:cc:dd:ee:02     *        br-lan\n"))
        [⟨"lan", [⟨"aa:bb:cc:dd:ee:02", "phone"⟩]⟩,
         ⟨"guests", [⟨"aa:bb:cc:dd:ee:02", "phone"⟩, ⟨"aa:bb:cc:dd:ee:03", "tv"⟩]⟩]
        [("internet_access", []), ("dns_access", []),
         ("lan_access", [⟨["10.0.0.5", "br-lan", "aa:bb:cc:dd:ee:02"], "accept"⟩]),
         ("dhcp_access", [⟨["br-lan", "aa:bb:cc:dd:ee:02"], "accept"⟩]),
         ("guests_mac_src_access", [⟨["10.0.0.5", "br-lan", "aa:bb:cc:dd:ee:02"], "accept"⟩]),
         ("guests_dst_access", [⟨["10.0.0.5", "br-lan"], "continue"⟩])]
        "guests" ⟨"aa:bb:cc:dd:ee:02", ""⟩).map
          (fun r => (r.flushed.map MapFlush.name, r.state))
      = some (["internet_access", "dns_access", "lan_access", "guests_mac_src_access",
          "guests_dst_access"],
        [("internet_access", []), ("dns_access", []),
         ("lan_access", [⟨["10.0.0.5", "br-lan", "aa:bb:cc:dd:ee:02"], "accept"⟩]),
         ("dhcp_access", [⟨["br-lan", "aa:bb:cc:dd:ee:02"], "accept"⟩]),
         ("guests_mac_src_access", []),
         ("guests_dst_access", [])]) := by
  decide

/-! ## MAC strings with the same canonical form -/

theorem equalMAC_congr (lowerRune : Char → Char) (a b : String)
    (hab : trimLower lowerRune a = trimLower lowerRune b) (e : String) :
    equalMAC lowerRune e a = equalMAC lowerRune e b := by
  simp [equalMAC, hab]

theorem removeClient_congr (lowerRune : Char → Char) (a b : String)
    (hab : trimLower lowerRune a = trimLower lowerRune b) (cs : List Client) :
    removeClient lowerRune a cs = removeClient lowerRune b cs := by
  induction cs with
  | nil => rfl
  | cons e rest ih => simp [removeClient, equalMAC_congr lowerRune a b hab, ih]

theorem delZoneLoop_congr (lowerRune : Char → Char) (a b : String)
    (hab : trimLower lowerRune a = trimLower lowerRune b) (name ca cb : String)
    (zones : List ClientZone) :
    delZoneLoop lowerRune name ⟨a, ca⟩ zones = delZoneLoop lowerRune name ⟨b, cb⟩ zones := by
  induction zones with
  | nil => rfl
  | cons z rest ih => simp [delZoneLoop, removeClient_congr lowerRune a b hab, ih]

theorem addClient_canonical (lowerRune : Char → Char) (a b : String)
    (hab : trimLower lowerRune a = trimLower lowerRune b) (c : String) (cs : List Client) :
    (addClient lowerRune ⟨a, c⟩ cs).map (fun x => ({ x with Mac := trimLower lowerRune x.Mac } : Client))
      = (addClient lowerRune ⟨b, c⟩ cs).map
          (fun x => ({ x with Mac := trimLower lowerRune x.Mac } : Client)) := by
  induction cs with
  | nil => simp [addClient, hab]
  | cons e rest ih =>
    by_cases h : equalMAC lowerRune e.Mac b = true
    · by_cases hc : e.Comment = c <;>
        simp [addClient, equalMAC_congr lowerRune a b hab, h, hc]
    · simp [addClient, equalMAC_congr lowerRune a b hab, h, ih]

theorem addZoneLoop_canonical (lowerRune : Char → Char) (a b : String)
    (hab : trimLower lowerRune a = trimLower lowerRune b) (name c : String)
    (zones : List ClientZone) :
    canonicalMacs lowerRune (addZoneLoop lowerRune name ⟨a, c⟩ zones)
      = canonicalMacs lowerRune (addZoneLoop lowerRune name ⟨b, c⟩ zones) := by
  induction zones with
  | nil => simp [addZoneLoop, canonicalMacs, hab]
  | cons z rest ih =>
    by_cases h : z.Name = name
    · simp only [addZoneLoop, h, if_true, canonicalMacs, List.map_cons]
      rw [addClient_canonical lowerRune a b hab]
    · simp only [addZoneLoop, h, if_false, canonicalMacs, List.map_cons] at ih ⊢
      rw [ih]

theorem flushEntries_congr {σ : Type} (w : World σ) (lowerRune : Char → Char)
    (IP a b Ifname : String) (matchInterface : Bool) (name verdict : String)
    (h : ∀ e, flushMatch lowerRune IP a Ifname matchInterface e
      = flushMatch lowerRune IP b Ifname matchInterface e)
    (entries : List verdictEntry) (s : σ) :
    flushEntries w lowerRune IP a Ifname matchInterface name verdict entries s
      = flushEntries w lowerRune IP b Ifname matchInterface name verdict entries s := by
  induction entries generalizing s with
  | nil => rfl
  | cons e rest ih => simp only [flushEntries, h e, ih]

theorem flushVmaps_congr {σ : Type} (w : World σ) (lowerRune : Char → Char)
    (IP a b Ifname : String) (matchInterface : Bool)
    (h : ∀ e, flushMatch lowerRune IP a Ifname matchInterface e
      = flushMatch lowerRune IP b Ifname matchInterface e)
    (names : List String) (s : σ) :
    flushVmaps w lowerRune s IP a Ifname names matchInterface
      = flushVmaps w lowerRune s IP b Ifname names matchInterface := by
  induction names generalizing s with
  | nil => rfl
  | cons name rest ih =>
    rw [flushVmaps, flushVmaps]
    cases getNFTVerdictMap name (w.listMap s name) with
    | none => rfl
    | some entries =>
      simp only [flushEntries_congr w lowerRune IP a b Ifname matchInterface name _ h, ih]

theorem setPSK_keyed (file : PSKMap) (mac typ psk comment generated : String)
    (hm : mac ≠ "") (hacc : (SetCredential file mac typ psk comment generated).code = 200) :
    (SetCredential file mac typ psk comment generated).persisted
      = file.put mac ⟨typ, mac, if psk = "" then generated else psk, comment⟩ := by
  unfold SetCredential setPSK at hacc ⊢
  by_cases h1 : typ ≠ "sae" ∧ typ ≠ "wpa2"
  · simp [h1] at hacc
  · by_cases h2 : psk.utf8ByteSize > 0 ∧ psk.utf8ByteSize < 8
    · simp [h1, h2] at hacc
    · simp only [h1, h2, if_false]
      by_cases hp : psk = ""
      · subst hp
        simp [hm]
      · simp [hp, hm]

/-- C16, refuted as stated. `AA:BB:CC:DD:EE:02` and `aa:bb:cc:dd:ee:02` have the same canonical
form. (1) `SetCredential` stores the credential under the string as given: after a call with
the upper-case MAC the lower-case key is absent. (2) With the lower-case key stored and a
pending credential, `OnAuthSuccess` for the upper-case MAC does not find the key and claims
the pending credential; for the lower-case MAC it changes nothing. (3) `RemoveMember` from
`guests` persists the same zone list for both, and the re-sync it triggers finds the ARP
entry, and flushes the two `guests` maps, only for the lower-case MAC. (4) The strings of one
space and of no character have the same canonical form, and a flush for the first deletes
the element without MAC that a flush for the second keeps. -/
theorem C16_counterexample_lookups_differ :
    trimLower Char.toLower "AA:BB:CC:DD:EE:02" = trimLower Char.toLower "aa:bb:cc:dd:ee:02"
    ∧ (SetCredential [] "AA:BB:CC:DD:EE:02" "sae" "password1" ""
        "Zm9vYmFyYmF6cXV4MTIzNA").persisted.get "aa:bb:cc:dd:ee:02" = none
    ∧ (SetCredential [] "aa:bb:cc:dd:ee:02" "sae" "password1" ""
        "Zm9vYmFyYmF6cXV4MTIzNA").persisted.get "aa:bb:cc:dd:ee:02"
      = some ⟨"sae", "aa:bb:cc:dd:ee:02", "password1", ""⟩
    ∧ (OnAuthSuccess
        [("pending", ⟨"sae", "", "Zm9vYmFyYmF6cXV4MTIzNA", ""⟩),
         ("aa:bb:cc:dd:ee:02", ⟨"sae", "aa:bb:cc:dd:ee:02", "password1", ""⟩)]
        "wlan0" "AP-STA-CONNECTED" "AA:BB:CC:DD:EE:02").persisted
      = [("AA:BB:CC:DD:EE:02", ⟨"sae", "AA:BB:CC:DD:EE:02", "Zm9vYmFyYmF6cXV4MTIzNA", ""⟩),
         ("aa:bb:cc:dd:ee:02", ⟨"sae", "aa:bb:cc:dd:ee:02", "password1", ""⟩)]
    ∧ (OnAuthSuccess
        [("pending", ⟨"sae", "", "Zm9vYmFyYmF6cXV4MTIzNA", ""⟩),
         ("aa:bb:cc:dd:ee:02", ⟨"sae", "aa:bb:cc:dd:ee:02", "password1", ""⟩)]
        "wlan0" "AP-STA-CONNECTED" "aa:bb:cc:dd:ee:02").persisted
      = [("pending", ⟨"sae", "", "Zm9vYmFyYmF6cXV4MTIzNA", ""⟩),
         ("aa:bb:cc:dd:ee:02", ⟨"sae", "aa:bb:cc:dd:ee:02", "password1", ""⟩)]
    ∧ RemoveMember Char.toLower
        [⟨"lan", [⟨"aa:bb:cc:dd:ee:02", "phone"⟩]⟩,
         ⟨"guests", [⟨"aa:bb:cc:dd:ee:02", "phone"⟩, ⟨"aa:bb:cc:dd:ee:03", "tv"⟩]⟩]
        "guests" "AA:BB:CC:DD:EE:02"
      = RemoveMember Char.toLower
        [⟨"lan", [⟨"aa:bb:cc:dd:ee:02", "phone"⟩]⟩,
         ⟨"guests", [⟨"aa:bb:cc:dd:ee:02", "phone"⟩, ⟨"aa:bb:cc:dd:ee:03", "tv"⟩]⟩]
        "guests" "aa:bb:cc:dd:ee:02"
    ∧ (delZoneMemberRefresh nftWorld Char.toLower ""
        (some ("IP address       HW type     Flags       HW address            Mask     Device\n"
          ++ "10.0.0.5         0x1         0x2         aa:bb:cc:dd:ee:02     *        br-lan\n"))
        [⟨"lan", [⟨"aa:bb:cc:dd:ee:02", "phone"⟩]⟩,
         ⟨"guests", [⟨"aa:bb:cc:dd:ee:02", "phone"⟩, ⟨"aa:bb:cc:dd:ee:03", "tv"⟩]⟩]
        [("internet_access", []), ("dns_access", []),
         ("lan_access", [⟨["10.0.0.5", "br-lan", "aa:bb:cc:dd:ee:02"], "accept"⟩]),
         ("dhcp_access", [⟨["br-lan", "aa:bb:cc:dd:ee:02"], "accept"⟩]),
         ("guests_mac_src_access", [⟨["10.0.0.5", "br-lan", "aa:bb:cc:dd:ee:02"], "accept"⟩]),
         ("guests_dst_access", [⟨["10.0.0.5", "br-lan"], "continue"⟩])]
        "guests" ⟨"AA:BB:CC:DD:EE:02", ""⟩).map
          (fun r => (r.flushed.map MapFlush.name, r.state))
      = some ([],
        [("internet_access", []), ("dns_access", []),
         ("lan_access", [⟨["10.0.0.5", "br-lan", "aa:bb:cc:dd:ee:02"], "accept"⟩]),
         ("dhcp_access", [⟨["br-lan", "aa:bb:cc:dd:ee:02"], "accept"⟩]),
         ("guests_mac_src_access", [⟨["10.0.0.5", "br-lan", "aa:bb:cc:dd:ee:02"], "accept"⟩]),
         ("guests_dst_access", [⟨["10.0.0.5", "br-lan"], "continue"⟩])])
    ∧ (delZoneMemberRefresh nftWorld Char.toLower ""
        (some ("IP address       HW type     Flags       HW address            Mask     Device\n"
          ++ "10.0.0.5         0x1         0x2         aa:bb:cc:dd:ee:02     *        br-lan\n"))
        [⟨"lan", [⟨"aa:bb:cc:dd:ee:02", "phone"⟩]⟩,
         ⟨"guests", [⟨"aa:bb:cc:dd:ee:02", "phone"⟩, ⟨"aa:bb:cc:dd:ee:03", "tv"⟩]⟩]
        [("internet_access", []), ("dns_access", []),
         ("lan_access", [⟨["10.0.0.5", "br-lan", "aa:bb:cc:dd:ee:02"], "accept"⟩]),
         ("dhcp_access", [⟨["br-lan", "aa:bb:cc:dd:ee:02"], "accept"⟩]),
         ("guests_mac_src_access", [⟨["10.0.0.5", "br-lan", "aa:bb:cc:dd:ee:02"], "accept"⟩]),
         ("guests_dst_access", [⟨["10.0.0.5", "br-lan"], "continue"⟩])]
        "guests" ⟨"aa:bb:cc:dd:ee:02", ""⟩).map
          (fun r => (r.flushed.map MapFlush.name, r.state))
      = some (["internet_access", "dns_access", "lan_access", "guests_mac_src_access",
          "guests_dst_access"],
        [("internet_access", []), ("dns_access", []),
         ("lan_access", [⟨["10.0.0.5", "br-lan", "aa:bb:cc:dd:ee:02"], "accept"⟩]),
         ("dhcp_access", [⟨["br-lan", "aa:bb:cc:dd:ee:02"], "accept"⟩]),
         ("guests_mac_src_access", []),
         ("guests_dst_access", [])])
    ∧ trimLower Char.toLower " " = trimLower Char.toLower ""
    ∧ (flushVmaps nftWorld Char.toLower
        [("guests_dst_access", [⟨["10.0.0.9", "br-lan"], "continue"⟩])]
        "10.0.0.5" " " "eth0" ["guests_dst_access"] false).map (fun r => r.state)
      = some [("guests_dst_access", [])]
    ∧ (flushVmaps nftWorld Char.toLower
        [("guests_dst_access", [⟨["10.0.0.9", "br-lan"], "continue"⟩])]
        "10.0.0.5" "" "eth0" ["guests_dst_access"] false).map (fun r => r.state)
      = some [("guests_dst_access", [⟨["10.0.0.9", "br-lan"], "continue"⟩])] := by
  refine ⟨by decide, by decide, by decide, by decide, by decide, by decide, by decide, by decide,
    by decide, by decide, by decide⟩

/-- C16, amended. For every two MAC strings `a` and `b` with the same canonical (trimmed,
lower-cased) form: every stored MAC equals `a` exactly when it equals `b`; `RemoveMember` and
`UpdateComment` persist the same zone list for both, `AddMember` the same list up to the
canonical form of the stored MACs, and Repopulate finds the same members in every zone; when
`a` and `b` are both empty or both non-empty, Flush does the same for both in every world.
`SetCredential` takes the string as given: for `a` non-empty and different from `b` it stores
the credential under `a` and leaves the key `b` as it was. -/
theorem C16_same_canonical_form_same_lookup (lowerRune : Char → Char) (a b : String)
    (hab : trimLower lowerRune a = trimLower lowerRune b) :
    (∀ e, equalMAC lowerRune e a = equalMAC lowerRune e b)
    ∧ (∀ zones zone, RemoveMember lowerRune zones zone a = RemoveMember lowerRune zones zone b)
    ∧ (∀ zones comment,
        UpdateComment lowerRune zones a comment = UpdateComment lowerRune zones b comment)
    ∧ (∀ zones zone comment,
        canonicalMacs lowerRune (AddMember lowerRune zones zone ⟨a, comment⟩)
          = canonicalMacs lowerRune (AddMember lowerRune zones zone ⟨b, comment⟩))
    ∧ (∀ zones : List ClientZone,
        zones.map (fun z => z.Clients.filter (fun c => equalMAC lowerRune c.Mac a))
          = zones.map (fun z => z.Clients.filter (fun c => equalMAC lowerRune c.Mac b)))
    ∧ ((a = "" ↔ b = "") →
        ∀ (σ : Type) (w : World σ) (s : σ) (IP Ifname : String) (names : List String)
          (matchInterface : Bool),
          flushVmaps w lowerRune s IP a Ifname names matchInterface
            = flushVmaps w lowerRune s IP b Ifname names matchInterface)
    ∧ (∀ file typ psk comment generated, a ≠ "" → a ≠ b →
        (SetCredential file a typ psk comment generated).code = 200 →
        (SetCredential file a typ psk comment generated).persisted.get a
            = some ⟨typ, a, if psk = "" then generated else psk, comment⟩
          ∧ (SetCredential file a typ psk comment generated).persisted.get b = file.get b) := by
  have heq := equalMAC_congr lowerRune a b hab
  refine ⟨heq, ?_, ?_, ?_, ?_, ?_, ?_⟩
  · intro zones zone
    simp only [RemoveMember, delZoneMember, delZoneLoop_congr lowerRune a b hab _ "" ""]
  · intro zones comment
    simp only [UpdateComment, updateDevice, heq]
  · intro zones zone comment
    exact addZoneLoop_canonical lowerRune a b hab _ comment zones
  · intro zones
    simp only [heq]
  · intro he σ w s IP Ifname names matchInterface
    apply flushVmaps_congr
    intro e
    have : decide (a ≠ "") = decide (b ≠ "") := by
      by_cases h : a = ""
      · simp [h, he.1 h]
      · have hb : b ≠ "" := fun hb => h (he.2 hb)
        simp [h, hb]
    simp only [flushMatch, heq, this]
  · intro file typ psk comment generated ha hne hacc
    rw [setPSK_keyed file a typ psk comment generated ha hacc]
    exact ⟨PSKMap.get_put_self _ _ _, PSKMap.get_put_other _ _ _ _ (Ne.symm hne)⟩

/-- C16, amended, for ` AA:BB:CC:DD:EE:02 ` and `aa:bb:cc:dd:ee:02`: removing either from the
zone `guests` persists the same list. -/
theorem C16_same_canonical_form_same_lookup_witness :
    trimLower Char.toLower " AA:BB:CC:DD:EE:02 " = trimLower Char.toLower "aa:bb:cc:dd:ee:02"
    ∧ RemoveMember Char.toLower
        [⟨"guests", [⟨"Aa:Bb:Cc:Dd:Ee:02", "phone"⟩, ⟨"aa:bb:cc:dd:ee:03", "tv"⟩]⟩]
        "guests" " AA:BB:CC:DD:EE:02 "
      = RemoveMember Char.toLower
        [⟨"guests", [⟨"Aa:Bb:Cc:Dd:Ee:02", "phone"⟩, ⟨"aa:bb:cc:dd:ee:03", "tv"⟩]⟩]
        "guests" "aa:bb:cc:dd:ee:02" :=
  ⟨by decide,
   (C16_same_canonical_form_same_lookup Char.toLower " AA:BB:CC:DD:EE:02 " "aa:bb:cc:dd:ee:02"
      (by decide)).2.1
      [⟨"guests", [⟨"Aa:Bb:Cc:Dd:Ee:02", "phone"⟩, ⟨"aa:bb:cc:dd:ee:03", "tv"⟩]⟩] "guests"⟩

end Super
